import Mathlib

/-!
Verification of the sc-machine storage core (sc_storage.c, sc_iterator3.c,
sc_event.c) against its natural-language specification.

The embedding is a sequential (single-thread) shallow embedding: monitor
acquisition and release are no-ops, the per-thread segment table degenerates
to a single optional binding, and the two loops of the source that range over
a finite address space receive an explicit fuel argument.  Machine integers
are modelled as Nat; the two element counters, which the source declares as
32-bit unsigned integers, wrap modulo 2 to the 32 on increment and decrement.
Constants that live in headers outside the provided sources are modelled from
the specification and carry a doc comment saying so.
-/

set_option autoImplicit false

namespace ScMachine

/-- Modelled from the spec: the number of element slots in one segment
(SC_SEGMENT_ELEMENTS_COUNT comes from a header that is not under src; the
spec fixes only that a segment is a fixed array of SEGMENT_CAPACITY slots,
a power of two; slot 0 is reserved for segment metadata). -/
def SC_SEGMENT_ELEMENTS_COUNT : Nat := 65536

/-- Modelled from the spec: the access-levels bit marking a live slot
(an element is live iff access_levels has the ELEMENT_EXIST bit). -/
def SC_ACCESS_LVL_ELEMENT_EXIST : Nat := 0x20

/-- Modelled from the spec: the access-levels bit marking a slot whose
deletion has been requested (invariant I5). -/
def SC_ACCESS_LVL_REQUEST_DELETION : Nat := 0x40

/-- Modelled from the spec: bit of the node category in the type bitmask. -/
def sc_type_node : Nat := 0x1

/-- Modelled from the spec: bit of the link category in the type bitmask. -/
def sc_type_link : Nat := 0x2

/-- Modelled from the spec: bit carried by undirected common edges. -/
def sc_type_edge_common : Nat := 0x4

/-- Modelled from the spec: bit carried by directed common arcs. -/
def sc_type_arc_common : Nat := 0x8

/-- Modelled from the spec: bit carried by access arcs. -/
def sc_type_arc_access : Nat := 0x10

/-- Modelled from the spec: the mask of all connector categories. -/
def sc_type_arc_mask : Nat :=
  sc_type_edge_common ||| sc_type_arc_common ||| sc_type_arc_access

/-- Modelled from the spec: the mask of the three element categories, the part
of the type that change_subtype must preserve. -/
def sc_type_element_mask : Nat := sc_type_node ||| sc_type_link ||| sc_type_arc_mask

/-- Modulus of the 32-bit unsigned counters of the source. -/
def U32_MOD : Nat := 2 ^ 32

/-- Increment of a 32-bit unsigned counter. -/
def inc32 (n : Nat) : Nat := (n + 1) % U32_MOD

/-- Decrement of a 32-bit unsigned counter (wraps at zero as in C). -/
def dec32 (n : Nat) : Nat := (n + (U32_MOD - 1)) % U32_MOD

/-- The result taxonomy of the storage operations (sc_result). -/
inductive ScResult where
  | ok
  | no
  | error
  | error_invalid_params
  | error_addr_is_not_valid
  | error_element_is_not_connector
  | error_element_is_not_link
  | error_invalid_type
  | error_io
  | error_full_memory
deriving DecidableEq, Repr

/-- A two-level storage address (sc_addr): segment number and offset. -/
structure ScAddr where
  seg : Nat
  offset : Nat
deriving DecidableEq, Repr

/-- The empty address (SC_ADDR_EMPTY): both components zero. -/
def SC_ADDR_EMPTY : ScAddr := ⟨0, 0⟩

/-- The connector payload of an element slot (the arc member of sc_element):
endpoints and the four intrusive incidence-list links. -/
structure ScArcInfo where
  beginAddr : ScAddr := SC_ADDR_EMPTY
  endAddr : ScAddr := SC_ADDR_EMPTY
  prev_out_arc : ScAddr := SC_ADDR_EMPTY
  next_out_arc : ScAddr := SC_ADDR_EMPTY
  prev_in_arc : ScAddr := SC_ADDR_EMPTY
  next_in_arc : ScAddr := SC_ADDR_EMPTY
deriving DecidableEq, Repr

/-- One element slot (sc_element): flags, connector payload, incidence list
heads and the two arc counters. -/
structure ScElement where
  type : Nat := 0
  access_levels : Nat := 0
  arc : ScArcInfo := {}
  first_out_arc : ScAddr := SC_ADDR_EMPTY
  first_in_arc : ScAddr := SC_ADDR_EMPTY
  output_arcs_count : Nat := 0
  input_arcs_count : Nat := 0
deriving DecidableEq, Repr

instance : Inhabited ScElement := ⟨{}⟩

/-- One segment (sc_segment): its number, the slot array (a total function;
the C array has SC_SEGMENT_ELEMENTS_COUNT slots, see
sc_segment_slot_index_valid), and the allocation cursors. -/
structure ScSegment where
  num : Nat
  elements : Nat → ScElement
  last_engaged_offset : Nat
  last_released_offset : Nat

/-- Modelled from the spec: a segment is a fixed array of SEGMENT_CAPACITY
element slots (sc_segment.h is not under src), so the valid slot indices are
exactly those strictly below SC_SEGMENT_ELEMENTS_COUNT. -/
def sc_segment_slot_index_valid (off : Nat) : Prop := off < SC_SEGMENT_ELEMENTS_COUNT

/-- Modelled from the spec: sc_segment_new allocates a zero-initialized
segment with the given number and both cursors at zero. -/
def sc_segment_new (num : Nat) : ScSegment :=
  { num := num
    elements := fun _ => {}
    last_engaged_offset := 0
    last_released_offset := 0 }

/-- The storage (sc_storage).  The segments array of pointers is a function
from zero-based index to an optional segment (none is a null pointer); the
per-thread segment table of the source degenerates in this single-thread
model to one optional segment number. -/
structure ScStorage where
  segments : Nat → Option ScSegment
  segments_count : Nat
  max_segments_count : Nat
  last_not_engaged_segment_num : Nat
  last_released_segment_num : Nat
  process_segment : Option Nat

/-- The validity guard at the top of sc_storage_get_element_by_addr, exactly
as the source writes it: an address is rejected when a component is zero,
when the segment number exceeds max_segments_count, or when the offset
exceeds (strictly) SC_SEGMENT_ELEMENTS_COUNT. -/
def sc_addr_guard_rejects (s : ScStorage) (addr : ScAddr) : Bool :=
  decide (addr.seg = 0) || decide (addr.offset = 0) ||
    decide (s.max_segments_count < addr.seg) ||
    decide (SC_SEGMENT_ELEMENTS_COUNT < addr.offset)

/-- Resolution of an address to an element (sc_storage_get_element_by_addr).
Mirrors the source: the guard, then the null check on the segment pointer,
then the ELEMENT_EXIST check; the out parameter is written as soon as the
slot is reached, even when the ELEMENT_EXIST check then fails. -/
def sc_storage_get_element_by_addr (s : ScStorage) (addr : ScAddr) :
    ScResult × Option ScElement :=
  if sc_addr_guard_rejects s addr then (ScResult.error_addr_is_not_valid, none)
  else
    match s.segments (addr.seg - 1) with
    | none => (ScResult.error_addr_is_not_valid, none)
    | some seg =>
      let el := seg.elements addr.offset
      if el.access_levels &&& SC_ACCESS_LVL_ELEMENT_EXIST = SC_ACCESS_LVL_ELEMENT_EXIST
      then (ScResult.ok, some el)
      else (ScResult.error_addr_is_not_valid, some el)

/-- True when the address resolves to a live element (sc_storage_is_element). -/
def sc_storage_is_element (s : ScStorage) (addr : ScAddr) : Bool :=
  decide ((sc_storage_get_element_by_addr s addr).1 = ScResult.ok)

/-- The live element at an address, if any. -/
def getLiveEl (s : ScStorage) (addr : ScAddr) : Option ScElement :=
  match sc_storage_get_element_by_addr s addr with
  | (ScResult.ok, some el) => some el
  | _ => none

/-- Replace the segment stored at a zero-based index. -/
def setSeg (s : ScStorage) (idx : Nat) (seg : ScSegment) : ScStorage :=
  { s with segments := fun i => if i = idx then some seg else s.segments i }

/-- Update the segment stored at a zero-based index, when present. -/
def updateSeg (s : ScStorage) (idx : Nat) (f : ScSegment → ScSegment) : ScStorage :=
  match s.segments idx with
  | none => s
  | some seg => setSeg s idx (f seg)

/-- Replace one slot of a segment. -/
def setSlot (seg : ScSegment) (off : Nat) (el : ScElement) : ScSegment :=
  { seg with elements := fun o => if o = off then el else seg.elements o }

/-- Write through a resolved element pointer: update the slot a C pointer to
the element at this address designates. -/
def updEl (s : ScStorage) (a : ScAddr) (f : ScElement → ScElement) : ScStorage :=
  updateSeg s (a.seg - 1) (fun seg => setSlot seg a.offset (f (seg.elements a.offset)))

/-- Read through an element pointer without any validity check (used to model
reads the source performs on a pointer it already holds). -/
def slotAt (s : ScStorage) (a : ScAddr) : ScElement :=
  match s.segments (a.seg - 1) with
  | none => {}
  | some seg => seg.elements a.offset

/-- Count of outgoing arcs stored at an address
(sc_storage_get_element_output_arcs_count): zero whenever resolution fails. -/
def sc_storage_get_element_output_arcs_count (s : ScStorage) (addr : ScAddr) : Nat :=
  match sc_storage_get_element_by_addr s addr with
  | (ScResult.ok, some el) => el.output_arcs_count
  | _ => 0

/-- Count of incoming arcs stored at an address
(sc_storage_get_element_input_arcs_count): zero whenever resolution fails. -/
def sc_storage_get_element_input_arcs_count (s : ScStorage) (addr : ScAddr) : Nat :=
  match sc_storage_get_element_by_addr s addr with
  | (ScResult.ok, some el) => el.input_arcs_count
  | _ => 0

/-- Whether sc_storage_get_element_by_addr writes its out pointer for this
address: it does as soon as the slot is reached (guard passed and segment
present), even when the liveness check then fails. -/
def slotReached (s : ScStorage) (a : ScAddr) : Bool :=
  (sc_storage_get_element_by_addr s a).2.isSome

/-- Inspection of a candidate segment (_sc_storage_check_segment_type): keep
it and report released slots when its free list is non-empty, drop it when
its engaged cursor is exhausted.  Segments are designated by number. -/
def _sc_storage_check_segment_type (s : ScStorage) (segNum : Nat) : Option Nat × Bool :=
  match s.segments (segNum - 1) with
  | none => (none, false)
  | some seg =>
    if seg.last_released_offset ≠ 0 then (some segNum, true)
    else if seg.last_engaged_offset + 1 = SC_SEGMENT_ELEMENTS_COUNT then (none, false)
    else (some segNum, false)

/-- Pop of the head of the not-engaged segment chain
(_sc_storage_get_last_not_engaged_segment); the chain is threaded through the
access_levels field of slot 0 of each segment. -/
def _sc_storage_get_last_not_engaged_segment (s : ScStorage) : ScStorage × Option Nat :=
  let segment_num := s.last_not_engaged_segment_num
  if segment_num = 0 then (s, none)
  else
    match s.segments (segment_num - 1) with
    | none => (s, none)
    | some seg =>
      let s1 := { s with last_not_engaged_segment_num := (seg.elements 0).access_levels }
      let s2 := updEl s1 ⟨segment_num, 0⟩ (fun el => { el with access_levels := 0 })
      (s2, some segment_num)

/-- The storage extended by a fresh blank segment appended at the end of the
segments vector. -/
def newSegState (s : ScStorage) : ScStorage :=
  { setSeg s s.segments_count (sc_segment_new (s.segments_count + 1)) with
      segments_count := s.segments_count + 1 }

/-- Creation of a fresh segment when the pool is not yet at its maximum
(_sc_storage_get_new_segment). -/
def _sc_storage_get_new_segment (s : ScStorage) : ScStorage × Option Nat :=
  if s.segments_count = s.max_segments_count then (s, none)
  else (newSegState s, some (s.segments_count + 1))

/-- The most recently created segment, when it still has virgin slots
(_sc_storage_get_last_free_segment). -/
def _sc_storage_get_last_free_segment (s : ScStorage) : Option Nat :=
  if s.segments_count = 0 then none
  else
    match s.segments (s.segments_count - 1) with
    | none => none
    | some seg =>
      if seg.last_engaged_offset + 1 = SC_SEGMENT_ELEMENTS_COUNT then none
      else some seg.num

/-- The slow path of _sc_storage_get_segment: pop the not-engaged chain, then
create a segment, then fall back to the last segment; bind the choice to the
thread and inspect it. -/
def _sc_storage_get_segment_slow (s : ScStorage) : ScStorage × Option Nat × Bool :=
  match _sc_storage_get_last_not_engaged_segment s with
  | (s1, seg1) =>
    match (match seg1 with
           | some n => (s1, some n)
           | none =>
             match _sc_storage_get_new_segment s1 with
             | (s3, some n) => (s3, some n)
             | (s3, none) => (s3, _sc_storage_get_last_free_segment s3)) with
    | (s2, none) => (s2, none, false)
    | (s2, some n) =>
      match _sc_storage_check_segment_type { s2 with process_segment := some n } n with
      | (segOpt, released) =>
        ({ s2 with process_segment := some n }, segOpt, released)

/-- Selection of the segment the current thread allocates from
(_sc_storage_get_segment).  The per-thread table of the source is the single
process_segment binding of this sequential model. -/
def _sc_storage_get_segment (s : ScStorage) : ScStorage × Option Nat × Bool :=
  match (match s.process_segment with
         | none => (none, false)
         | some n => _sc_storage_check_segment_type s n) with
  | (some n, released) => (s, some n, released)
  | (none, _) => _sc_storage_get_segment_slow s

/-- Engagement of a slot in the segment bound to the current thread
(_sc_storage_get_element): pop the head of the segment free list, or bump the
engaged cursor. -/
def _sc_storage_get_element (s : ScStorage) : ScStorage × Option ScAddr :=
  match _sc_storage_get_segment s with
  | (s1, none, _) => (s1, none)
  | (s1, some n, released) =>
    match s1.segments (n - 1) with
    | none => (s1, none)
    | some seg =>
      if released then
        let off := seg.last_released_offset
        let el := seg.elements off
        let seg1 :=
          { setSlot seg off { el with type := 0 } with last_released_offset := el.type }
        (setSeg s1 (n - 1) seg1, some ⟨n, off⟩)
      else
        let off := seg.last_engaged_offset + 1
        (setSeg s1 (n - 1) { seg with last_engaged_offset := off }, some ⟨n, off⟩)

/-- The loop body of _sc_storage_get_released_element.  The C loop terminates
because every advance step zeroes the chain link of the segment it leaves, so
at most one pass over the (at most max_segments_count) chained segments plus
two exit iterations can happen; the fuel makes that bound explicit. -/
def _sc_storage_get_released_element_loop (s : ScStorage) (fuel : Nat) :
    ScStorage × Option ScAddr :=
  match fuel with
  | 0 => (s, none)
  | fuel + 1 =>
    let segment_num := s.last_released_segment_num
    if segment_num = 0 ∨ s.max_segments_count < segment_num then (s, none)
    else
      match s.segments (segment_num - 1) with
      | none => (s, none)
      | some seg =>
        let off := seg.last_released_offset
        if off = 0 then
          let s1 := { s with last_released_segment_num := (seg.elements 0).type }
          let s2 := updEl s1 ⟨segment_num, 0⟩ (fun el => { el with type := 0 })
          _sc_storage_get_released_element_loop s2 fuel
        else
          let el := seg.elements off
          let seg1 :=
            { setSlot seg off { el with type := 0 } with last_released_offset := el.type }
          let s1 := setSeg s (segment_num - 1) seg1
          if seg1.last_released_offset = 0 then
            let s2 := { s1 with last_released_segment_num := (seg1.elements 0).type }
            (updEl s2 ⟨segment_num, 0⟩ (fun el => { el with type := 0 }),
              some ⟨segment_num, off⟩)
          else (s1, some ⟨segment_num, off⟩)

/-- Recycling of a released slot from the pool-wide released segment chain
(_sc_storage_get_released_element). -/
def _sc_storage_get_released_element (s : ScStorage) : ScStorage × Option ScAddr :=
  _sc_storage_get_released_element_loop s (s.max_segments_count + 2)

/-- Allocation of a new element slot (sc_storage_allocate_new_element): try
the thread segment, fall back to the released chain, and mark the obtained
slot live. -/
def sc_storage_allocate_new_element (s : ScStorage) : ScStorage × Option ScAddr :=
  match _sc_storage_get_element s with
  | (s1, some a) =>
    (updEl s1 a (fun el =>
        { el with access_levels := el.access_levels ||| SC_ACCESS_LVL_ELEMENT_EXIST }),
      some a)
  | (s1, none) =>
    match _sc_storage_get_released_element s1 with
    | (s2, some a) =>
      (updEl s2 a (fun el =>
          { el with access_levels := el.access_levels ||| SC_ACCESS_LVL_ELEMENT_EXIST }),
        some a)
    | (s2, none) => (s2, none)

/-- Return of a slot to the free list of its segment (sc_storage_free_element):
the slot is overwritten by a blank element whose type field holds the former
free-list head, and the segment enters the pool released chain when its free
list was empty. -/
def sc_storage_free_element (s : ScStorage) (addr : ScAddr) : ScStorage × ScResult :=
  if (sc_storage_get_element_by_addr s addr).1 = ScResult.ok then
    match s.segments (addr.seg - 1) with
    | none => (s, ScResult.error_addr_is_not_valid)
    | some seg =>
      let last_released := seg.last_released_offset
      let seg1 :=
        { setSlot seg addr.offset { type := last_released } with
            last_released_offset := addr.offset }
      let s1 := setSeg s (addr.seg - 1) seg1
      if last_released = 0 then
        let s2 := updEl s1 ⟨addr.seg, 0⟩ (fun el =>
          { el with type := s1.last_released_segment_num })
        ({ s2 with last_released_segment_num := seg1.num }, ScResult.ok)
      else (s1, ScResult.ok)
  else (s, ScResult.error_addr_is_not_valid)

/-- The closed set of event kinds the core emits. -/
inductive ScEventType where
  | add_output_arc
  | add_input_arc
  | remove_output_arc
  | remove_input_arc
  | remove_element
  | content_changed
deriving DecidableEq, Repr

/-- One call of sc_event_emit as recorded by a mutator: subscriber element,
its access levels at emit time, the kind, and the two argument addresses. -/
structure ScEvent where
  el : ScAddr
  el_access : Nat
  type : ScEventType
  edge : ScAddr
  other : ScAddr
deriving DecidableEq, Repr

/-- Threading of a fresh connector at the head of the out-list of one element
and the in-list of another (_sc_storage_make_elements_incident_to_arc), with
reads and writes in source order. -/
def _sc_storage_make_elements_incident_to_arc (s : ScStorage)
    (arc_addr beg_addr end_addr : ScAddr) : ScStorage :=
  let first_out_arc := (slotAt s beg_addr).first_out_arc
  let first_in_arc := (slotAt s end_addr).first_in_arc
  let have_f_out := decide (first_out_arc ≠ SC_ADDR_EMPTY) && slotReached s first_out_arc
  let have_f_in := decide (first_in_arc ≠ SC_ADDR_EMPTY) && slotReached s first_in_arc
  let s1 := updEl s arc_addr (fun el =>
    { el with arc :=
        { el.arc with next_out_arc := first_out_arc, next_in_arc := first_in_arc } })
  let s2 :=
    if have_f_out then
      updEl s1 first_out_arc (fun el =>
        { el with arc := { el.arc with prev_out_arc := arc_addr } })
    else s1
  let s3 :=
    if have_f_in then
      updEl s2 first_in_arc (fun el =>
        { el with arc := { el.arc with prev_in_arc := arc_addr } })
    else s2
  let s4 := updEl s3 beg_addr (fun el => { el with first_out_arc := arc_addr })
  let s5 := updEl s4 end_addr (fun el => { el with first_in_arc := arc_addr })
  let s6 := updEl s5 beg_addr (fun el =>
    { el with output_arcs_count := inc32 el.output_arcs_count })
  updEl s6 end_addr (fun el =>
    { el with input_arcs_count := inc32 el.input_arcs_count })

/-- Filling of a freshly allocated connector slot with its type and endpoints
(the three writes sc_storage_arc_new performs right after allocation). -/
def _sc_storage_arc_fill (s : ScStorage) (type : Nat)
    (beg_addr end_addr arc_addr : ScAddr) : ScStorage :=
  updEl s arc_addr (fun el =>
    { el with type := type,
              arc := { el.arc with beginAddr := beg_addr, endAddr := end_addr } })

/-- The linking tail of sc_storage_arc_new once both endpoints resolved:
incidence threading (twice for a non-loop undirected edge) and the event
emissions, whose access argument is read from the begin element at emit
time. -/
def _sc_storage_arc_new_link (s : ScStorage) (type : Nat)
    (beg_addr end_addr arc_addr : ScAddr) : ScStorage × ScAddr × List ScEvent :=
  let is_edge := type &&& sc_type_edge_common = sc_type_edge_common
  let is_not_loop := beg_addr ≠ end_addr
  let s1 := _sc_storage_make_elements_incident_to_arc s arc_addr beg_addr end_addr
  let s2 :=
    if is_edge ∧ is_not_loop then
      _sc_storage_make_elements_incident_to_arc s1 arc_addr end_addr beg_addr
    else s1
  let acc := (slotAt s2 beg_addr).access_levels
  let evs : List ScEvent :=
    [⟨beg_addr, acc, ScEventType.add_output_arc, arc_addr, end_addr⟩,
     ⟨end_addr, acc, ScEventType.add_input_arc, arc_addr, beg_addr⟩] ++
      (if is_edge ∧ is_not_loop then
        [⟨end_addr, acc, ScEventType.add_output_arc, arc_addr, beg_addr⟩,
         ⟨beg_addr, acc, ScEventType.add_input_arc, arc_addr, end_addr⟩]
      else [])
  (s2, arc_addr, evs)

/-- Creation of a connector (sc_storage_arc_new): fail fast on an empty
endpoint, allocate and fill the connector slot, resolve both endpoints (in
the post-allocation state, as the source does), free the slot and return the
empty address on a resolution failure, otherwise link and emit. -/
def sc_storage_arc_new (s : ScStorage) (type : Nat) (beg_addr end_addr : ScAddr) :
    ScStorage × ScAddr × List ScEvent :=
  if beg_addr = SC_ADDR_EMPTY ∨ end_addr = SC_ADDR_EMPTY then (s, SC_ADDR_EMPTY, [])
  else
    match sc_storage_allocate_new_element s with
    | (s1, none) => (s1, SC_ADDR_EMPTY, [])
    | (s1, some arc_addr) =>
      let s2 := _sc_storage_arc_fill s1 type beg_addr end_addr arc_addr
      if (sc_storage_get_element_by_addr s2 beg_addr).1 ≠ ScResult.ok then
        ((sc_storage_free_element s2 arc_addr).1, SC_ADDR_EMPTY, [])
      else if (sc_storage_get_element_by_addr s2 end_addr).1 ≠ ScResult.ok then
        ((sc_storage_free_element s2 arc_addr).1, SC_ADDR_EMPTY, [])
      else _sc_storage_arc_new_link s2 type beg_addr end_addr arc_addr

/-- Setting the byte content of a link (sc_storage_set_link_content).  The
stream read and the FS-memory collaborator are external: their outcomes are
the two Boolean parameters.  The source returns through its error label with
the result variable still holding the OK written by the successful address
resolution when the collaborator fails, so that branch yields OK with no
event. -/
def sc_storage_set_link_content (s : ScStorage) (addr : ScAddr)
    (stream_ok fs_ok : Bool) : ScResult × List ScEvent :=
  if !stream_ok then (ScResult.error_io, [])
  else
    match sc_storage_get_element_by_addr s addr with
    | (ScResult.ok, some el) =>
      if el.type &&& sc_type_link ≠ sc_type_link then
        (ScResult.error_element_is_not_link, [])
      else if !fs_ok then (ScResult.ok, [])
      else
        (ScResult.ok,
          [⟨addr, el.access_levels, ScEventType.content_changed, SC_ADDR_EMPTY,
            SC_ADDR_EMPTY⟩])
    | (r, _) => (r, [])

/-- A blank slot up to its type field, which a slot on a free list repurposes
as the next-free link (spec, data model). -/
def slotClean (el : ScElement) : Prop := el = { type := el.type }

/-- Well-formedness of the allocator state, from the spec invariants: null
segment pointers exactly above segments_count, the pool never exceeds
max_segments_count, segment numbers are successor indices, cursors stay in
the slot range, the head of a non-empty per-segment free list is a blank
recycled slot, and the first virgin slot of a non-exhausted segment is
blank. -/
structure AllocWF (s : ScStorage) : Prop where
  seg_none : ∀ i, s.segments_count ≤ i → s.segments i = none
  count_le : s.segments_count ≤ s.max_segments_count
  seg_num : ∀ i seg, s.segments i = some seg → seg.num = i + 1
  cursors : ∀ i seg, s.segments i = some seg →
    seg.last_engaged_offset + 1 ≤ SC_SEGMENT_ELEMENTS_COUNT ∧
    seg.last_released_offset ≤ SC_SEGMENT_ELEMENTS_COUNT
  released_clean : ∀ i seg, s.segments i = some seg →
    seg.last_released_offset ≠ 0 → slotClean (seg.elements seg.last_released_offset)
  virgin_clean : ∀ i seg, s.segments i = some seg →
    seg.last_engaged_offset + 1 ≠ SC_SEGMENT_ELEMENTS_COUNT →
    seg.elements (seg.last_engaged_offset + 1) = {}
  process_pos : ∀ n, s.process_segment = some n → n ≠ 0

/-- Unfolding equation for getLiveEl in plain if and match form. -/
theorem getLiveEl_def (s : ScStorage) (a : ScAddr) :
    getLiveEl s a =
      if sc_addr_guard_rejects s a then none
      else
        match s.segments (a.seg - 1) with
        | none => none
        | some seg =>
          if (seg.elements a.offset).access_levels &&& SC_ACCESS_LVL_ELEMENT_EXIST =
              SC_ACCESS_LVL_ELEMENT_EXIST
          then some (seg.elements a.offset)
          else none := by
  unfold getLiveEl sc_storage_get_element_by_addr
  by_cases hg : sc_addr_guard_rejects s a
  · simp [hg]
  · simp only [hg, Bool.false_eq_true, if_false]
    cases s.segments (a.seg - 1) with
    | none => rfl
    | some seg =>
      by_cases hacc : (seg.elements a.offset).access_levels &&&
          SC_ACCESS_LVL_ELEMENT_EXIST = SC_ACCESS_LVL_ELEMENT_EXIST
      · simp [hacc]
      · simp [hacc]

/-- What a successful resolution implies about the state. -/
theorem getLiveEl_eq_some_elim {s : ScStorage} {a : ScAddr} {el : ScElement}
    (h : getLiveEl s a = some el) :
    sc_addr_guard_rejects s a = false ∧
    ∃ seg, s.segments (a.seg - 1) = some seg ∧ seg.elements a.offset = el ∧
      el.access_levels &&& SC_ACCESS_LVL_ELEMENT_EXIST =
        SC_ACCESS_LVL_ELEMENT_EXIST := by
  rw [getLiveEl_def] at h
  split at h
  · exact Option.noConfusion h
  · rename_i hg
    split at h
    · exact Option.noConfusion h
    · rename_i seg hseg
      split at h
      · rename_i hacc
        cases h
        exact ⟨Bool.eq_false_iff.2 hg, seg, hseg, rfl, hacc⟩
      · exact Option.noConfusion h

/-- How to establish a successful resolution. -/
theorem getLiveEl_eq_some_intro (s : ScStorage) (a : ScAddr) (seg : ScSegment)
    (hg : sc_addr_guard_rejects s a = false)
    (hseg : s.segments (a.seg - 1) = some seg)
    (hacc : (seg.elements a.offset).access_levels &&& SC_ACCESS_LVL_ELEMENT_EXIST =
      SC_ACCESS_LVL_ELEMENT_EXIST) :
    getLiveEl s a = some (seg.elements a.offset) := by
  rw [getLiveEl_def, hg]
  simp only [Bool.false_eq_true, if_false, hseg, hacc, if_true]

/-- A dead slot does not resolve. -/
theorem getLiveEl_eq_none_of_dead (s : ScStorage) (a : ScAddr)
    (h : ∀ seg, s.segments (a.seg - 1) = some seg →
      (seg.elements a.offset).access_levels &&& SC_ACCESS_LVL_ELEMENT_EXIST ≠
        SC_ACCESS_LVL_ELEMENT_EXIST) :
    getLiveEl s a = none := by
  cases hel : getLiveEl s a with
  | none => rfl
  | some el =>
    rcases getLiveEl_eq_some_elim hel with ⟨-, seg, hseg, helq, hacc⟩
    cases helq
    exact absurd hacc (h seg hseg)

/-- The guard only reads max_segments_count. -/
theorem sc_addr_guard_rejects_congr (s s1 : ScStorage) (a : ScAddr)
    (h : s1.max_segments_count = s.max_segments_count) :
    sc_addr_guard_rejects s1 a = sc_addr_guard_rejects s a := by
  unfold sc_addr_guard_rejects
  rw [h]

/-- Resolution only reads the segments function and max_segments_count. -/
theorem getLiveEl_congr (s s1 : ScStorage) (a : ScAddr)
    (hseg : s1.segments = s.segments)
    (hmax : s1.max_segments_count = s.max_segments_count) :
    getLiveEl s1 a = getLiveEl s a := by
  unfold getLiveEl sc_storage_get_element_by_addr
  rw [sc_addr_guard_rejects_congr s s1 a hmax, hseg]

/-- setSeg leaves the other segment slots alone. -/
theorem setSeg_segments_ne (s : ScStorage) (idx : Nat) (seg : ScSegment)
    (i : Nat) (h : i ≠ idx) : (setSeg s idx seg).segments i = s.segments i := by
  unfold setSeg
  simp [h]

/-- setSeg writes the given segment slot. -/
theorem setSeg_segments_eq (s : ScStorage) (idx : Nat) (seg : ScSegment) :
    (setSeg s idx seg).segments idx = some seg := by
  unfold setSeg
  simp

/-- setSlot leaves the other element slots alone. -/
theorem setSlot_elements_ne (seg : ScSegment) (off : Nat) (el : ScElement)
    (o : Nat) (h : o ≠ off) : (setSlot seg off el).elements o = seg.elements o := by
  unfold setSlot
  simp [h]

/-- setSlot writes the given element slot. -/
theorem setSlot_elements_eq (seg : ScSegment) (off : Nat) (el : ScElement) :
    (setSlot seg off el).elements off = el := by
  unfold setSlot
  simp

/-- An update through an element pointer preserves the segments function at
all other indices and changes only one slot of its own segment. -/
theorem updEl_segments (s : ScStorage) (a : ScAddr) (f : ScElement → ScElement)
    (i : Nat) (h : i ≠ a.seg - 1) : (updEl s a f).segments i = s.segments i := by
  unfold updEl updateSeg
  cases hseg : s.segments (a.seg - 1) with
  | none => rfl
  | some seg => exact setSeg_segments_ne _ _ _ _ h

/-- updEl does not touch the pool-level bookkeeping fields. -/
theorem updEl_max (s : ScStorage) (a : ScAddr) (f : ScElement → ScElement) :
    (updEl s a f).max_segments_count = s.max_segments_count := by
  unfold updEl updateSeg
  cases s.segments (a.seg - 1) with
  | none => rfl
  | some seg => rfl

/-- The slot write of updEl as seen through the segments function at its own
segment index. -/
theorem updEl_segments_self (s : ScStorage) (a : ScAddr) (f : ScElement → ScElement) :
    (updEl s a f).segments (a.seg - 1) =
      match s.segments (a.seg - 1) with
      | none => none
      | some seg => some (setSlot seg a.offset (f (seg.elements a.offset))) := by
  unfold updEl updateSeg
  cases hseg : s.segments (a.seg - 1) with
  | none => rw [hseg]
  | some seg => exact setSeg_segments_eq _ _ _

/-- The slot write of updEl at its own segment, when that segment exists. -/
theorem updEl_segments_self_some (s : ScStorage) (a : ScAddr)
    (f : ScElement → ScElement) (seg : ScSegment)
    (hseg : s.segments (a.seg - 1) = some seg) :
    (updEl s a f).segments (a.seg - 1) =
      some (setSlot seg a.offset (f (seg.elements a.offset))) := by
  rw [updEl_segments_self, hseg]

/-- An update through an element pointer leaves resolution at every other
address unchanged; an update at slot zero (which no address resolves to)
changes nothing visible at all. -/
theorem getLiveEl_updEl_ne (s : ScStorage) (a : ScAddr) (f : ScElement → ScElement)
    (ha : a.seg ≠ 0) (x : ScAddr) (hx : x ≠ a ∨ a.offset = 0) :
    getLiveEl (updEl s a f) x = getLiveEl s x := by
  have hmax := updEl_max s a f
  rw [getLiveEl_def, getLiveEl_def, sc_addr_guard_rejects_congr s (updEl s a f) x hmax]
  by_cases hg : sc_addr_guard_rejects s x
  · rw [if_pos hg, if_pos hg]
  · rw [if_neg hg, if_neg hg]
    have hx0 : x.offset ≠ 0 := by
      intro h
      apply hg
      unfold sc_addr_guard_rejects
      simp [h]
    by_cases hi : x.seg - 1 = a.seg - 1
    · have hxseg : x.seg ≠ 0 := by
        intro h
        apply hg
        unfold sc_addr_guard_rejects
        simp [h]
      have hxo : x.offset ≠ a.offset := by
        rcases hx with hne | h0
        · have hsegeq : x.seg = a.seg := by omega
          intro heq
          apply hne
          cases x
          cases a
          simp_all
        · rw [h0]
          exact hx0
      rw [hi, updEl_segments_self]
      cases hseg : s.segments (a.seg - 1) with
      | none => rfl
      | some seg =>
        simp only []
        rw [setSlot_elements_ne seg a.offset _ x.offset hxo]
    · rw [updEl_segments s a f (x.seg - 1) hi]

/-- The guard accepts an address whose components are in range. -/
theorem sc_addr_guard_rejects_eq_false (s : ScStorage) (a : ScAddr)
    (h1 : a.seg ≠ 0) (h2 : a.offset ≠ 0) (h3 : a.seg ≤ s.max_segments_count)
    (h4 : a.offset ≤ SC_SEGMENT_ELEMENTS_COUNT) :
    sc_addr_guard_rejects s a = false := by
  unfold sc_addr_guard_rejects
  simp only [Bool.or_eq_false_iff, decide_eq_false_iff_not]
  omega

/-- What the guard accepting an address means. -/
theorem sc_addr_guard_rejects_elim {s : ScStorage} {a : ScAddr}
    (h : sc_addr_guard_rejects s a = false) :
    a.seg ≠ 0 ∧ a.offset ≠ 0 ∧ a.seg ≤ s.max_segments_count ∧
      a.offset ≤ SC_SEGMENT_ELEMENTS_COUNT := by
  unfold sc_addr_guard_rejects at h
  simp only [Bool.or_eq_false_iff, decide_eq_false_iff_not] at h
  omega

/-- updEl leaves every pool-level field of the storage record unchanged. -/
theorem updEl_fields (s : ScStorage) (a : ScAddr) (f : ScElement → ScElement) :
    (updEl s a f).segments_count = s.segments_count ∧
    (updEl s a f).max_segments_count = s.max_segments_count ∧
    (updEl s a f).last_not_engaged_segment_num = s.last_not_engaged_segment_num ∧
    (updEl s a f).last_released_segment_num = s.last_released_segment_num ∧
    (updEl s a f).process_segment = s.process_segment := by
  unfold updEl updateSeg
  cases s.segments (a.seg - 1) with
  | none => exact ⟨rfl, rfl, rfl, rfl, rfl⟩
  | some seg => exact ⟨rfl, rfl, rfl, rfl, rfl⟩

/-- setSlot leaves the segment number and both cursors unchanged. -/
theorem setSlot_fields (seg : ScSegment) (off : Nat) (el : ScElement) :
    (setSlot seg off el).num = seg.num ∧
    (setSlot seg off el).last_engaged_offset = seg.last_engaged_offset ∧
    (setSlot seg off el).last_released_offset = seg.last_released_offset :=
  ⟨rfl, rfl, rfl⟩

/-- Replacing one segment by a version that differs only in slots other than
the given offset (and in its cursors) leaves resolution at every address
other than the one naming that slot unchanged. -/
theorem getLiveEl_setSeg_slot (t : ScStorage) (n : Nat) (hn : n ≠ 0)
    (seg seg1 : ScSegment) (hseg : t.segments (n - 1) = some seg) (off : Nat)
    (hel : ∀ o, o ≠ off → seg1.elements o = seg.elements o) (x : ScAddr)
    (hx : x ≠ ⟨n, off⟩) :
    getLiveEl (setSeg t (n - 1) seg1) x = getLiveEl t x := by
  rw [getLiveEl_def, getLiveEl_def,
    sc_addr_guard_rejects_congr t (setSeg t (n - 1) seg1) x rfl]
  by_cases hg : sc_addr_guard_rejects t x
  · rw [if_pos hg, if_pos hg]
  · rw [if_neg hg, if_neg hg]
    have hx0 : x.offset ≠ 0 := by
      intro h
      apply hg
      unfold sc_addr_guard_rejects
      simp [h]
    have hxseg : x.seg ≠ 0 := by
      intro h
      apply hg
      unfold sc_addr_guard_rejects
      simp [h]
    by_cases hi : x.seg - 1 = n - 1
    · have hsegeq : x.seg = n := by omega
      have hxo : x.offset ≠ off := by
        intro heq
        apply hx
        cases x
        simp_all
      rw [hi, setSeg_segments_eq, hseg]
      dsimp only
      rw [hel x.offset hxo]
    · rw [setSeg_segments_ne _ _ _ _ hi]

/-- updEl on a missing segment is a no-op. -/
theorem updEl_none_eq (s : ScStorage) (a : ScAddr) (f : ScElement → ScElement)
    (h : s.segments (a.seg - 1) = none) : updEl s a f = s := by
  unfold updEl updateSeg
  rw [h]

/-- An update through an element pointer that preserves the access levels
preserves resolution of the updated address. -/
theorem getLiveEl_updEl_self (s : ScStorage) (a : ScAddr) (f : ScElement → ScElement)
    (el : ScElement) (h : getLiveEl s a = some el)
    (hacc : (f el).access_levels = el.access_levels) :
    getLiveEl (updEl s a f) a = some (f el) := by
  rcases getLiveEl_eq_some_elim h with ⟨hg, seg, hseg, helq, hex⟩
  have hg2 : sc_addr_guard_rejects (updEl s a f) a = false := by
    rw [sc_addr_guard_rejects_congr s (updEl s a f) a (updEl_fields s a f).2.1]
    exact hg
  have hseg2 : (updEl s a f).segments (a.seg - 1) =
      some (setSlot seg a.offset (f (seg.elements a.offset))) := by
    rw [updEl_segments_self, hseg]
  have hslot : (setSlot seg a.offset (f (seg.elements a.offset))).elements a.offset =
      f el := by
    rw [setSlot_elements_eq, helq]
  have hres := getLiveEl_eq_some_intro (updEl s a f) a
    (setSlot seg a.offset (f (seg.elements a.offset))) hg2 hseg2
    (by rw [hslot, hacc]; exact hex)
  rw [hslot] at hres
  exact hres

/-- Resolution agrees on two states everywhere. -/
def preservesLive (s s1 : ScStorage) : Prop := ∀ x, getLiveEl s1 x = getLiveEl s x

theorem preservesLive_refl (s : ScStorage) : preservesLive s s := fun _ => rfl

theorem preservesLive_trans {s s1 s2 : ScStorage} (h1 : preservesLive s s1)
    (h2 : preservesLive s1 s2) : preservesLive s s2 :=
  fun x => (h2 x).trans (h1 x)

/-- Transfer of the allocator well-formedness along a state with identical
segment structure. -/
theorem AllocWF_of_eq (s s1 : ScStorage) (h : AllocWF s)
    (hseg : s1.segments = s.segments) (hc : s1.segments_count = s.segments_count)
    (hm : s1.max_segments_count = s.max_segments_count)
    (hp : ∀ n, s1.process_segment = some n → n ≠ 0) : AllocWF s1 := by
  constructor
  · intro i hi
    rw [hseg]
    exact h.seg_none i (by omega)
  · rw [hc, hm]
    exact h.count_le
  · intro i seg hs
    rw [hseg] at hs
    exact h.seg_num i seg hs
  · intro i seg hs
    rw [hseg] at hs
    exact h.cursors i seg hs
  · intro i seg hs
    rw [hseg] at hs
    exact h.released_clean i seg hs
  · intro i seg hs
    rw [hseg] at hs
    exact h.virgin_clean i seg hs
  · exact hp

/-- An update of a slot-zero element preserves the allocator
well-formedness. -/
theorem AllocWF_updEl_zero (s : ScStorage) (n : Nat) (f : ScElement → ScElement)
    (h : AllocWF s) : AllocWF (updEl s ⟨n, 0⟩ f) := by
  cases hseg : s.segments ((⟨n, 0⟩ : ScAddr).seg - 1) with
  | none =>
    rw [updEl_none_eq s ⟨n, 0⟩ f hseg]
    exact h
  | some seg =>
    have hfields := updEl_fields s ⟨n, 0⟩ f
    have hself := updEl_segments_self_some s ⟨n, 0⟩ f seg hseg
    constructor
    · intro i hi
      rw [hfields.1] at hi
      by_cases hieq : i = (⟨n, 0⟩ : ScAddr).seg - 1
      · rw [hieq] at hi
        have hnone := h.seg_none _ hi
        rw [hnone] at hseg
        exact Option.noConfusion hseg
      · rw [updEl_segments s ⟨n, 0⟩ f i hieq]
        exact h.seg_none i hi
    · rw [hfields.1, hfields.2.1]
      exact h.count_le
    · intro i seg2 hs
      by_cases hieq : i = (⟨n, 0⟩ : ScAddr).seg - 1
      · rw [hieq, hself] at hs
        cases hs
        rw [hieq]
        exact h.seg_num _ seg hseg
      · rw [updEl_segments s ⟨n, 0⟩ f i hieq] at hs
        exact h.seg_num i seg2 hs
    · intro i seg2 hs
      by_cases hieq : i = (⟨n, 0⟩ : ScAddr).seg - 1
      · rw [hieq, hself] at hs
        cases hs
        exact h.cursors _ seg hseg
      · rw [updEl_segments s ⟨n, 0⟩ f i hieq] at hs
        exact h.cursors i seg2 hs
    · intro i seg2 hs hlr
      by_cases hieq : i = (⟨n, 0⟩ : ScAddr).seg - 1
      · rw [hieq, hself] at hs
        cases hs
        have hlr2 : seg.last_released_offset ≠ 0 := hlr
        have hcl := h.released_clean _ seg hseg hlr2
        show slotClean ((setSlot seg 0 (f (seg.elements 0))).elements
          seg.last_released_offset)
        rw [setSlot_elements_ne seg 0 _ _ hlr2]
        exact hcl
      · rw [updEl_segments s ⟨n, 0⟩ f i hieq] at hs
        exact h.released_clean i seg2 hs hlr
    · intro i seg2 hs hne
      by_cases hieq : i = (⟨n, 0⟩ : ScAddr).seg - 1
      · rw [hieq, hself] at hs
        cases hs
        have hne2 : seg.last_engaged_offset + 1 ≠ SC_SEGMENT_ELEMENTS_COUNT := hne
        have hcl := h.virgin_clean _ seg hseg hne2
        show (setSlot seg 0 (f (seg.elements 0))).elements
            (seg.last_engaged_offset + 1) = {}
        rw [setSlot_elements_ne seg 0 _ _ (by omega)]
        exact hcl
      · rw [updEl_segments s ⟨n, 0⟩ f i hieq] at hs
        exact h.virgin_clean i seg2 hs hne
    · intro m hm
      rw [hfields.2.2.2.2] at hm
      exact h.process_pos m hm

/-- The segments function of the extended storage, pointwise. -/
theorem newSegState_segments (s : ScStorage) (i : Nat) :
    (newSegState s).segments i =
      if i = s.segments_count then some (sc_segment_new (s.segments_count + 1))
      else s.segments i := rfl

/-- Appending a blank segment to a well-formed pool keeps it well-formed. -/
theorem AllocWF_newSegState (s : ScStorage) (h : AllocWF s)
    (hne : s.segments_count ≠ s.max_segments_count) : AllocWF (newSegState s) := by
  constructor
  · intro i hi
    rw [newSegState_segments]
    have hic : i ≠ s.segments_count := by
      show ¬ i = s.segments_count
      have : (newSegState s).segments_count = s.segments_count + 1 := rfl
      omega
    rw [if_neg hic]
    apply h.seg_none
    have : (newSegState s).segments_count = s.segments_count + 1 := rfl
    omega
  · show s.segments_count + 1 ≤ s.max_segments_count
    have := h.count_le
    omega
  · intro i seg hs
    rw [newSegState_segments] at hs
    by_cases hic : i = s.segments_count
    · rw [if_pos hic] at hs
      cases hs
      rw [hic]
      rfl
    · rw [if_neg hic] at hs
      exact h.seg_num i seg hs
  · intro i seg hs
    rw [newSegState_segments] at hs
    by_cases hic : i = s.segments_count
    · rw [if_pos hic] at hs
      cases hs
      constructor
      · show 0 + 1 ≤ SC_SEGMENT_ELEMENTS_COUNT
        decide
      · show 0 ≤ SC_SEGMENT_ELEMENTS_COUNT
        decide
    · rw [if_neg hic] at hs
      exact h.cursors i seg hs
  · intro i seg hs hlr
    rw [newSegState_segments] at hs
    by_cases hic : i = s.segments_count
    · rw [if_pos hic] at hs
      cases hs
      exact absurd rfl hlr
    · rw [if_neg hic] at hs
      exact h.released_clean i seg hs hlr
  · intro i seg hs hne2
    rw [newSegState_segments] at hs
    by_cases hic : i = s.segments_count
    · rw [if_pos hic] at hs
      cases hs
      rfl
    · rw [if_neg hic] at hs
      exact h.virgin_clean i seg hs hne2
  · intro n hn
    exact h.process_pos n hn

/-- Appending a blank segment changes no resolution outcome. -/
theorem preservesLive_newSegState (s : ScStorage) (h : AllocWF s) :
    preservesLive s (newSegState s) := by
  intro x
  rw [getLiveEl_def, getLiveEl_def,
    sc_addr_guard_rejects_congr s (newSegState s) x rfl, newSegState_segments s (x.seg - 1)]
  by_cases hg : sc_addr_guard_rejects s x
  · rw [if_pos hg, if_pos hg]
  · rw [if_neg hg, if_neg hg]
    by_cases hi : x.seg - 1 = s.segments_count
    · rw [hi, if_pos rfl, h.seg_none s.segments_count (le_refl _)]
      have hdead : ((sc_segment_new (s.segments_count + 1)).elements
          x.offset).access_levels &&& SC_ACCESS_LVL_ELEMENT_EXIST ≠
          SC_ACCESS_LVL_ELEMENT_EXIST := by
        show (0 : Nat) &&& SC_ACCESS_LVL_ELEMENT_EXIST ≠ SC_ACCESS_LVL_ELEMENT_EXIST
        decide
      dsimp only
      rw [if_neg hdead]
    · rw [if_neg hi]

/-- Specification of the not-engaged chain pop: it preserves well-formedness
and every resolution, keeps the pool bound, and yields a nonzero segment
number. -/
theorem get_last_not_engaged_spec (s s1 : ScStorage) (res : Option Nat)
    (h : AllocWF s) (hp : _sc_storage_get_last_not_engaged_segment s = (s1, res)) :
    AllocWF s1 ∧ preservesLive s s1 ∧
    s1.max_segments_count = s.max_segments_count ∧
    (∀ n, res = some n → n ≠ 0) := by
  unfold _sc_storage_get_last_not_engaged_segment at hp
  by_cases hnum : s.last_not_engaged_segment_num = 0
  · rw [if_pos hnum] at hp
    cases hp
    exact ⟨h, preservesLive_refl s, rfl, fun n hn => Option.noConfusion hn⟩
  · rw [if_neg hnum] at hp
    cases hseg : s.segments (s.last_not_engaged_segment_num - 1) with
    | none =>
      rw [hseg] at hp
      cases hp
      exact ⟨h, preservesLive_refl s, rfl, fun n hn => Option.noConfusion hn⟩
    | some seg =>
      rw [hseg] at hp
      dsimp only at hp
      cases hp
      have hmid : AllocWF { s with
          last_not_engaged_segment_num := (seg.elements 0).access_levels } :=
        AllocWF_of_eq s _ h rfl rfl rfl h.process_pos
      refine ⟨AllocWF_updEl_zero _ _ _ hmid, ?_, ?_, ?_⟩
      · intro x
        have h1 := getLiveEl_updEl_ne { s with
            last_not_engaged_segment_num := (seg.elements 0).access_levels }
          ⟨s.last_not_engaged_segment_num, 0⟩
          (fun el => { el with access_levels := 0 }) hnum x (Or.inr rfl)
        rw [h1]
        exact getLiveEl_congr s _ x rfl rfl
      · exact (updEl_fields _ _ _).2.1
      · intro n hn
        cases hn
        exact hnum

/-- Specification of fresh segment creation. -/
theorem get_new_segment_spec (s s1 : ScStorage) (res : Option Nat)
    (h : AllocWF s) (hp : _sc_storage_get_new_segment s = (s1, res)) :
    AllocWF s1 ∧ preservesLive s s1 ∧
    s1.max_segments_count = s.max_segments_count ∧
    (∀ n, res = some n → n ≠ 0) := by
  unfold _sc_storage_get_new_segment at hp
  by_cases hm : s.segments_count = s.max_segments_count
  · rw [if_pos hm] at hp
    cases hp
    exact ⟨h, preservesLive_refl s, rfl, fun n hn => Option.noConfusion hn⟩
  · rw [if_neg hm] at hp
    cases hp
    refine ⟨AllocWF_newSegState s h hm, preservesLive_newSegState s h, rfl, ?_⟩
    intro n hn
    cases hn
    omega

/-- The fallback segment number is nonzero. -/
theorem get_last_free_pos (s : ScStorage) (h : AllocWF s) (n : Nat)
    (hp : _sc_storage_get_last_free_segment s = some n) : n ≠ 0 := by
  unfold _sc_storage_get_last_free_segment at hp
  by_cases hc : s.segments_count = 0
  · rw [if_pos hc] at hp
    exact Option.noConfusion hp
  · rw [if_neg hc] at hp
    cases hseg : s.segments (s.segments_count - 1) with
    | none =>
      rw [hseg] at hp
      exact Option.noConfusion hp
    | some seg =>
      rw [hseg] at hp
      dsimp only at hp
      by_cases hfull : seg.last_engaged_offset + 1 = SC_SEGMENT_ELEMENTS_COUNT
      · rw [if_pos hfull] at hp
        exact Option.noConfusion hp
      · rw [if_neg hfull] at hp
        cases hp
        have := h.seg_num _ seg hseg
        omega

/-- What a kept segment means for the inspection step. -/
theorem check_segment_type_spec (s : ScStorage) (n m : Nat) (rel : Bool)
    (hp : _sc_storage_check_segment_type s n = (some m, rel)) :
    m = n ∧ ∃ seg, s.segments (n - 1) = some seg ∧
      (rel = true → seg.last_released_offset ≠ 0) ∧
      (rel = false → seg.last_engaged_offset + 1 ≠ SC_SEGMENT_ELEMENTS_COUNT) := by
  unfold _sc_storage_check_segment_type at hp
  cases hseg : s.segments (n - 1) with
  | none =>
    rw [hseg] at hp
    exact Prod.noConfusion hp (fun h1 _ => Option.noConfusion h1)
  | some seg =>
    rw [hseg] at hp
    dsimp only at hp
    by_cases hlr : seg.last_released_offset ≠ 0
    · rw [if_pos hlr] at hp
      cases hp
      exact ⟨rfl, seg, rfl, fun _ => hlr, fun hfalse => Bool.noConfusion hfalse⟩
    · rw [if_neg hlr] at hp
      by_cases hfull : seg.last_engaged_offset + 1 = SC_SEGMENT_ELEMENTS_COUNT
      · rw [if_pos hfull] at hp
        exact Prod.noConfusion hp (fun h1 _ => Option.noConfusion h1)
      · rw [if_neg hfull] at hp
        cases hp
        exact ⟨rfl, seg, rfl, fun htrue => Bool.noConfusion htrue, fun _ => hfull⟩

/-- Specification of the slow segment-selection path. -/
theorem get_segment_slow_spec (s s1 : ScStorage) (nopt : Option Nat) (rel : Bool)
    (h : AllocWF s) (hp : _sc_storage_get_segment_slow s = (s1, nopt, rel)) :
    AllocWF s1 ∧ preservesLive s s1 ∧
    s1.max_segments_count = s.max_segments_count ∧
    (∀ n, nopt = some n → n ≠ 0 ∧ ∃ seg, s1.segments (n - 1) = some seg ∧
      (rel = true → seg.last_released_offset ≠ 0) ∧
      (rel = false → seg.last_engaged_offset + 1 ≠ SC_SEGMENT_ELEMENTS_COUNT)) := by
  unfold _sc_storage_get_segment_slow at hp
  rcases hpop : _sc_storage_get_last_not_engaged_segment s with ⟨t1, seg1⟩
  rcases get_last_not_engaged_spec s t1 seg1 h hpop with ⟨hw1, hl1, hm1, hn1⟩
  rw [hpop] at hp
  have hmain : ∀ t2 : ScStorage, ∀ n2 : Option Nat,
      AllocWF t2 → preservesLive s t2 →
      t2.max_segments_count = s.max_segments_count →
      (∀ n, n2 = some n → n ≠ 0) →
      (match (t2, n2) with
        | (s2, none) => (s2, none, false)
        | (s2, some n) =>
          match _sc_storage_check_segment_type
              { s2 with process_segment := some n } n with
          | (segOpt, released) =>
            ({ s2 with process_segment := some n }, segOpt, released)) =
        (s1, nopt, rel) →
      AllocWF s1 ∧ preservesLive s s1 ∧
      s1.max_segments_count = s.max_segments_count ∧
      (∀ n, nopt = some n → n ≠ 0 ∧ ∃ seg, s1.segments (n - 1) = some seg ∧
        (rel = true → seg.last_released_offset ≠ 0) ∧
        (rel = false → seg.last_engaged_offset + 1 ≠
          SC_SEGMENT_ELEMENTS_COUNT)) := by
    intro t2 n2 hw2 hl2 hm2 hn2 heq
    cases n2 with
    | none =>
      cases heq
      exact ⟨hw2, hl2, hm2, fun n hn => Option.noConfusion hn⟩
    | some n =>
      dsimp only at heq
      rcases hchk : _sc_storage_check_segment_type
          { t2 with process_segment := some n } n with ⟨segOpt, released⟩
      rw [hchk] at heq
      dsimp only at heq
      cases heq
      have hpos : n ≠ 0 := hn2 n rfl
      have hw4 : AllocWF { t2 with process_segment := some n } :=
        AllocWF_of_eq t2 _ hw2 rfl rfl rfl
          (fun m hm => by cases hm; exact hpos)
      refine ⟨hw4, ?_, hm2, ?_⟩
      · exact preservesLive_trans hl2 (fun x => getLiveEl_congr t2 _ x rfl rfl)
      · intro m hm
        rw [hm] at hchk
        rcases check_segment_type_spec _ n m rel hchk with
          ⟨hmn, seg, hseg, hr1, hr2⟩
        subst hmn
        exact ⟨hpos, seg, hseg, hr1, hr2⟩
  cases seg1 with
  | some n =>
    dsimp only at hp
    exact hmain t1 (some n) hw1 hl1 hm1 hn1 hp
  | none =>
    dsimp only at hp
    rcases hnew : _sc_storage_get_new_segment t1 with ⟨t3, res3⟩
    rcases get_new_segment_spec t1 t3 res3 hw1 hnew with ⟨hw3, hl3, hm3, hn3⟩
    rw [hnew] at hp
    cases res3 with
    | some n =>
      dsimp only at hp
      exact hmain t3 (some n) hw3 (preservesLive_trans hl1 hl3)
        (hm3.trans hm1) hn3 hp
    | none =>
      dsimp only at hp
      exact hmain t3 (_sc_storage_get_last_free_segment t3) hw3
        (preservesLive_trans hl1 hl3) (hm3.trans hm1)
        (fun n hn => get_last_free_pos t3 hw3 n hn) hp

/-- Specification of segment selection. -/
theorem get_segment_spec (s s1 : ScStorage) (nopt : Option Nat) (rel : Bool)
    (h : AllocWF s) (hp : _sc_storage_get_segment s = (s1, nopt, rel)) :
    AllocWF s1 ∧ preservesLive s s1 ∧
    s1.max_segments_count = s.max_segments_count ∧
    (∀ n, nopt = some n → n ≠ 0 ∧ ∃ seg, s1.segments (n - 1) = some seg ∧
      (rel = true → seg.last_released_offset ≠ 0) ∧
      (rel = false → seg.last_engaged_offset + 1 ≠ SC_SEGMENT_ELEMENTS_COUNT)) := by
  unfold _sc_storage_get_segment at hp
  cases hproc : s.process_segment with
  | none =>
    rw [hproc] at hp
    dsimp only at hp
    exact get_segment_slow_spec s s1 nopt rel h hp
  | some pn =>
    rw [hproc] at hp
    dsimp only at hp
    rcases hchk : _sc_storage_check_segment_type s pn with ⟨segOpt, released⟩
    rw [hchk] at hp
    cases segOpt with
    | none =>
      dsimp only at hp
      exact get_segment_slow_spec s s1 nopt rel h hp
    | some m =>
      dsimp only at hp
      cases hp
      rcases check_segment_type_spec s pn m rel hchk with ⟨hmn, seg, hseg, hr1, hr2⟩
      refine ⟨h, preservesLive_refl s, rfl, ?_⟩
      intro n hn
      cases hn
      refine ⟨?_, seg, hmn ▸ hseg, hr1, hr2⟩
      rw [hmn]
      exact h.process_pos pn hproc

/-- A blank slot has zero access levels. -/
theorem slotClean_access (el : ScElement) (h : slotClean el) :
    el.access_levels = 0 := by rw [h]

/-- Clearing the type of a blank slot yields the all-zero element. -/
theorem slotClean_set_type_zero (el : ScElement) (h : slotClean el) :
    ({ el with type := 0 } : ScElement) = {} := by rw [h]

/-- A present segment lies below segments_count. -/
theorem seg_index_lt (s : ScStorage) (h : AllocWF s) (i : Nat) (seg : ScSegment)
    (hseg : s.segments i = some seg) : i < s.segments_count := by
  by_contra hc
  have := h.seg_none i (by omega)
  rw [this] at hseg
  exact Option.noConfusion hseg

/-- The success bundle of slot engagement: the address is in range, was dead
before the call, every other address resolves as before, and the slot now
holds a blank element in the result state. -/
def EngagedSlot (s s1 : ScStorage) (a : ScAddr) : Prop :=
  a.seg ≠ 0 ∧ a.seg ≤ s.max_segments_count ∧ a.offset ≠ 0 ∧
  a.offset ≤ SC_SEGMENT_ELEMENTS_COUNT ∧ getLiveEl s a = none ∧
  (∀ x, x ≠ a → getLiveEl s1 x = getLiveEl s x) ∧
  (∃ seg1, s1.segments (a.seg - 1) = some seg1 ∧
    seg1.elements a.offset = ({} : ScElement)) ∧
  s1.max_segments_count = s.max_segments_count

/-- Specification of slot engagement in the thread segment. -/
theorem get_element_spec (s s1 : ScStorage) (res : Option ScAddr) (h : AllocWF s)
    (hp : _sc_storage_get_element s = (s1, res)) :
    (res = none → AllocWF s1 ∧ preservesLive s s1 ∧
      s1.max_segments_count = s.max_segments_count) ∧
    (∀ a, res = some a → EngagedSlot s s1 a) := by
  unfold _sc_storage_get_element at hp
  rcases hsel : _sc_storage_get_segment s with ⟨t1, nopt, rel⟩
  rcases get_segment_spec s t1 nopt rel h hsel with ⟨hw1, hl1, hm1, hfacts⟩
  rw [hsel] at hp
  cases nopt with
  | none =>
    dsimp only at hp
    cases hp
    exact ⟨fun _ => ⟨hw1, hl1, hm1⟩, fun a ha => Option.noConfusion ha⟩
  | some n =>
    dsimp only at hp
    rcases hfacts n rfl with ⟨hn0, seg, hseg, hr1, hr2⟩
    rw [hseg] at hp
    dsimp only at hp
    have hnlt : n - 1 < t1.segments_count := seg_index_lt t1 hw1 _ seg hseg
    have hnle : n ≤ s.max_segments_count := by
      have := hw1.count_le
      omega
    have hcur := hw1.cursors _ seg hseg
    cases rel with
    | true =>
      rw [if_pos rfl] at hp
      cases hp
      have hoff : seg.last_released_offset ≠ 0 := hr1 rfl
      have hclean := hw1.released_clean _ seg hseg hoff
      refine ⟨fun hc => Option.noConfusion hc, ?_⟩
      intro a ha
      cases ha
      have hdead1 : getLiveEl t1 ⟨n, seg.last_released_offset⟩ = none := by
        apply getLiveEl_eq_none_of_dead
        intro seg2 hseg2
        show ¬ _
        rw [show (⟨n, seg.last_released_offset⟩ : ScAddr).seg - 1 = n - 1 from rfl]
          at hseg2
        rw [hseg] at hseg2
        cases hseg2
        rw [slotClean_access _ hclean]
        decide
      refine ⟨hn0, hnle, hoff, hcur.2, (hl1 _) ▸ hdead1, ?_, ?_, hm1⟩
      · intro x hx
        refine Eq.trans (getLiveEl_setSeg_slot t1 n hn0 seg _ hseg
          seg.last_released_offset ?_ x hx) (hl1 x)
        exact fun o ho => setSlot_elements_ne seg seg.last_released_offset _ o ho
      · refine ⟨_, setSeg_segments_eq t1 (n - 1) _, ?_⟩
        show (setSlot seg seg.last_released_offset _).elements
          seg.last_released_offset = _
        rw [setSlot_elements_eq]
        exact slotClean_set_type_zero _ hclean
    | false =>
      rw [if_neg (by exact Bool.noConfusion)] at hp
      cases hp
      have hfull := hr2 rfl
      have hvc := hw1.virgin_clean _ seg hseg hfull
      refine ⟨fun hc => Option.noConfusion hc, ?_⟩
      intro a ha
      cases ha
      have hdead1 : getLiveEl t1 ⟨n, seg.last_engaged_offset + 1⟩ = none := by
        apply getLiveEl_eq_none_of_dead
        intro seg2 hseg2
        show ¬ _
        rw [show (⟨n, seg.last_engaged_offset + 1⟩ : ScAddr).seg - 1 = n - 1 from rfl]
          at hseg2
        rw [hseg] at hseg2
        cases hseg2
        rw [hvc]
        decide
      refine ⟨hn0, hnle, Nat.succ_ne_zero _, hcur.1, (hl1 _) ▸ hdead1, ?_, ?_, hm1⟩
      · intro x hx
        refine Eq.trans (getLiveEl_setSeg_slot t1 n hn0 seg _ hseg
          (seg.last_engaged_offset + 1) ?_ x hx) (hl1 x)
        exact fun o _ => rfl
      · exact ⟨_, setSeg_segments_eq t1 (n - 1) _, hvc⟩

/-- Specification of the released-chain pop loop. -/
theorem get_released_element_loop_spec (fuel : Nat) :
    ∀ s s1 : ScStorage, ∀ res : Option ScAddr, AllocWF s →
    _sc_storage_get_released_element_loop s fuel = (s1, res) →
    (res = none → preservesLive s s1 ∧
      s1.max_segments_count = s.max_segments_count) ∧
    (∀ a, res = some a → EngagedSlot s s1 a) := by
  induction fuel with
  | zero =>
    intro s s1 res h hp
    unfold _sc_storage_get_released_element_loop at hp
    cases hp
    exact ⟨fun _ => ⟨preservesLive_refl s, rfl⟩, fun a ha => Option.noConfusion ha⟩
  | succ fuel ih =>
    intro s s1 res h hp
    unfold _sc_storage_get_released_element_loop at hp
    by_cases hnum : s.last_released_segment_num = 0 ∨
        s.max_segments_count < s.last_released_segment_num
    · rw [if_pos hnum] at hp
      cases hp
      exact ⟨fun _ => ⟨preservesLive_refl s, rfl⟩, fun a ha => Option.noConfusion ha⟩
    · rw [if_neg hnum] at hp
      cases hseg : s.segments (s.last_released_segment_num - 1) with
      | none =>
        rw [hseg] at hp
        cases hp
        exact ⟨fun _ => ⟨preservesLive_refl s, rfl⟩,
          fun a ha => Option.noConfusion ha⟩
      | some seg =>
        rw [hseg] at hp
        dsimp only at hp
        have hn0 : s.last_released_segment_num ≠ 0 := fun hc => hnum (Or.inl hc)
        by_cases hoff : seg.last_released_offset = 0
        · rw [if_pos hoff] at hp
          have hmid : AllocWF (updEl { s with
              last_released_segment_num := (seg.elements 0).type }
              ⟨s.last_released_segment_num, 0⟩ (fun el => { el with type := 0 })) :=
            AllocWF_updEl_zero _ _ _
              (AllocWF_of_eq s _ h rfl rfl rfl h.process_pos)
          have hpres : preservesLive s (updEl { s with
              last_released_segment_num := (seg.elements 0).type }
              ⟨s.last_released_segment_num, 0⟩ (fun el => { el with type := 0 })) := by
            intro x
            rw [getLiveEl_updEl_ne _ _ _ hn0 x (Or.inr rfl)]
            exact getLiveEl_congr s _ x rfl rfl
          have hmax : (updEl { s with
              last_released_segment_num := (seg.elements 0).type }
              ⟨s.last_released_segment_num, 0⟩
              (fun el => { el with type := 0 })).max_segments_count =
              s.max_segments_count := (updEl_fields _ _ _).2.1
          rcases ih _ s1 res hmid hp with ⟨hnone, hsome⟩
          constructor
          · intro hres
            rcases hnone hres with ⟨hl2, hm2⟩
            exact ⟨preservesLive_trans hpres hl2, hm2.trans hmax⟩
          · intro a ha
            rcases hsome a ha with ⟨h1, h2, h3, h4, h5, h6, h7, h8⟩
            refine ⟨h1, hmax ▸ h2, h3, h4, (hpres a) ▸ h5, ?_, h7, h8.trans hmax⟩
            intro x hx
            rw [h6 x hx]
            exact hpres x
        · rw [if_neg hoff] at hp
          have hclean := h.released_clean _ seg hseg hoff
          have hcur := h.cursors _ seg hseg
          have hdead : getLiveEl s
              ⟨s.last_released_segment_num, seg.last_released_offset⟩ = none := by
            apply getLiveEl_eq_none_of_dead
            intro seg2 hseg2
            show ¬ _
            rw [show (⟨s.last_released_segment_num, seg.last_released_offset⟩ :
              ScAddr).seg - 1 = s.last_released_segment_num - 1 from rfl] at hseg2
            rw [hseg] at hseg2
            cases hseg2
            rw [slotClean_access _ hclean]
            decide
          have hle : s.last_released_segment_num ≤ s.max_segments_count := by omega
          have hsegs1 : ∀ t : ScStorage,
              t = setSeg s (s.last_released_segment_num - 1)
                { setSlot seg seg.last_released_offset
                    { seg.elements seg.last_released_offset with type := 0 } with
                  last_released_offset :=
                    (seg.elements seg.last_released_offset).type } →
              (∀ x, x ≠ (⟨s.last_released_segment_num,
                  seg.last_released_offset⟩ : ScAddr) →
                getLiveEl t x = getLiveEl s x) ∧
              (∃ seg1, t.segments (s.last_released_segment_num - 1) = some seg1 ∧
                seg1.elements seg.last_released_offset = ({} : ScElement)) ∧
              t.max_segments_count = s.max_segments_count := by
            intro t ht
            subst ht
            refine ⟨?_, ?_, rfl⟩
            · intro x hx
              refine getLiveEl_setSeg_slot s _ hn0 seg _ hseg
                seg.last_released_offset ?_ x hx
              exact fun o ho =>
                setSlot_elements_ne seg seg.last_released_offset _ o ho
            · refine ⟨_, setSeg_segments_eq _ _ _, ?_⟩
              show (setSlot seg seg.last_released_offset _).elements
                seg.last_released_offset = _
              rw [setSlot_elements_eq]
              exact slotClean_set_type_zero _ hclean
          split at hp
          · cases hp
            rcases hsegs1 _ rfl with ⟨hothers, ⟨seg1, hseg1, hslot1⟩, hmax1⟩
            refine ⟨fun hc => Option.noConfusion hc, ?_⟩
            intro a ha
            cases ha
            refine ⟨hn0, hle, hoff, hcur.2, hdead, ?_, ?_, ?_⟩
            · intro x hx
              exact (getLiveEl_updEl_ne _ _ _ hn0 x (Or.inr rfl)).trans
                ((getLiveEl_congr _ _ x rfl rfl).trans (hothers x hx))
            · refine ⟨_, updEl_segments_self_some _
                ⟨s.last_released_segment_num, 0⟩ _ seg1 ?_, ?_⟩
              · exact hseg1
              · rw [setSlot_elements_ne seg1 0 _ _ hoff]
                exact hslot1
            · exact ((updEl_fields _ _ _).2.1).trans hmax1
          · cases hp
            rcases hsegs1 _ rfl with ⟨hothers, ⟨seg1, hseg1, hslot1⟩, hmax1⟩
            refine ⟨fun hc => Option.noConfusion hc, ?_⟩
            intro a ha
            cases ha
            exact ⟨hn0, hle, hoff, hcur.2, hdead, hothers, ⟨seg1, hseg1, hslot1⟩,
              hmax1⟩

/-- Marking a blank engaged slot live makes it resolve to the canonical fresh
element. -/
theorem allocate_mark_spec (t : ScStorage) (a : ScAddr) (seg1 : ScSegment)
    (h1 : a.seg ≠ 0) (h3 : a.offset ≠ 0) (hmaxle : a.seg ≤ t.max_segments_count)
    (h4 : a.offset ≤ SC_SEGMENT_ELEMENTS_COUNT)
    (hseg1 : t.segments (a.seg - 1) = some seg1)
    (hslot1 : seg1.elements a.offset = ({} : ScElement)) :
    getLiveEl (updEl t a (fun el => { el with access_levels :=
        el.access_levels ||| SC_ACCESS_LVL_ELEMENT_EXIST })) a =
      some { access_levels := SC_ACCESS_LVL_ELEMENT_EXIST } := by
  have hsegU := updEl_segments_self_some t a
    (fun el => { el with access_levels :=
      el.access_levels ||| SC_ACCESS_LVL_ELEMENT_EXIST }) seg1 hseg1
  have hguardU : sc_addr_guard_rejects (updEl t a
      (fun el => { el with access_levels :=
        el.access_levels ||| SC_ACCESS_LVL_ELEMENT_EXIST })) a = false := by
    rw [sc_addr_guard_rejects_congr t _ a (updEl_fields _ _ _).2.1]
    exact sc_addr_guard_rejects_eq_false t a h1 h3 hmaxle h4
  have hres := getLiveEl_eq_some_intro _ a _ hguardU hsegU
    (by rw [setSlot_elements_eq, hslot1]; decide)
  rw [setSlot_elements_eq, hslot1] at hres
  rw [hres]
  decide

/-- Specification of sc_storage_allocate_new_element on a well-formed pool:
on failure every resolution is preserved; on success the returned address is
in range, named a dead slot before the call, every other address resolves as
before, and the returned slot now holds a blank live element. -/
theorem allocate_new_element_spec (s s1 : ScStorage) (res : Option ScAddr)
    (h : AllocWF s) (hp : sc_storage_allocate_new_element s = (s1, res)) :
    (res = none → preservesLive s s1) ∧
    (∀ a, res = some a →
      a.seg ≠ 0 ∧ a.seg ≤ s.max_segments_count ∧ a.offset ≠ 0 ∧
      a.offset ≤ SC_SEGMENT_ELEMENTS_COUNT ∧ getLiveEl s a = none ∧
      (∀ x, x ≠ a → getLiveEl s1 x = getLiveEl s x) ∧
      getLiveEl s1 a =
        some { access_levels := SC_ACCESS_LVL_ELEMENT_EXIST }) := by
  unfold sc_storage_allocate_new_element at hp
  rcases hge : _sc_storage_get_element s with ⟨t1, r1⟩
  rcases get_element_spec s t1 r1 h hge with ⟨hnone1, hsome1⟩
  rw [hge] at hp
  cases r1 with
  | some a =>
    dsimp only at hp
    cases hp
    rcases hsome1 a rfl with ⟨h1, h2, h3, h4, h5, h6, ⟨seg1, hseg1, hslot1⟩, h8⟩
    refine ⟨fun hc => Option.noConfusion hc, ?_⟩
    intro b hb
    cases hb
    refine ⟨h1, h2, h3, h4, h5, ?_, ?_⟩
    · intro x hx
      rw [getLiveEl_updEl_ne t1 a _ h1 x (Or.inl hx)]
      exact h6 x hx
    · exact allocate_mark_spec t1 a seg1 h1 h3 (h8 ▸ h2) h4 hseg1 hslot1
  | none =>
    dsimp only at hp
    rcases hnone1 rfl with ⟨hw1, hl1, hm1⟩
    rcases hrel : _sc_storage_get_released_element t1 with ⟨t2, r2⟩
    unfold _sc_storage_get_released_element at hrel
    rcases get_released_element_loop_spec (t1.max_segments_count + 2) t1 t2 r2 hw1
      hrel with ⟨hnone2, hsome2⟩
    rw [show _sc_storage_get_released_element t1 = (t2, r2) from hrel] at hp
    cases r2 with
    | none =>
      dsimp only at hp
      cases hp
      refine ⟨fun _ => ?_, fun a ha => Option.noConfusion ha⟩
      exact preservesLive_trans hl1 (hnone2 rfl).1
    | some a =>
      dsimp only at hp
      cases hp
      rcases hsome2 a rfl with ⟨h1, h2, h3, h4, h5, h6, ⟨seg1, hseg1, hslot1⟩, h8⟩
      refine ⟨fun hc => Option.noConfusion hc, ?_⟩
      intro b hb
      cases hb
      refine ⟨h1, hm1 ▸ h2, h3, h4, (hl1 a) ▸ h5, ?_, ?_⟩
      · intro x hx
        rw [getLiveEl_updEl_ne t2 a _ h1 x (Or.inl hx), h6 x hx]
        exact hl1 x
      · exact allocate_mark_spec t2 a seg1 h1 h3 (by rw [h8]; exact h2) h4 hseg1
          hslot1

/-- A successful resolution result yields a live element. -/
theorem isOk_getLiveEl (s : ScStorage) (a : ScAddr)
    (hok : (sc_storage_get_element_by_addr s a).1 = ScResult.ok) :
    ∃ el, getLiveEl s a = some el := by
  rw [getLiveEl_def]
  unfold sc_storage_get_element_by_addr at hok
  by_cases hg : sc_addr_guard_rejects s a
  · rw [if_pos hg] at hok
    exact absurd hok (by decide)
  · rw [if_neg hg] at hok
    rw [if_neg hg]
    cases hseg : s.segments (a.seg - 1) with
    | none =>
      rw [hseg] at hok
      simp at hok
    | some seg =>
      rw [hseg] at hok
      dsimp only at hok ⊢
      by_cases hacc : (seg.elements a.offset).access_levels &&&
          SC_ACCESS_LVL_ELEMENT_EXIST = SC_ACCESS_LVL_ELEMENT_EXIST
      · rw [if_pos hacc]
        exact ⟨_, rfl⟩
      · rw [if_neg hacc] at hok
        simp at hok

/-- Specification of sc_storage_free_element on a resolvable address: every
other address resolves as before, the slot is dead afterwards, and it sits at
the head of the free list of its segment. -/
theorem free_element_spec (s : ScStorage) (a : ScAddr) (s1 : ScStorage)
    (r : ScResult) (hok : (sc_storage_get_element_by_addr s a).1 = ScResult.ok)
    (hp : sc_storage_free_element s a = (s1, r)) :
    (∀ x, x ≠ a → getLiveEl s1 x = getLiveEl s x) ∧
    getLiveEl s1 a = none ∧
    (∃ seg1, s1.segments (a.seg - 1) = some seg1 ∧
      seg1.last_released_offset = a.offset ∧
      (seg1.elements a.offset).access_levels = 0) := by
  rcases isOk_getLiveEl s a hok with ⟨el, hel⟩
  rcases getLiveEl_eq_some_elim hel with ⟨hg, seg, hseg, helq, hex⟩
  rcases sc_addr_guard_rejects_elim hg with ⟨ha1, ha2, ha3, ha4⟩
  unfold sc_storage_free_element at hp
  rw [if_pos hok, hseg] at hp
  dsimp only at hp
  generalize hT : (setSeg s (a.seg - 1)
      { setSlot seg a.offset { type := seg.last_released_offset } with
        last_released_offset := a.offset } : ScStorage) = T at hp
  have hothers : ∀ x, x ≠ a → getLiveEl T x = getLiveEl s x := by
    intro x hx
    rw [← hT]
    refine getLiveEl_setSeg_slot s a.seg ha1 seg _ hseg a.offset ?_ x hx
    exact fun o ho => setSlot_elements_ne seg a.offset _ o ho
  have hsegT : T.segments (a.seg - 1) =
      some { setSlot seg a.offset { type := seg.last_released_offset } with
        last_released_offset := a.offset } := by
    rw [← hT]
    exact setSeg_segments_eq _ _ _
  have hslotT : ({ setSlot seg a.offset { type := seg.last_released_offset } with
      last_released_offset := a.offset } : ScSegment).elements a.offset =
      ({ type := seg.last_released_offset } : ScElement) := by
    show (setSlot seg a.offset _).elements a.offset = _
    rw [setSlot_elements_eq]
  split at hp
  · cases hp
    have hsegU := updEl_segments_self_some T ⟨a.seg, 0⟩
      (fun el2 => { el2 with type := T.last_released_segment_num }) _ hsegT
    have hsegF : ({ updEl T ⟨a.seg, 0⟩
        (fun el2 => { el2 with type := T.last_released_segment_num }) with
        last_released_segment_num :=
          ({ setSlot seg a.offset { type := seg.last_released_offset } with
            last_released_offset := a.offset } : ScSegment).num } :
          ScStorage).segments (a.seg - 1) =
        some (setSlot { setSlot seg a.offset
            { type := seg.last_released_offset } with
          last_released_offset := a.offset } 0 _) := hsegU
    refine ⟨?_, ?_, ?_⟩
    · intro x hx
      exact (getLiveEl_congr _ _ x rfl rfl).trans
        ((getLiveEl_updEl_ne T ⟨a.seg, 0⟩ _ ha1 x (Or.inr rfl)).trans
          (hothers x hx))
    · apply getLiveEl_eq_none_of_dead
      intro seg2 hseg2
      rw [hsegF] at hseg2
      cases hseg2
      show ¬ _
      rw [setSlot_elements_ne _ 0 _ _ ha2, hslotT]
      show ¬ ((0 : Nat) &&& SC_ACCESS_LVL_ELEMENT_EXIST = SC_ACCESS_LVL_ELEMENT_EXIST)
      decide
    · refine ⟨_, hsegF, ?_, ?_⟩
      · rfl
      · rw [setSlot_elements_ne _ 0 _ _ ha2, hslotT]
  · cases hp
    refine ⟨hothers, ?_, ?_⟩
    · apply getLiveEl_eq_none_of_dead
      intro seg2 hseg2
      rw [hsegT] at hseg2
      cases hseg2
      show ¬ _
      rw [hslotT]
      show ¬ ((0 : Nat) &&& SC_ACCESS_LVL_ELEMENT_EXIST = SC_ACCESS_LVL_ELEMENT_EXIST)
      decide
    · exact ⟨_, hsegT, rfl, by rw [hslotT]⟩

/-- A live element resolves with an OK result. -/
theorem getLiveEl_some_isOk {s : ScStorage} {a : ScAddr} {el : ScElement}
    (h : getLiveEl s a = some el) :
    (sc_storage_get_element_by_addr s a).1 = ScResult.ok := by
  unfold getLiveEl at h
  rcases hres : sc_storage_get_element_by_addr s a with ⟨r, elo⟩
  rw [hres] at h
  cases r <;> cases elo <;> simp_all

/-- A storage with a single segment. -/
def mkStor1 (seg : ScSegment) (pbind : Option Nat) : ScStorage :=
  { segments := fun i => if i = 0 then some seg else none
    segments_count := 1
    max_segments_count := 1
    last_not_engaged_segment_num := 0
    last_released_segment_num := 0
    process_segment := pbind }

/-- Allocator well-formedness of a single-segment storage, from decidable
facts about the segment. -/
theorem AllocWF_mkStor1 (seg : ScSegment) (pbind : Option Nat)
    (h1 : seg.num = 1)
    (h2 : seg.last_engaged_offset + 1 ≤ SC_SEGMENT_ELEMENTS_COUNT)
    (h3 : seg.last_released_offset ≤ SC_SEGMENT_ELEMENTS_COUNT)
    (h4 : seg.last_released_offset ≠ 0 →
      slotClean (seg.elements seg.last_released_offset))
    (h5 : seg.last_engaged_offset + 1 ≠ SC_SEGMENT_ELEMENTS_COUNT →
      seg.elements (seg.last_engaged_offset + 1) = {})
    (h6 : ∀ n, pbind = some n → n ≠ 0) :
    AllocWF (mkStor1 seg pbind) := by
  constructor
  · intro i hi
    show (if i = 0 then some seg else none) = none
    rw [if_neg]
    intro hc
    rw [hc] at hi
    exact absurd hi (Nat.not_succ_le_zero 0)
  · exact Nat.le.refl
  · intro i seg2 hs
    by_cases hi : i = 0
    · subst hi
      rw [show (mkStor1 seg pbind).segments 0 = some seg from rfl] at hs
      cases hs
      rw [h1]
    · rw [show (mkStor1 seg pbind).segments i =
        (if i = 0 then some seg else none) from rfl, if_neg hi] at hs
      exact Option.noConfusion hs
  · intro i seg2 hs
    by_cases hi : i = 0
    · subst hi
      rw [show (mkStor1 seg pbind).segments 0 = some seg from rfl] at hs
      cases hs
      exact ⟨h2, h3⟩
    · rw [show (mkStor1 seg pbind).segments i =
        (if i = 0 then some seg else none) from rfl, if_neg hi] at hs
      exact Option.noConfusion hs
  · intro i seg2 hs hlr
    by_cases hi : i = 0
    · subst hi
      rw [show (mkStor1 seg pbind).segments 0 = some seg from rfl] at hs
      cases hs
      exact h4 hlr
    · rw [show (mkStor1 seg pbind).segments i =
        (if i = 0 then some seg else none) from rfl, if_neg hi] at hs
      exact Option.noConfusion hs
  · intro i seg2 hs hne
    by_cases hi : i = 0
    · subst hi
      rw [show (mkStor1 seg pbind).segments 0 = some seg from rfl] at hs
      cases hs
      exact h5 hne
    · rw [show (mkStor1 seg pbind).segments i =
        (if i = 0 then some seg else none) from rfl, if_neg hi] at hs
      exact Option.noConfusion hs
  · exact h6

/-- A storage with no segments at all. -/
def empty_storage : ScStorage :=
  { segments := fun _ => none
    segments_count := 0
    max_segments_count := 0
    last_not_engaged_segment_num := 0
    last_released_segment_num := 0
    process_segment := none }

/-- A storage holding exactly one, completely blank segment. -/
def stor_one_segment : ScStorage :=
  { segments := fun i => if i = 0 then some (sc_segment_new 1) else none
    segments_count := 1
    max_segments_count := 1
    last_not_engaged_segment_num := 0
    last_released_segment_num := 0
    process_segment := none }

/-- Claim C1: resolution is claimed to succeed only for offsets strictly below
the segment capacity and to report ERROR_ADDR_IS_NOT_VALID otherwise; the
guard of sc_storage_get_element_by_addr, however, accepts the offset equal to
SC_SEGMENT_ELEMENTS_COUNT (it rejects only strictly larger offsets), an index
one past the last slot of the capacity-sized element array, so at that
address the source reads out of bounds instead of failing. -/
theorem C1_addr_guard_admits_out_of_range_offset :
    sc_addr_guard_rejects stor_one_segment ⟨1, SC_SEGMENT_ELEMENTS_COUNT⟩ = false ∧
    ¬ sc_segment_slot_index_valid SC_SEGMENT_ELEMENTS_COUNT := by
  constructor
  · decide
  · intro h
    exact absurd h (by unfold sc_segment_slot_index_valid; omega)

/-- Claim C10: when an address does not resolve to a live element, both arc
counters are reported as zero rather than as an error. -/
theorem C10_arcs_count_zero_when_not_resolved (s : ScStorage) (addr : ScAddr)
    (h : (sc_storage_get_element_by_addr s addr).1 ≠ ScResult.ok) :
    sc_storage_get_element_output_arcs_count s addr = 0 ∧
    sc_storage_get_element_input_arcs_count s addr = 0 := by
  unfold sc_storage_get_element_output_arcs_count sc_storage_get_element_input_arcs_count
  rcases hre : sc_storage_get_element_by_addr s addr with ⟨r, elo⟩
  rw [hre] at h
  cases r <;> cases elo <;> simp_all

/-- Witness for C10 at a concrete unresolved address. -/
theorem C10_witness :
    sc_storage_get_element_output_arcs_count empty_storage ⟨5, 5⟩ = 0 ∧
    sc_storage_get_element_input_arcs_count empty_storage ⟨5, 5⟩ = 0 :=
  C10_arcs_count_zero_when_not_resolved empty_storage ⟨5, 5⟩ (by decide)

/-- A live link element. -/
def linkEl : ScElement :=
  { type := sc_type_link, access_levels := SC_ACCESS_LVL_ELEMENT_EXIST }

/-- A storage holding one live link at address (1, 1). -/
def stor_link : ScStorage :=
  { segments := fun i =>
      if i = 0 then
        some { num := 1
               elements := fun o => if o = 1 then linkEl else {}
               last_engaged_offset := 1
               last_released_offset := 0 }
      else none
    segments_count := 1
    max_segments_count := 1
    last_not_engaged_segment_num := 0
    last_released_segment_num := 0
    process_segment := none }

/-- Claim C5: on a live link, a failure of the FS-memory collaborator makes
the call return SC_RESULT_OK (the goto error path leaves the result variable
holding the OK written by the successful resolution), not ERROR or ERROR_IO
as claimed; no CONTENT_CHANGED event is emitted on that path, and the
successful path returns OK with exactly one CONTENT_CHANGED event. -/
theorem C5_set_link_content_fs_error_returns_ok :
    sc_storage_set_link_content stor_link ⟨1, 1⟩ true false = (ScResult.ok, []) ∧
    (sc_storage_set_link_content stor_link ⟨1, 1⟩ true true).1 = ScResult.ok ∧
    (sc_storage_set_link_content stor_link ⟨1, 1⟩ true true).2.length = 1 := by
  refine ⟨?_, ?_, ?_⟩ <;> decide

/-- Branch equation: sc_storage_arc_new on an empty endpoint. -/
theorem arc_new_eq_of_empty (s : ScStorage) (t : Nat) (b e : ScAddr)
    (h : b = SC_ADDR_EMPTY ∨ e = SC_ADDR_EMPTY) :
    sc_storage_arc_new s t b e = (s, SC_ADDR_EMPTY, []) := by
  unfold sc_storage_arc_new
  rw [if_pos h]

/-- Branch equation: sc_storage_arc_new when allocation fails. -/
theorem arc_new_eq_of_alloc_fail (s s1 : ScStorage) (t : Nat) (b e : ScAddr)
    (hne : ¬(b = SC_ADDR_EMPTY ∨ e = SC_ADDR_EMPTY))
    (halloc : sc_storage_allocate_new_element s = (s1, none)) :
    sc_storage_arc_new s t b e = (s1, SC_ADDR_EMPTY, []) := by
  unfold sc_storage_arc_new
  rw [if_neg hne, halloc]

/-- Branch equation: sc_storage_arc_new when the begin endpoint fails to
resolve after allocation. -/
theorem arc_new_eq_of_beg_fail (s s1 : ScStorage) (t : Nat) (b e arc : ScAddr)
    (hne : ¬(b = SC_ADDR_EMPTY ∨ e = SC_ADDR_EMPTY))
    (halloc : sc_storage_allocate_new_element s = (s1, some arc))
    (hb : (sc_storage_get_element_by_addr (_sc_storage_arc_fill s1 t b e arc) b).1 ≠
      ScResult.ok) :
    sc_storage_arc_new s t b e =
      ((sc_storage_free_element (_sc_storage_arc_fill s1 t b e arc) arc).1,
        SC_ADDR_EMPTY, []) := by
  unfold sc_storage_arc_new
  rw [if_neg hne, halloc]
  dsimp only
  rw [if_pos hb]

/-- Branch equation: sc_storage_arc_new when the end endpoint fails to
resolve after allocation. -/
theorem arc_new_eq_of_end_fail (s s1 : ScStorage) (t : Nat) (b e arc : ScAddr)
    (hne : ¬(b = SC_ADDR_EMPTY ∨ e = SC_ADDR_EMPTY))
    (halloc : sc_storage_allocate_new_element s = (s1, some arc))
    (hb : (sc_storage_get_element_by_addr (_sc_storage_arc_fill s1 t b e arc) b).1 =
      ScResult.ok)
    (he : (sc_storage_get_element_by_addr (_sc_storage_arc_fill s1 t b e arc) e).1 ≠
      ScResult.ok) :
    sc_storage_arc_new s t b e =
      ((sc_storage_free_element (_sc_storage_arc_fill s1 t b e arc) arc).1,
        SC_ADDR_EMPTY, []) := by
  unfold sc_storage_arc_new
  rw [if_neg hne, halloc]
  dsimp only
  rw [if_neg (fun hc => hc hb), if_pos he]

/-- Branch equation: sc_storage_arc_new when both endpoints resolve. -/
theorem arc_new_eq_of_success (s s1 : ScStorage) (t : Nat) (b e arc : ScAddr)
    (hne : ¬(b = SC_ADDR_EMPTY ∨ e = SC_ADDR_EMPTY))
    (halloc : sc_storage_allocate_new_element s = (s1, some arc))
    (hb : (sc_storage_get_element_by_addr (_sc_storage_arc_fill s1 t b e arc) b).1 =
      ScResult.ok)
    (he : (sc_storage_get_element_by_addr (_sc_storage_arc_fill s1 t b e arc) e).1 =
      ScResult.ok) :
    sc_storage_arc_new s t b e =
      _sc_storage_arc_new_link (_sc_storage_arc_fill s1 t b e arc) t b e arc := by
  unfold sc_storage_arc_new
  rw [if_neg hne, halloc]
  dsimp only
  rw [if_neg (fun hc => hc hb), if_neg (fun hc => hc he)]

/-- The result address of the linking tail is the allocated connector. -/
theorem arc_new_link_addr (s : ScStorage) (t : Nat) (b e arc : ScAddr) :
    (_sc_storage_arc_new_link s t b e arc).2.1 = arc := rfl

/-- The events of the linking tail, projected to subscriber, kind and the two
argument addresses. -/
theorem arc_new_link_events (s : ScStorage) (t : Nat) (b e arc : ScAddr) :
    (_sc_storage_arc_new_link s t b e arc).2.2.map
        (fun ev => (ev.el, ev.type, ev.edge, ev.other)) =
      [(b, ScEventType.add_output_arc, arc, e),
       (e, ScEventType.add_input_arc, arc, b)] ++
        (if t &&& sc_type_edge_common = sc_type_edge_common ∧ b ≠ e then
          [(e, ScEventType.add_output_arc, arc, b),
           (b, ScEventType.add_input_arc, arc, e)]
        else []) := by
  unfold _sc_storage_arc_new_link
  by_cases hc : t &&& sc_type_edge_common = sc_type_edge_common ∧ b ≠ e
  · simp [hc]
  · simp [hc]

/-- Claim C7: a successful connector creation emits exactly
ADD_OUTPUT_ARC(begin, new, end) and ADD_INPUT_ARC(end, new, begin), followed,
when the type is an undirected edge and the endpoints differ, by the two
symmetric events ADD_OUTPUT_ARC(end, new, begin) and
ADD_INPUT_ARC(begin, new, end), and nothing else. -/
theorem C7_arc_new_emits_exactly_the_creation_events (s : ScStorage) (t : Nat)
    (b e : ScAddr) (h : (sc_storage_arc_new s t b e).2.1 ≠ SC_ADDR_EMPTY) :
    (sc_storage_arc_new s t b e).2.2.map
        (fun ev => (ev.el, ev.type, ev.edge, ev.other)) =
      [(b, ScEventType.add_output_arc, (sc_storage_arc_new s t b e).2.1, e),
       (e, ScEventType.add_input_arc, (sc_storage_arc_new s t b e).2.1, b)] ++
        (if t &&& sc_type_edge_common = sc_type_edge_common ∧ b ≠ e then
          [(e, ScEventType.add_output_arc, (sc_storage_arc_new s t b e).2.1, b),
           (b, ScEventType.add_input_arc, (sc_storage_arc_new s t b e).2.1, e)]
        else []) := by
  by_cases hbe : b = SC_ADDR_EMPTY ∨ e = SC_ADDR_EMPTY
  · rw [arc_new_eq_of_empty s t b e hbe] at h
    exact absurd rfl h
  · rcases halloc : sc_storage_allocate_new_element s with ⟨s1, aopt⟩
    cases aopt with
    | none =>
      rw [arc_new_eq_of_alloc_fail s s1 t b e hbe halloc] at h
      exact absurd rfl h
    | some arc =>
      by_cases hb : (sc_storage_get_element_by_addr
          (_sc_storage_arc_fill s1 t b e arc) b).1 = ScResult.ok
      · by_cases he : (sc_storage_get_element_by_addr
            (_sc_storage_arc_fill s1 t b e arc) e).1 = ScResult.ok
        · rw [arc_new_eq_of_success s s1 t b e arc hbe halloc hb he,
            arc_new_link_addr, arc_new_link_events]
        · rw [arc_new_eq_of_end_fail s s1 t b e arc hbe halloc hb he] at h
          exact absurd rfl h
      · rw [arc_new_eq_of_beg_fail s s1 t b e arc hbe halloc hb] at h
        exact absurd rfl h

/-- A storage holding two live nodes at (1, 1) and (1, 2), with the thread
bound to segment 1 and virgin slots from offset 3 on. -/
def stor_two_nodes : ScStorage :=
  mkStor1
    { num := 1
      elements := fun o =>
        if o = 1 ∨ o = 2 then
          { type := sc_type_node,
            access_levels := SC_ACCESS_LVL_ELEMENT_EXIST }
        else {}
      last_engaged_offset := 2
      last_released_offset := 0 }
    (some 1)

/-- Allocator well-formedness of the two-node storage. -/
theorem AllocWF_stor_two_nodes : AllocWF stor_two_nodes :=
  AllocWF_mkStor1 _ _ rfl (by decide) (by decide) (fun h => absurd rfl h)
    (fun _ => by decide) (fun n h => by injection h with h2; omega)

/-- Witness for C7 on a concrete successful creation. -/
theorem C7_witness :
    (sc_storage_arc_new stor_two_nodes sc_type_arc_access ⟨1, 1⟩ ⟨1, 2⟩).2.2.map
        (fun ev => (ev.el, ev.type, ev.edge, ev.other)) =
      [(⟨1, 1⟩, ScEventType.add_output_arc,
          (sc_storage_arc_new stor_two_nodes sc_type_arc_access ⟨1, 1⟩ ⟨1, 2⟩).2.1,
          ⟨1, 2⟩),
       (⟨1, 2⟩, ScEventType.add_input_arc,
          (sc_storage_arc_new stor_two_nodes sc_type_arc_access ⟨1, 1⟩ ⟨1, 2⟩).2.1,
          ⟨1, 1⟩)] ++
        (if sc_type_arc_access &&& sc_type_edge_common = sc_type_edge_common ∧
            (⟨1, 1⟩ : ScAddr) ≠ ⟨1, 2⟩ then
          [(⟨1, 2⟩, ScEventType.add_output_arc,
              (sc_storage_arc_new stor_two_nodes sc_type_arc_access ⟨1, 1⟩ ⟨1, 2⟩).2.1,
              ⟨1, 1⟩),
           (⟨1, 1⟩, ScEventType.add_input_arc,
              (sc_storage_arc_new stor_two_nodes sc_type_arc_access ⟨1, 1⟩ ⟨1, 2⟩).2.1,
              ⟨1, 2⟩)]
        else []) :=
  C7_arc_new_emits_exactly_the_creation_events stor_two_nodes sc_type_arc_access
    ⟨1, 1⟩ ⟨1, 2⟩ (by decide)

/-- One subscription record (sc_event): an identity standing for the handle,
the subscriber element and the kind subscribed to. -/
structure ScEventSub where
  id : Nat
  element : ScAddr
  type : ScEventType
deriving DecidableEq, Repr

/-- Modelled from the spec: a dispatch record pushed onto the emission
manager FIFO by _sc_event_emission_manager_add, which lives in
sc_event_queue.c (not under src); the spec says the record carries the event
handle and the two argument addresses. -/
structure ScDispatch where
  event_id : Nat
  edge : ScAddr
  other : ScAddr
deriving DecidableEq, Repr

/-- The walk of the subscription list of one element performed by
sc_event_emit_impl: one dispatch record is appended for every subscription
whose kind equals the emitted kind. -/
def sc_event_emit_loop (subs : List ScEventSub) (type : ScEventType)
    (edge other : ScAddr) (queue : List ScDispatch) : List ScDispatch :=
  match subs with
  | [] => queue
  | ev :: rest =>
    sc_event_emit_loop rest type edge other
      (if ev.type = type then queue ++ [⟨ev.id, edge, other⟩] else queue)

/-- Emission (sc_event_emit_impl): reject the empty address with
ERROR_ADDR_IS_NOT_VALID, otherwise look up the subscriptions registered on
the element (the table is keyed by the packed address, an injective encoding,
hence modelled as a map from addresses) and run the enqueue walk. -/
def sc_event_emit_impl (reg : ScAddr → List ScEventSub) (queue : List ScDispatch)
    (el : ScAddr) (type : ScEventType) (edge other : ScAddr) :
    ScResult × List ScDispatch :=
  if el = SC_ADDR_EMPTY then (ScResult.error_addr_is_not_valid, queue)
  else (ScResult.ok, sc_event_emit_loop (reg el) type edge other queue)

/-- The enqueue walk appends exactly one record per matching subscription, in
list order. -/
theorem sc_event_emit_loop_eq (subs : List ScEventSub) (type : ScEventType)
    (edge other : ScAddr) (queue : List ScDispatch) :
    sc_event_emit_loop subs type edge other queue =
      queue ++ (subs.filter (fun ev => ev.type = type)).map
        (fun ev => ⟨ev.id, edge, other⟩) := by
  induction subs generalizing queue with
  | nil => simp [sc_event_emit_loop]
  | cons ev rest ih =>
    by_cases hty : ev.type = type
    · simp [sc_event_emit_loop, hty, ih]
    · simp [sc_event_emit_loop, hty, ih]

/-- Claim C9: emitting on the empty address returns ERROR_ADDR_IS_NOT_VALID
and enqueues nothing; emitting on a non-empty address returns OK and appends
to the emission queue exactly one dispatch record for every subscription
registered on that address whose kind equals the emitted kind (in
registration order), and none for any other subscription. -/
theorem C9_emit_enqueues_exactly_matching_subscriptions
    (reg : ScAddr → List ScEventSub) (queue : List ScDispatch) (el : ScAddr)
    (type : ScEventType) (edge other : ScAddr) :
    (el = SC_ADDR_EMPTY →
      sc_event_emit_impl reg queue el type edge other =
        (ScResult.error_addr_is_not_valid, queue)) ∧
    (el ≠ SC_ADDR_EMPTY →
      sc_event_emit_impl reg queue el type edge other =
        (ScResult.ok,
          queue ++ ((reg el).filter (fun ev => ev.type = type)).map
            (fun ev => ⟨ev.id, edge, other⟩))) := by
  constructor
  · intro h
    unfold sc_event_emit_impl
    rw [if_pos h]
  · intro h
    unfold sc_event_emit_impl
    rw [if_neg h, sc_event_emit_loop_eq]

/-- Witness for C9: a table with two subscriptions of different kinds on one
element; emitting a matching kind enqueues exactly the matching one, and
emitting on the empty address enqueues nothing. -/
theorem C9_witness :
    sc_event_emit_impl
        (fun a => if a = ⟨1, 1⟩ then
          [⟨7, ⟨1, 1⟩, ScEventType.add_output_arc⟩,
           ⟨8, ⟨1, 1⟩, ScEventType.remove_element⟩]
        else []) [] ⟨1, 1⟩ ScEventType.add_output_arc ⟨1, 2⟩ ⟨1, 3⟩ =
      (ScResult.ok, [⟨7, ⟨1, 2⟩, ⟨1, 3⟩⟩]) ∧
    sc_event_emit_impl (fun _ => []) [] SC_ADDR_EMPTY ScEventType.add_output_arc
        SC_ADDR_EMPTY SC_ADDR_EMPTY =
      (ScResult.error_addr_is_not_valid, []) := by
  constructor
  · have h := (C9_emit_enqueues_exactly_matching_subscriptions
      (fun a => if a = ⟨1, 1⟩ then
        [⟨7, ⟨1, 1⟩, ScEventType.add_output_arc⟩,
         ⟨8, ⟨1, 1⟩, ScEventType.remove_element⟩]
      else []) [] ⟨1, 1⟩ ScEventType.add_output_arc ⟨1, 2⟩ ⟨1, 3⟩).2 (by decide)
    rw [h]
    decide
  · exact (C9_emit_enqueues_exactly_matching_subscriptions (fun _ => []) []
      SC_ADDR_EMPTY ScEventType.add_output_arc SC_ADDR_EMPTY SC_ADDR_EMPTY).1 rfl


/-- Shared analysis of the rollback path of sc_storage_arc_new: when the
connector slot was allocated and then freed because an endpoint failed to
resolve, resolution at every address is exactly as before the call, and the
allocated slot sits at the head of the free list of its segment with its
EXIST bit clear. -/
theorem arc_new_rollback_aux (s s1 : ScStorage) (t : Nat) (b e arc : ScAddr)
    (s3 : ScStorage) (r3 : ScResult) (hwf : AllocWF s)
    (halloc : sc_storage_allocate_new_element s = (s1, some arc))
    (hfree : sc_storage_free_element (_sc_storage_arc_fill s1 t b e arc) arc =
      (s3, r3)) :
    (∀ x, getLiveEl s3 x = getLiveEl s x) ∧
    (∃ seg1, s3.segments (arc.seg - 1) = some seg1 ∧
      seg1.last_released_offset = arc.offset ∧
      (seg1.elements arc.offset).access_levels = 0) := by
  rcases (allocate_new_element_spec s s1 (some arc) hwf halloc).2 arc rfl with
    ⟨h1, h2, h3, h4, h5, h6, h7⟩
  have hne2 : ∀ x, x ≠ arc →
      getLiveEl (_sc_storage_arc_fill s1 t b e arc) x = getLiveEl s1 x := by
    intro x hx
    unfold _sc_storage_arc_fill
    exact getLiveEl_updEl_ne s1 arc _ h1 x (Or.inl hx)
  have hfill : ∃ el2, getLiveEl (_sc_storage_arc_fill s1 t b e arc) arc =
      some el2 := by
    unfold _sc_storage_arc_fill
    exact ⟨_, getLiveEl_updEl_self s1 arc _ _ h7 rfl⟩
  rcases hfill with ⟨el2, hfill⟩
  have hok2 := getLiveEl_some_isOk hfill
  rcases free_element_spec _ arc s3 r3 hok2 hfree with ⟨hfo, hfd, hfl⟩
  refine ⟨?_, hfl⟩
  intro x
  by_cases hx : x = arc
  · rw [hx, hfd, h5]
  · rw [hfo x hx, hne2 x hx]
    exact h6 x hx

/-- Claim C3 (amended): whenever sc_storage_arc_new returns the empty address
— which is what happens when an endpoint address is empty, when allocation
fails, or when an endpoint fails to resolve at the point the source resolves
it, after allocation — no event is emitted and resolution at every address is
exactly as before the call; moreover, when the endpoints were nonempty and a
slot had been allocated, that slot has been returned to its segment as the
head of the free list, with its EXIST bit clear.  The claim as stated is
false: because the source resolves the endpoints only after allocating the
connector slot, a call whose begin endpoint is dead at entry but names the
very slot the allocator recycles resolves successfully and returns a
non-empty address (see the counterexample). -/
theorem C3_arc_new_failure_rolls_back (s : ScStorage) (t : Nat) (b e : ScAddr)
    (hwf : AllocWF s)
    (hret : (sc_storage_arc_new s t b e).2.1 = SC_ADDR_EMPTY) :
    (sc_storage_arc_new s t b e).2.2 = [] ∧
    (∀ x, getLiveEl (sc_storage_arc_new s t b e).1 x = getLiveEl s x) ∧
    (∀ s1 a, ¬(b = SC_ADDR_EMPTY ∨ e = SC_ADDR_EMPTY) →
      sc_storage_allocate_new_element s = (s1, some a) →
      ∃ seg1, (sc_storage_arc_new s t b e).1.segments (a.seg - 1) = some seg1 ∧
        seg1.last_released_offset = a.offset ∧
        (seg1.elements a.offset).access_levels = 0) := by
  by_cases hbe : b = SC_ADDR_EMPTY ∨ e = SC_ADDR_EMPTY
  · rw [arc_new_eq_of_empty s t b e hbe]
    exact ⟨rfl, fun _ => rfl, fun s1 a hne _ => absurd hbe hne⟩
  · rcases halloc : sc_storage_allocate_new_element s with ⟨s1, aopt⟩
    cases aopt with
    | none =>
      rw [arc_new_eq_of_alloc_fail s s1 t b e hbe halloc]
      refine ⟨rfl, ?_, ?_⟩
      · exact (allocate_new_element_spec s s1 none hwf halloc).1 rfl
      · intro s1x a hne halloc2
        exact Option.noConfusion (congrArg Prod.snd halloc2)
    | some arc =>
      rcases hfe : sc_storage_free_element (_sc_storage_arc_fill s1 t b e arc) arc
        with ⟨s3, r3⟩
      rcases arc_new_rollback_aux s s1 t b e arc s3 r3 hwf halloc hfe with
        ⟨haux1, haux2⟩
      by_cases hb : (sc_storage_get_element_by_addr
          (_sc_storage_arc_fill s1 t b e arc) b).1 = ScResult.ok
      · by_cases he : (sc_storage_get_element_by_addr
            (_sc_storage_arc_fill s1 t b e arc) e).1 = ScResult.ok
        · exfalso
          rw [arc_new_eq_of_success s s1 t b e arc hbe halloc hb he,
            arc_new_link_addr] at hret
          have h1 := ((allocate_new_element_spec s s1 (some arc) hwf
            halloc).2 arc rfl).1
          exact h1 (by rw [hret]; rfl)
        · rw [arc_new_eq_of_end_fail s s1 t b e arc hbe halloc hb he, hfe]
          refine ⟨rfl, haux1, ?_⟩
          intro s1x a hne halloc2
          have ha : arc = a := Option.some.inj (congrArg Prod.snd halloc2)
          exact ha ▸ haux2
      · rw [arc_new_eq_of_beg_fail s s1 t b e arc hbe halloc hb, hfe]
        refine ⟨rfl, haux1, ?_⟩
        intro s1x a hne halloc2
        have ha : arc = a := Option.some.inj (congrArg Prod.snd halloc2)
        exact ha ▸ haux2

/-- Witness for the amended C3 theorem on a concrete failing call: the end
endpoint names a dead slot in the two-node storage, so the call returns the
empty address, emits nothing, and the slot the allocator had handed out at
offset 3 resolves exactly as before the call. -/
theorem C3_witness :
    (sc_storage_arc_new stor_two_nodes sc_type_arc_access ⟨1, 1⟩ ⟨1, 9⟩).2.1 =
      SC_ADDR_EMPTY ∧
    (sc_storage_arc_new stor_two_nodes sc_type_arc_access ⟨1, 1⟩ ⟨1, 9⟩).2.2 = [] ∧
    getLiveEl (sc_storage_arc_new stor_two_nodes sc_type_arc_access
        ⟨1, 1⟩ ⟨1, 9⟩).1 ⟨1, 3⟩ = getLiveEl stor_two_nodes ⟨1, 3⟩ :=
  ⟨by decide,
   (C3_arc_new_failure_rolls_back stor_two_nodes sc_type_arc_access ⟨1, 1⟩ ⟨1, 9⟩
      AllocWF_stor_two_nodes (by decide)).1,
   (C3_arc_new_failure_rolls_back stor_two_nodes sc_type_arc_access ⟨1, 1⟩ ⟨1, 9⟩
      AllocWF_stor_two_nodes (by decide)).2.1 ⟨1, 3⟩⟩

/-- A storage in which the slot at offset 2 of the only segment is on the free
list (the segment head of released slots), while offset 1 holds a live node. -/
def stor_recycled : ScStorage :=
  mkStor1
    { num := 1
      elements := fun o =>
        if o = 1 then
          { type := sc_type_node,
            access_levels := SC_ACCESS_LVL_ELEMENT_EXIST }
        else {}
      last_engaged_offset := 2
      last_released_offset := 2 }
    (some 1)

/-- Counterexample to claim C3 as stated: the begin endpoint names a dead
slot — the recycled slot at the head of the free list — so by the claim the
call must return the empty address; instead the allocator hands that very
slot to the new connector, the post-allocation resolution of begin then
succeeds, and the call returns the non-empty connector address and emits
creation events, having built a connector that begins at itself. -/
theorem C3_counterexample :
    getLiveEl stor_recycled ⟨1, 2⟩ = none ∧
    (⟨1, 2⟩ : ScAddr) ≠ SC_ADDR_EMPTY ∧
    (⟨1, 1⟩ : ScAddr) ≠ SC_ADDR_EMPTY ∧
    getLiveEl stor_recycled ⟨1, 1⟩ ≠ none ∧
    (sc_storage_arc_new stor_recycled sc_type_arc_access ⟨1, 2⟩ ⟨1, 1⟩).2.1 =
      (⟨1, 2⟩ : ScAddr) ∧
    (sc_storage_arc_new stor_recycled sc_type_arc_access ⟨1, 2⟩ ⟨1, 1⟩).2.2 ≠
      [] := by
  refine ⟨by decide, by decide, by decide, by decide, by decide, by decide⟩

/-- Modelled from the spec: sc_flags_remove lives in a header that is not part
of the repository files; per the spec, the type filter compares the required
bits of the type bitmask directly, so the flag removal leaves the type bits
used by the iterator filters unchanged and is embedded as the identity. -/
def sc_flags_remove (t : Nat) : Nat := t

/-- Type filter check of the iterator engine (sc_iterator_compare_type): the
filter passes when every bit of the filter is present in the element type. -/
def sc_iterator_compare_type (el_type it_type : Nat) : Bool :=
  if it_type &&& sc_flags_remove el_type = it_type then true else false

/-- One slot of a triple pattern: a fixed address or a type filter. -/
structure ScIteratorParam where
  is_type : Bool := false
  addr : ScAddr := SC_ADDR_EMPTY
  type : Nat := 0
deriving DecidableEq, Repr

/-- Parameter comparison helper of the iterator engine
(sc_iterator_param_compare).  It checks mere bit overlap, unlike
sc_iterator_compare_type; none of the seven pattern walkers in the repository
files calls it. -/
def sc_iterator_param_compare (el : ScElement) (addr : ScAddr)
    (param : ScIteratorParam) : Bool :=
  if param.is_type then decide (el.type &&& param.type ≠ 0)
  else decide (addr = param.addr)

/-- A filter passing on a type keeps passing when the type gains bits. -/
theorem and_or_mask (a b c : Nat) (h : a &&& b = a) : a &&& (b ||| c) = a := by
  apply Nat.eq_of_testBit_eq
  intro i
  have hi := congrArg (fun n => Nat.testBit n i) h
  simp only [Nat.testBit_and] at hi
  simp only [Nat.testBit_and, Nat.testBit_or]
  cases ha : Nat.testBit a i <;> cases hb : Nat.testBit b i <;>
    simp_all

/-- Claim C6: an element type matches an iterator type filter exactly when
the filter is contained in the element type as a bit mask, so the filter
names required bits and the element may carry any additional bits without
losing the match. -/
theorem C6_type_filter_required_bits (el_type it_type extra : Nat) :
    (sc_iterator_compare_type el_type it_type = true ↔
      it_type &&& el_type = it_type) ∧
    (sc_iterator_compare_type el_type it_type = true →
      sc_iterator_compare_type (el_type ||| extra) it_type = true) := by
  constructor
  · unfold sc_iterator_compare_type sc_flags_remove
    split
    · rename_i hc
      exact ⟨fun _ => hc, fun _ => rfl⟩
    · rename_i hc
      exact ⟨fun hf => Bool.noConfusion hf, fun hc2 => absurd hc2 hc⟩
  · intro h
    unfold sc_iterator_compare_type sc_flags_remove at h ⊢
    split at h
    · rename_i hc
      rw [if_pos (and_or_mask it_type el_type extra hc)]
    · exact Bool.noConfusion h

/-- Witness for C6: the filter 1 matches type 1 and keeps matching when the
type carries the additional bit 2. -/
theorem C6_witness :
    sc_iterator_compare_type 1 1 = true ∧
    sc_iterator_compare_type (1 ||| 2) 1 = true :=
  ⟨by decide, (C6_type_filter_required_bits 1 1 2).2 (by decide)⟩

/-- The seven fixed triple patterns (sc_iterator3_type). -/
inductive ScIterator3Type where
  | f_a_a
  | f_a_f
  | a_a_f
  | a_f_a
  | f_f_a
  | a_f_f
  | f_f_f
deriving DecidableEq, Repr

/-- A triple iterator (sc_iterator3): the pattern kind, the three slot
parameters, the result triple, the finished flag, and the access levels of
the owning context. -/
structure ScIterator3 where
  type : ScIterator3Type
  params0 : ScIteratorParam
  params1 : ScIteratorParam
  params2 : ScIteratorParam
  results0 : ScAddr := SC_ADDR_EMPTY
  results1 : ScAddr := SC_ADDR_EMPTY
  results2 : ScAddr := SC_ADDR_EMPTY
  finished : Bool := false
  ctx_access_levels : Nat := 0
deriving DecidableEq, Repr

/-- Modelled from the spec: sc_element_is_request_deletion lives in a header
that is not part of the repository files; per the spec it tests the
REQUEST_DELETION access bit of the element. -/
def sc_element_is_request_deletion (el : ScElement) : Bool :=
  decide (el.access_levels &&& SC_ACCESS_LVL_REQUEST_DELETION =
    SC_ACCESS_LVL_REQUEST_DELETION)

/-- Modelled from the spec: sc_access_lvl_check_read lives in a header that
is not part of the repository files; the spec does not restrict reads by
access levels anywhere in the storage walkthrough, so the check always
grants the read in this embedding. -/
def sc_access_lvl_check_read (_ctx_levels _el_levels : Nat) : Bool := true

/-- Reading the type of an element behind an address
(sc_storage_get_element_type): none when the address does not resolve (the C
function then leaves the out parameter untouched). -/
def sc_storage_get_element_type (s : ScStorage) (addr : ScAddr) : Option Nat :=
  match sc_storage_get_element_by_addr s addr with
  | (ScResult.ok, some el) => some el.type
  | _ => none

/-- Chain walk of the F-A-A pattern over the out-list, fuelled: each step
locks the connector slot, skips connectors marked for deletion, and returns
with the result triple filled on the first connector whose type and whose
end element type pass the filters.  Fuel exhaustion behaves as reaching the
end of the chain; any fuel larger than the chain length makes the walk
exact.  The C code leaves the end element type uninitialised when the end
does not resolve; the embedding reads 0 then, as the A-A-F walker
initialises it. -/
def _sc_iterator3_f_a_a_loop (s : ScStorage) (it : ScIterator3) :
    Nat → ScAddr → Bool × ScIterator3
  | 0, _ => (false, { it with finished := true })
  | fuel + 1, arc_addr =>
    if arc_addr = SC_ADDR_EMPTY then (false, { it with finished := true })
    else
      let el := slotAt s arc_addr
      let next_out_arc := el.arc.next_out_arc
      if sc_element_is_request_deletion el = false then
        let arc_end := el.arc.endAddr
        let arc_type := el.type
        let arc_access := el.access_levels
        let el_type := (sc_storage_get_element_type s arc_end).getD 0
        if sc_iterator_compare_type arc_type it.params1.type &&
            sc_iterator_compare_type el_type it.params2.type &&
            sc_access_lvl_check_read it.ctx_access_levels arc_access then
          (true, { it with results1 := arc_addr, results2 := arc_end })
        else _sc_iterator3_f_a_a_loop s it fuel next_out_arc
      else _sc_iterator3_f_a_a_loop s it fuel next_out_arc

/-- One next step of the F-A-A pattern (_sc_iterator3_f_a_a_next): pin the
first element into the result, restart from its out-list head or advance
from the current connector, then walk. -/
def _sc_iterator3_f_a_a_next (s : ScStorage) (it : ScIterator3) (fuel : Nat) :
    Bool × ScIterator3 :=
  let it1 := { it with results0 := it.params0.addr }
  let arc_addr :=
    if it.results1 = SC_ADDR_EMPTY then (slotAt s it.params0.addr).first_out_arc
    else (slotAt s it.results1).arc.next_out_arc
  _sc_iterator3_f_a_a_loop s it1 fuel arc_addr

/-- Chain walk of the F-A-F pattern over the in-list of the third element,
filtering by the begin endpoint, fuelled like the F-A-A walk. -/
def _sc_iterator3_f_a_f_loop (s : ScStorage) (it : ScIterator3) :
    Nat → ScAddr → Bool × ScIterator3
  | 0, _ => (false, { it with finished := true })
  | fuel + 1, arc_addr =>
    if arc_addr = SC_ADDR_EMPTY then (false, { it with finished := true })
    else
      let el := slotAt s arc_addr
      let next_in_arc := el.arc.next_in_arc
      if sc_element_is_request_deletion el = false then
        let arc_type := el.type
        let arc_begin := el.arc.beginAddr
        let arc_access := el.access_levels
        if decide (it.params0.addr = arc_begin) &&
            sc_iterator_compare_type arc_type it.params1.type &&
            sc_access_lvl_check_read it.ctx_access_levels arc_access then
          (true, { it with results1 := arc_addr })
        else _sc_iterator3_f_a_f_loop s it fuel next_in_arc
      else _sc_iterator3_f_a_f_loop s it fuel next_in_arc

/-- One next step of the F-A-F pattern (_sc_iterator3_f_a_f_next). -/
def _sc_iterator3_f_a_f_next (s : ScStorage) (it : ScIterator3) (fuel : Nat) :
    Bool × ScIterator3 :=
  let it1 := { it with results0 := it.params0.addr, results2 := it.params2.addr }
  let arc_addr :=
    if it.results1 = SC_ADDR_EMPTY then (slotAt s it.params2.addr).first_in_arc
    else (slotAt s it.results1).arc.next_in_arc
  _sc_iterator3_f_a_f_loop s it1 fuel arc_addr

/-- Chain walk of the A-A-F pattern over the in-list of the third element,
fuelled like the F-A-A walk. -/
def _sc_iterator3_a_a_f_loop (s : ScStorage) (it : ScIterator3) :
    Nat → ScAddr → Bool × ScIterator3
  | 0, _ => (false, { it with finished := true })
  | fuel + 1, arc_addr =>
    if arc_addr = SC_ADDR_EMPTY then (false, { it with finished := true })
    else
      let el := slotAt s arc_addr
      let next_in_arc := el.arc.next_in_arc
      if sc_element_is_request_deletion el = false then
        let arc_type := el.type
        let arc_begin := el.arc.beginAddr
        let arc_access := el.access_levels
        let el_type := (sc_storage_get_element_type s arc_begin).getD 0
        if sc_iterator_compare_type arc_type it.params1.type &&
            sc_iterator_compare_type el_type it.params0.type &&
            sc_access_lvl_check_read it.ctx_access_levels arc_access then
          (true, { it with results1 := arc_addr, results0 := arc_begin })
        else _sc_iterator3_a_a_f_loop s it fuel next_in_arc
      else _sc_iterator3_a_a_f_loop s it fuel next_in_arc

/-- One next step of the A-A-F pattern (_sc_iterator3_a_a_f_next). -/
def _sc_iterator3_a_a_f_next (s : ScStorage) (it : ScIterator3) (fuel : Nat) :
    Bool × ScIterator3 :=
  let it1 := { it with results2 := it.params2.addr }
  let arc_addr :=
    if it.results1 = SC_ADDR_EMPTY then (slotAt s it.params2.addr).first_in_arc
    else (slotAt s it.results1).arc.next_in_arc
  _sc_iterator3_a_a_f_loop s it1 fuel arc_addr

/-- One next step of the A-F-A pattern (_sc_iterator3_a_f_a_next): a single
shot that reads the fixed connector and emits its endpoints. -/
def _sc_iterator3_a_f_a_next (s : ScStorage) (it : ScIterator3) :
    Bool × ScIterator3 :=
  if it.finished = false then
    let arc_el := slotAt s it.params1.addr
    (true,
      { it with
          finished := true
          results1 := it.params1.addr
          results0 := arc_el.arc.beginAddr
          results2 := arc_el.arc.endAddr })
  else (false, it)

/-- One next step of the F-F-A pattern (_sc_iterator3_f_f_a_next): a single
shot that succeeds when the fixed connector begins at the fixed first
element. -/
def _sc_iterator3_f_f_a_next (s : ScStorage) (it : ScIterator3) :
    Bool × ScIterator3 :=
  if it.finished = false then
    let edge_el := slotAt s it.params1.addr
    if it.params0.addr = edge_el.arc.beginAddr then
      (true,
        { it with
            finished := true
            results0 := edge_el.arc.beginAddr
            results1 := it.params1.addr
            results2 := edge_el.arc.endAddr })
    else (false, { it with finished := true })
  else (false, it)

/-- One next step of the A-F-F pattern (_sc_iterator3_a_f_f_next): a single
shot that succeeds when the fixed connector ends at the fixed third
element. -/
def _sc_iterator3_a_f_f_next (s : ScStorage) (it : ScIterator3) :
    Bool × ScIterator3 :=
  if it.finished = false then
    let edge_el := slotAt s it.params1.addr
    if it.params2.addr = edge_el.arc.endAddr then
      (true,
        { it with
            finished := true
            results0 := edge_el.arc.beginAddr
            results1 := it.params1.addr
            results2 := edge_el.arc.endAddr })
    else (false, { it with finished := true })
  else (false, it)

/-- One next step of the F-F-F pattern (_sc_iterator3_f_f_f_next): a single
shot that succeeds when both fixed endpoints match the fixed connector. -/
def _sc_iterator3_f_f_f_next (s : ScStorage) (it : ScIterator3) :
    Bool × ScIterator3 :=
  if it.finished = false then
    let edge_el := slotAt s it.params1.addr
    if it.params0.addr = edge_el.arc.beginAddr ∧
        it.params2.addr = edge_el.arc.endAddr then
      (true,
        { it with
            finished := true
            results0 := edge_el.arc.beginAddr
            results1 := it.params1.addr
            results2 := edge_el.arc.endAddr })
    else (false, { it with finished := true })
  else (false, it)

/-- Advancing a triple iterator (sc_iterator3_next): a finished iterator
returns false unchanged, otherwise the pattern walker runs. -/
def sc_iterator3_next (s : ScStorage) (it : ScIterator3) (fuel : Nat) :
    Bool × ScIterator3 :=
  if it.finished = true then (false, it)
  else
    match it.type with
    | ScIterator3Type.f_a_a => _sc_iterator3_f_a_a_next s it fuel
    | ScIterator3Type.f_a_f => _sc_iterator3_f_a_f_next s it fuel
    | ScIterator3Type.a_a_f => _sc_iterator3_a_a_f_next s it fuel
    | ScIterator3Type.a_f_a => _sc_iterator3_a_f_a_next s it
    | ScIterator3Type.f_f_a => _sc_iterator3_f_f_a_next s it
    | ScIterator3Type.a_f_f => _sc_iterator3_a_f_f_next s it
    | ScIterator3Type.f_f_f => _sc_iterator3_f_f_f_next s it

/-- The F-A-A walk returning false has set finished and has not touched the
connector slot of the result triple. -/
theorem f_a_a_loop_false (s : ScStorage) (it : ScIterator3) :
    ∀ fuel arc it2, _sc_iterator3_f_a_a_loop s it fuel arc = (false, it2) →
      it2 = { it with finished := true } := by
  intro fuel
  induction fuel with
  | zero =>
    intro arc it2 h
    unfold _sc_iterator3_f_a_a_loop at h
    exact ((Prod.mk.injEq _ _ _ _ ▸ h).2).symm
  | succ n ih =>
    intro arc it2 h
    unfold _sc_iterator3_f_a_a_loop at h
    split at h
    · exact ((Prod.mk.injEq _ _ _ _ ▸ h).2).symm
    · dsimp only at h
      split at h
      · split at h
        · exact absurd ((Prod.mk.injEq _ _ _ _ ▸ h).1) (by decide)
        · exact ih _ _ h
      · exact ih _ _ h

/-- The F-A-F walk returning false has set finished and has not touched the
connector slot of the result triple. -/
theorem f_a_f_loop_false (s : ScStorage) (it : ScIterator3) :
    ∀ fuel arc it2, _sc_iterator3_f_a_f_loop s it fuel arc = (false, it2) →
      it2 = { it with finished := true } := by
  intro fuel
  induction fuel with
  | zero =>
    intro arc it2 h
    unfold _sc_iterator3_f_a_f_loop at h
    exact ((Prod.mk.injEq _ _ _ _ ▸ h).2).symm
  | succ n ih =>
    intro arc it2 h
    unfold _sc_iterator3_f_a_f_loop at h
    split at h
    · exact ((Prod.mk.injEq _ _ _ _ ▸ h).2).symm
    · dsimp only at h
      split at h
      · split at h
        · exact absurd ((Prod.mk.injEq _ _ _ _ ▸ h).1) (by decide)
        · exact ih _ _ h
      · exact ih _ _ h

/-- The A-A-F walk returning false has set finished and has not touched the
connector slot of the result triple. -/
theorem a_a_f_loop_false (s : ScStorage) (it : ScIterator3) :
    ∀ fuel arc it2, _sc_iterator3_a_a_f_loop s it fuel arc = (false, it2) →
      it2 = { it with finished := true } := by
  intro fuel
  induction fuel with
  | zero =>
    intro arc it2 h
    unfold _sc_iterator3_a_a_f_loop at h
    exact ((Prod.mk.injEq _ _ _ _ ▸ h).2).symm
  | succ n ih =>
    intro arc it2 h
    unfold _sc_iterator3_a_a_f_loop at h
    split at h
    · exact ((Prod.mk.injEq _ _ _ _ ▸ h).2).symm
    · dsimp only at h
      split at h
      · split at h
        · exact absurd ((Prod.mk.injEq _ _ _ _ ▸ h).1) (by decide)
        · exact ih _ _ h
      · exact ih _ _ h

/-- Claim C8 (amended): a finished iterator is returned unchanged by next
with the result false; and whenever next returns false it has set finished
on the iterator it returns and has left the connector slot of the result
triple unchanged.  The claim as frozen is false: on exhaustion no pattern
walker clears the result triple, so the stale connector of the last
successful step survives in results (see the counterexample). -/
theorem C8_next_exhaustion_behaviour (s : ScStorage) (it : ScIterator3)
    (fuel : Nat) :
    (it.finished = true → sc_iterator3_next s it fuel = (false, it)) ∧
    (∀ it2, sc_iterator3_next s it fuel = (false, it2) →
      it2.finished = true ∧ it2.results1 = it.results1) := by
  constructor
  · intro hf
    unfold sc_iterator3_next
    rw [if_pos hf]
  · intro it2 h
    unfold sc_iterator3_next at h
    by_cases hf : it.finished = true
    · rw [if_pos hf] at h
      have h2 := (Prod.mk.injEq _ _ _ _ ▸ h).2
      rw [← h2]
      exact ⟨hf, rfl⟩
    · rw [if_neg hf] at h
      cases hty : it.type <;> rw [hty] at h <;> dsimp only at h
      · unfold _sc_iterator3_f_a_a_next at h
        have h2 := f_a_a_loop_false s _ _ _ _ h
        rw [h2]
        exact ⟨rfl, rfl⟩
      · unfold _sc_iterator3_f_a_f_next at h
        have h2 := f_a_f_loop_false s _ _ _ _ h
        rw [h2]
        exact ⟨rfl, rfl⟩
      · unfold _sc_iterator3_a_a_f_next at h
        have h2 := a_a_f_loop_false s _ _ _ _ h
        rw [h2]
        exact ⟨rfl, rfl⟩
      · unfold _sc_iterator3_a_f_a_next at h
        rw [if_pos (Bool.not_eq_true _ ▸ hf)] at h
        dsimp only at h
        exact absurd ((Prod.mk.injEq _ _ _ _ ▸ h).1) (by decide)
      · unfold _sc_iterator3_f_f_a_next at h
        rw [if_pos (Bool.not_eq_true _ ▸ hf)] at h
        dsimp only at h
        split at h
        · exact absurd ((Prod.mk.injEq _ _ _ _ ▸ h).1) (by decide)
        · have h2 := (Prod.mk.injEq _ _ _ _ ▸ h).2
          rw [← h2]
          exact ⟨rfl, rfl⟩
      · unfold _sc_iterator3_a_f_f_next at h
        rw [if_pos (Bool.not_eq_true _ ▸ hf)] at h
        dsimp only at h
        split at h
        · exact absurd ((Prod.mk.injEq _ _ _ _ ▸ h).1) (by decide)
        · have h2 := (Prod.mk.injEq _ _ _ _ ▸ h).2
          rw [← h2]
          exact ⟨rfl, rfl⟩
      · unfold _sc_iterator3_f_f_f_next at h
        rw [if_pos (Bool.not_eq_true _ ▸ hf)] at h
        dsimp only at h
        split at h
        · exact absurd ((Prod.mk.injEq _ _ _ _ ▸ h).1) (by decide)
        · have h2 := (Prod.mk.injEq _ _ _ _ ▸ h).2
          rw [← h2]
          exact ⟨rfl, rfl⟩

/-- The only segment of stor_iter: a node at offset 1 with one outgoing
access arc at offset 2 ending in the node at offset 3. -/
def stor_iter_seg : ScSegment :=
  { num := 1
    elements := fun o =>
      if o = 1 then
        { type := sc_type_node
          access_levels := SC_ACCESS_LVL_ELEMENT_EXIST
          first_out_arc := ⟨1, 2⟩ }
      else if o = 2 then
        { type := sc_type_arc_access
          access_levels := SC_ACCESS_LVL_ELEMENT_EXIST
          arc := { beginAddr := ⟨1, 1⟩, endAddr := ⟨1, 3⟩ } }
      else if o = 3 then
        { type := sc_type_node
          access_levels := SC_ACCESS_LVL_ELEMENT_EXIST }
      else {}
    last_engaged_offset := 3
    last_released_offset := 0 }

/-- A storage with a node at offset 1 that has one outgoing access arc at
offset 2 ending in the node at offset 3. -/
def stor_iter : ScStorage :=
  mkStor1 stor_iter_seg (some 1)

/-- An F-A-A iterator pinned on the node at offset 1, with all-pass type
filters in the connector and third slots. -/
def c8_it0 : ScIterator3 :=
  { type := ScIterator3Type.f_a_a
    params0 := { addr := ⟨1, 1⟩ }
    params1 := { is_type := true }
    params2 := { is_type := true } }

/-- Counterexample to claim C8 as stated: the first next finds the arc and
stores it in the result triple; the second next exhausts the chain, returns
false and sets finished, but the result triple is not cleared — the
connector slot still names the arc found before. -/
theorem C8_counterexample :
    (sc_iterator3_next stor_iter c8_it0 5).1 = true ∧
    (sc_iterator3_next stor_iter c8_it0 5).2.results1 = (⟨1, 2⟩ : ScAddr) ∧
    (sc_iterator3_next stor_iter (sc_iterator3_next stor_iter c8_it0 5).2 5).1 =
      false ∧
    (sc_iterator3_next stor_iter
        (sc_iterator3_next stor_iter c8_it0 5).2 5).2.finished = true ∧
    (sc_iterator3_next stor_iter
        (sc_iterator3_next stor_iter c8_it0 5).2 5).2.results1 ≠
      SC_ADDR_EMPTY := by
  refine ⟨by decide, by decide, by decide, by decide, by decide⟩

/-- One chain walk of the collection phase of sc_storage_element_free: chase
next_out_arc (or next_in_arc) from the given head, consulting the visited
cache before resolving; an unvisited live connector is appended to the
cache, the remove queue and the iteration queue, an unvisited address that
fails to resolve stops the walk, and a visited one is stepped over using its
cached element.  The C loop is unbounded; the fuel only caps the walk and
any value at least the chain length makes it exact. -/
def _sc_element_free_collect_chain (s : ScStorage) (use_out : Bool) :
    Nat → ScAddr → List ScAddr × List ScAddr × List ScAddr →
    List ScAddr × List ScAddr × List ScAddr
  | 0, _, st => st
  | fuel + 1, cur, (cache, remq, itq) =>
    if cur = SC_ADDR_EMPTY then (cache, remq, itq)
    else if cur ∈ cache then
      let el2 := slotAt s cur
      _sc_element_free_collect_chain s use_out fuel
        (if use_out then el2.arc.next_out_arc else el2.arc.next_in_arc)
        (cache, remq, itq)
    else
      match getLiveEl s cur with
      | none => (cache, remq, itq)
      | some el2 =>
        _sc_element_free_collect_chain s use_out fuel
          (if use_out then el2.arc.next_out_arc else el2.arc.next_in_arc)
          (cache ++ [cur], remq ++ [cur], itq ++ [cur])

/-- The BFS of the collection phase of sc_storage_element_free: pop the next
address off the iteration queue, skip it when it does not resolve, otherwise
walk its out-chain and then its in-chain, and return the remove queue once
the iteration queue drains.  Fuel exhaustion returns the remove queue built
so far; any fuel at least the number of queue pops makes the loop exact. -/
def _sc_element_free_collect_loop (s : ScStorage) (fuelC : Nat) :
    Nat → List ScAddr × List ScAddr × List ScAddr → List ScAddr
  | 0, (_, remq, _) => remq
  | fuel + 1, (cache, remq, itq) =>
    match itq with
    | [] => remq
    | cur :: rest =>
      match getLiveEl s cur with
      | none => _sc_element_free_collect_loop s fuelC fuel (cache, remq, rest)
      | some el =>
        let st1 := _sc_element_free_collect_chain s true fuelC
          el.first_out_arc (cache, remq, rest)
        let st2 := _sc_element_free_collect_chain s false fuelC
          el.first_in_arc st1
        _sc_element_free_collect_loop s fuelC fuel st2

/-- Unlinking of a connector in the removal phase of
sc_storage_element_free: rewire next and prev of the adjacent list entries,
the heads and counters of the endpoints (symmetrically for an undirected
edge between distinct endpoints, all reads and writes in source order), and
produce the two arc removal events, whose access argument is read from the
connector slot at emit time. -/
def _sc_element_free_unlink_connector (s0 : ScStorage) (addr : ScAddr)
    (el : ScElement) : ScStorage × List ScEvent :=
  let type := el.type
  let is_edge := type &&& sc_type_edge_common ≠ 0
  let begin_addr := el.arc.beginAddr
  let end_addr := el.arc.endAddr
  let is_not_loop := begin_addr ≠ end_addr
  let prev_out_arc := el.arc.prev_out_arc
  let next_out_arc := el.arc.next_out_arc
  let prev_in_arc := el.arc.prev_in_arc
  let next_in_arc := el.arc.next_in_arc
  let s1 :=
    if prev_out_arc ≠ SC_ADDR_EMPTY then
      if (sc_storage_get_element_by_addr s0 prev_out_arc).1 = ScResult.ok then
        updEl s0 prev_out_arc (fun el2 =>
          { el2 with arc := { el2.arc with next_out_arc := next_out_arc } })
      else s0
    else s0
  let s2 :=
    if next_out_arc ≠ SC_ADDR_EMPTY then
      if (sc_storage_get_element_by_addr s1 next_out_arc).1 = ScResult.ok then
        updEl s1 next_out_arc (fun el2 =>
          { el2 with arc := { el2.arc with prev_out_arc := prev_out_arc } })
      else s1
    else s1
  let s3 :=
    if (sc_storage_get_element_by_addr s2 begin_addr).1 = ScResult.ok then
      updEl s2 begin_addr (fun b_el =>
        let b1 := if addr = b_el.first_out_arc then
            { b_el with first_out_arc := next_out_arc } else b_el
        let b2 := { b1 with output_arcs_count := dec32 b1.output_arcs_count }
        if is_edge ∧ is_not_loop then
          let b3 := if addr = b2.first_in_arc then
              { b2 with first_in_arc := next_in_arc } else b2
          { b3 with input_arcs_count := dec32 b3.input_arcs_count }
        else b2)
    else s2
  let ev1 : ScEvent := ⟨begin_addr, (slotAt s3 addr).access_levels,
    ScEventType.remove_output_arc, addr, end_addr⟩
  let s4 :=
    if prev_in_arc ≠ SC_ADDR_EMPTY then
      if (sc_storage_get_element_by_addr s3 prev_in_arc).1 = ScResult.ok then
        updEl s3 prev_in_arc (fun el2 =>
          { el2 with arc := { el2.arc with next_in_arc := next_in_arc } })
      else s3
    else s3
  let s5 :=
    if next_in_arc ≠ SC_ADDR_EMPTY then
      if (sc_storage_get_element_by_addr s4 next_in_arc).1 = ScResult.ok then
        updEl s4 next_in_arc (fun el2 =>
          { el2 with arc := { el2.arc with prev_in_arc := prev_in_arc } })
      else s4
    else s4
  let s6 :=
    if (sc_storage_get_element_by_addr s5 end_addr).1 = ScResult.ok then
      updEl s5 end_addr (fun e_el =>
        let e1 := if addr = e_el.first_in_arc then
            { e_el with first_in_arc := next_in_arc } else e_el
        let e2 := { e1 with input_arcs_count := dec32 e1.input_arcs_count }
        if is_edge ∧ is_not_loop then
          let e3 := if addr = e2.first_out_arc then
              { e2 with first_out_arc := next_out_arc } else e2
          { e3 with output_arcs_count := dec32 e3.output_arcs_count }
        else e2)
    else s5
  let ev2 : ScEvent := ⟨end_addr, (slotAt s6 addr).access_levels,
    ScEventType.remove_input_arc, addr, begin_addr⟩
  (s6, [ev1, ev2])

/-- Removal of one collected address in the removal phase of
sc_storage_element_free: skip when the address no longer resolves or the
element is already marked REQUEST_DELETION; otherwise mark it, unlink it
when it is a connector, emit REMOVE_ELEMENT, and return the slot to the
free list of its segment.  The Boolean reports whether the slot was
freed. -/
def _sc_element_free_remove_one (s : ScStorage) (addr : ScAddr) :
    ScStorage × List ScEvent × Bool :=
  if (sc_storage_get_element_by_addr s addr).1 ≠ ScResult.ok ∨
      (slotAt s addr).access_levels &&& SC_ACCESS_LVL_REQUEST_DELETION =
        SC_ACCESS_LVL_REQUEST_DELETION then
    (s, [], false)
  else
    let s0 := updEl s addr (fun el =>
      { el with access_levels :=
          el.access_levels ||| SC_ACCESS_LVL_REQUEST_DELETION })
    let el := slotAt s0 addr
    let type := el.type
    if type &&& sc_type_link ≠ 0 then
      ((sc_storage_free_element s0 addr).1,
        [⟨addr, (slotAt s0 addr).access_levels, ScEventType.remove_element,
          SC_ADDR_EMPTY, SC_ADDR_EMPTY⟩],
        true)
    else if type &&& sc_type_arc_mask ≠ 0 then
      match _sc_element_free_unlink_connector s0 addr el with
      | (s6, evs) =>
        ((sc_storage_free_element s6 addr).1,
          evs ++ [⟨addr, (slotAt s6 addr).access_levels,
            ScEventType.remove_element, SC_ADDR_EMPTY, SC_ADDR_EMPTY⟩],
          true)
    else
      ((sc_storage_free_element s0 addr).1,
        [⟨addr, (slotAt s0 addr).access_levels, ScEventType.remove_element,
          SC_ADDR_EMPTY, SC_ADDR_EMPTY⟩],
        true)

/-- The removal phase of sc_storage_element_free over the collected queue,
returning the final storage, the emitted events, and the addresses actually
freed in order. -/
def _sc_element_free_remove_loop (s : ScStorage) :
    List ScAddr → ScStorage × List ScEvent × List ScAddr
  | [] => (s, [], [])
  | a :: rest =>
    match _sc_element_free_remove_one s a with
    | (s1, evs, freed1) =>
      match _sc_element_free_remove_loop s1 rest with
      | (s2, evs2, freed) =>
        (s2, evs ++ evs2, (if freed1 then [a] else []) ++ freed)

/-- Cascading erase (sc_storage_element_free): fail when the root does not
resolve, otherwise collect the root and every connector reachable through
incidence chains of collected elements, then run the removal phase over the
collection order.  Returns the storage, the result, the events, and the
freed addresses in order.  The two C loops are unbounded; fuelL bounds the
BFS pops and fuelC each chain walk, and values at least the number of pops
and the chain lengths make them exact. -/
def sc_storage_element_free (s : ScStorage) (addr : ScAddr)
    (fuelL fuelC : Nat) : ScStorage × ScResult × List ScEvent × List ScAddr :=
  if (sc_storage_get_element_by_addr s addr).1 ≠ ScResult.ok then
    (s, (sc_storage_get_element_by_addr s addr).1, [], [])
  else
    let remq := _sc_element_free_collect_loop s fuelC fuelL ([], [addr], [addr])
    match _sc_element_free_remove_loop s remq with
    | (s2, evs, freed) => (s2, ScResult.ok, evs, freed)

/-- The raw slot behind a live address is the resolved element. -/
theorem slotAt_of_live {s : ScStorage} {a : ScAddr} {el : ScElement}
    (h : getLiveEl s a = some el) : slotAt s a = el := by
  rcases getLiveEl_eq_some_elim h with ⟨hg, seg, hseg, helq, hex⟩
  unfold slotAt
  rw [hseg]
  exact helq

/-- Adding bits cannot unset a passing bit mask test. -/
theorem or_and_mask (a b m : Nat) (h : a &&& m = m) : (a ||| b) &&& m = m := by
  apply Nat.eq_of_testBit_eq
  intro i
  have hi := congrArg (fun n => Nat.testBit n i) h
  simp only [Nat.testBit_and] at hi
  simp only [Nat.testBit_and, Nat.testBit_or]
  cases ha : Nat.testBit a i <;> cases hm : Nat.testBit m i <;> simp_all

/-- An update through an element pointer that keeps the EXIST bit set keeps
the updated address resolving, to the updated element. -/
theorem getLiveEl_updEl_self_exist (s : ScStorage) (a : ScAddr)
    (f : ScElement → ScElement) (el : ScElement) (h : getLiveEl s a = some el)
    (hex : (f el).access_levels &&& SC_ACCESS_LVL_ELEMENT_EXIST =
      SC_ACCESS_LVL_ELEMENT_EXIST) :
    getLiveEl (updEl s a f) a = some (f el) := by
  rcases getLiveEl_eq_some_elim h with ⟨hg, seg, hseg, helq, _⟩
  have hg2 : sc_addr_guard_rejects (updEl s a f) a = false := by
    rw [sc_addr_guard_rejects_congr s (updEl s a f) a (updEl_fields s a f).2.1]
    exact hg
  have hseg2 : (updEl s a f).segments (a.seg - 1) =
      some (setSlot seg a.offset (f (seg.elements a.offset))) := by
    rw [updEl_segments_self, hseg]
  have hslot : (setSlot seg a.offset (f (seg.elements a.offset))).elements
      a.offset = f el := by
    rw [setSlot_elements_eq, helq]
  have hres := getLiveEl_eq_some_intro (updEl s a f) a
    (setSlot seg a.offset (f (seg.elements a.offset))) hg2 hseg2
    (by rw [hslot]; exact hex)
  rw [hslot] at hres
  exact hres

/-- An update through an element pointer that kills the EXIST bit leaves the
updated address dead; a dead address stays dead under any update. -/
theorem getLiveEl_updEl_self_none (s : ScStorage) (a : ScAddr)
    (f : ScElement → ScElement)
    (h : ∀ el, getLiveEl s a = some el →
      (f el).access_levels &&& SC_ACCESS_LVL_ELEMENT_EXIST ≠
        SC_ACCESS_LVL_ELEMENT_EXIST)
    (hdead : getLiveEl s a = none → sc_addr_guard_rejects s a = false →
      ∀ seg el, s.segments (a.seg - 1) = some seg → seg.elements a.offset = el →
        (f el).access_levels &&& SC_ACCESS_LVL_ELEMENT_EXIST ≠
          SC_ACCESS_LVL_ELEMENT_EXIST) :
    getLiveEl (updEl s a f) a = none := by
  rw [getLiveEl_def]
  rw [sc_addr_guard_rejects_congr s (updEl s a f) a (updEl_fields s a f).2.1]
  by_cases hg : sc_addr_guard_rejects s a
  · rw [if_pos hg]
  · rw [if_neg hg]
    rw [updEl_segments_self]
    cases hseg : s.segments (a.seg - 1) with
    | none => rfl
    | some seg =>
      dsimp only
      rw [setSlot_elements_eq]
      rw [if_neg]
      cases hel : getLiveEl s a with
      | some el =>
        have := (getLiveEl_eq_some_elim hel).2
        rcases this with ⟨seg2, hseg2, helq, _⟩
        rw [hseg] at hseg2
        cases hseg2
        rw [helq]
        exact h el hel
      | none =>
        exact hdead hel (Bool.not_eq_true _ ▸ hg) seg (seg.elements a.offset)
          hseg rfl

/-- An update through an element pointer that does not touch the access
levels of its target preserves, at every address, the access levels seen
through resolution (and with them liveness). -/
theorem getLiveEl_map_access_updEl (s : ScStorage) (a : ScAddr)
    (f : ScElement → ScElement) (ha : a.seg ≠ 0)
    (hf : ∀ el, (f el).access_levels = el.access_levels) (x : ScAddr) :
    (getLiveEl (updEl s a f) x).map ScElement.access_levels =
      (getLiveEl s x).map ScElement.access_levels := by
  by_cases hx : x = a
  · subst hx
    cases hel : getLiveEl s x with
    | some el =>
      rw [getLiveEl_updEl_self_exist s x f el hel
        (by rw [hf el]; exact (getLiveEl_eq_some_elim hel).2.choose_spec.2.2)]
      simp [hf el]
    | none =>
      have hnone2 : getLiveEl (updEl s x f) x = none := by
        refine getLiveEl_updEl_self_none s x f
          (fun el h2 => absurd h2
            (by rw [hel]; exact fun hc => Option.noConfusion hc)) ?_
        intro _ hgf seg el hseg helq
        rw [getLiveEl_def, hgf] at hel
        simp only [Bool.false_eq_true, if_false] at hel
        rw [hseg] at hel
        dsimp only at hel
        split at hel
        · exact Option.noConfusion hel
        · rename_i hacc
          rw [hf el, ← helq]
          exact hacc
      rw [hnone2]
  · rw [getLiveEl_updEl_ne s a f ha x (Or.inl hx)]

/-- A successfully resolving address has a nonzero segment component. -/
theorem isOk_seg_ne_zero (s : ScStorage) (a : ScAddr)
    (h : (sc_storage_get_element_by_addr s a).1 = ScResult.ok) : a.seg ≠ 0 := by
  rcases isOk_getLiveEl s a h with ⟨el, hel⟩
  exact (sc_addr_guard_rejects_elim (getLiveEl_eq_some_elim hel).1).1

/-- A write through a resolved pointer that does not touch access levels
preserves the access levels seen through resolution everywhere. -/
theorem mapacc_guard_write (t : ScStorage) (b : ScAddr)
    (f : ScElement → ScElement)
    (hf : ∀ el2, (f el2).access_levels = el2.access_levels) (x : ScAddr) :
    (getLiveEl (if (sc_storage_get_element_by_addr t b).1 = ScResult.ok
        then updEl t b f else t) x).map ScElement.access_levels =
      (getLiveEl t x).map ScElement.access_levels := by
  split
  · rename_i hok
    exact getLiveEl_map_access_updEl t b f (isOk_seg_ne_zero t b hok) hf x
  · rfl

/-- As mapacc_guard_write, under the additional emptiness guard the source
puts before the resolution. -/
theorem mapacc_guard_write2 (t : ScStorage) (p : ScAddr)
    (f : ScElement → ScElement)
    (hf : ∀ el2, (f el2).access_levels = el2.access_levels) (x : ScAddr) :
    (getLiveEl (if p ≠ SC_ADDR_EMPTY then
        (if (sc_storage_get_element_by_addr t p).1 = ScResult.ok
          then updEl t p f else t)
      else t) x).map ScElement.access_levels =
      (getLiveEl t x).map ScElement.access_levels := by
  split
  · exact mapacc_guard_write t p f hf x
  · rfl

/-- Unlinking a connector rewires pointers and counters only: the access
levels seen through resolution are untouched at every address. -/
theorem unlink_connector_map_access (s0 : ScStorage) (addr : ScAddr)
    (el : ScElement) (x : ScAddr) :
    (getLiveEl (_sc_element_free_unlink_connector s0 addr el).1 x).map
        ScElement.access_levels =
      (getLiveEl s0 x).map ScElement.access_levels := by
  unfold _sc_element_free_unlink_connector
  dsimp only
  refine Eq.trans (mapacc_guard_write _ _ _ ?_ x) ?_
  · intro el2
    dsimp only
    split <;> (try split) <;> (try split) <;> rfl
  refine Eq.trans (mapacc_guard_write2 _ _ _ ?_ x) ?_
  · intro el2
    rfl
  refine Eq.trans (mapacc_guard_write2 _ _ _ ?_ x) ?_
  · intro el2
    rfl
  refine Eq.trans (mapacc_guard_write _ _ _ ?_ x) ?_
  · intro el2
    dsimp only
    split <;> (try split) <;> (try split) <;> rfl
  refine Eq.trans (mapacc_guard_write2 _ _ _ ?_ x) ?_
  · intro el2
    rfl
  refine Eq.trans (mapacc_guard_write2 _ _ _ ?_ x) ?_
  · intro el2
    rfl
  rfl

/-- A collected address that no longer resolves, or whose element is already
marked REQUEST_DELETION, is skipped by the removal phase. -/
theorem remove_one_skip (s : ScStorage) (a : ScAddr)
    (h : (sc_storage_get_element_by_addr s a).1 ≠ ScResult.ok ∨
      (slotAt s a).access_levels &&& SC_ACCESS_LVL_REQUEST_DELETION =
        SC_ACCESS_LVL_REQUEST_DELETION) :
    _sc_element_free_remove_one s a = (s, [], false) := by
  unfold _sc_element_free_remove_one
  rw [if_pos h]

/-- Removing one live unmarked element frees it: afterwards the address is
dead and every other address resolves with the access levels it had
before. -/
theorem remove_one_spec (s : ScStorage) (a : ScAddr) (el : ScElement)
    (hlive : getLiveEl s a = some el)
    (hnm : el.access_levels &&& SC_ACCESS_LVL_REQUEST_DELETION ≠
      SC_ACCESS_LVL_REQUEST_DELETION) :
    ∃ s1 evs, _sc_element_free_remove_one s a = (s1, evs, true) ∧
      getLiveEl s1 a = none ∧
      (∀ x, x ≠ a → (getLiveEl s1 x).map ScElement.access_levels =
        (getLiveEl s x).map ScElement.access_levels) := by
  have hok := getLiveEl_some_isOk hlive
  have hslot := slotAt_of_live hlive
  have hseg0 : a.seg ≠ 0 :=
    (sc_addr_guard_rejects_elim (getLiveEl_eq_some_elim hlive).1).1
  have hex : el.access_levels &&& SC_ACCESS_LVL_ELEMENT_EXIST =
      SC_ACCESS_LVL_ELEMENT_EXIST :=
    (getLiveEl_eq_some_elim hlive).2.choose_spec.2.2
  have hcond : ¬((sc_storage_get_element_by_addr s a).1 ≠ ScResult.ok ∨
      (slotAt s a).access_levels &&& SC_ACCESS_LVL_REQUEST_DELETION =
        SC_ACCESS_LVL_REQUEST_DELETION) := by
    rw [hslot]
    exact fun h => h.elim (fun h2 => h2 hok) hnm
  have h0a : getLiveEl (updEl s a (fun el2 =>
      { el2 with access_levels :=
          el2.access_levels ||| SC_ACCESS_LVL_REQUEST_DELETION })) a =
      some { el with access_levels :=
        el.access_levels ||| SC_ACCESS_LVL_REQUEST_DELETION } :=
    getLiveEl_updEl_self_exist s a _ el hlive
      (or_and_mask el.access_levels SC_ACCESS_LVL_REQUEST_DELETION
        SC_ACCESS_LVL_ELEMENT_EXIST hex)
  have h0slot := slotAt_of_live h0a
  have h0x : ∀ x, x ≠ a → getLiveEl (updEl s a (fun el2 =>
      { el2 with access_levels :=
          el2.access_levels ||| SC_ACCESS_LVL_REQUEST_DELETION })) x =
      getLiveEl s x :=
    fun x hx => getLiveEl_updEl_ne s a _ hseg0 x (Or.inl hx)
  unfold _sc_element_free_remove_one
  rw [if_neg hcond]
  dsimp only
  rw [h0slot]
  dsimp only
  by_cases hlink : el.type &&& sc_type_link ≠ 0
  · rw [if_pos hlink]
    rcases hfe : sc_storage_free_element (updEl s a (fun el2 =>
        { el2 with access_levels :=
            el2.access_levels ||| SC_ACCESS_LVL_REQUEST_DELETION })) a
      with ⟨sf, rf⟩
    rcases free_element_spec _ a sf rf (getLiveEl_some_isOk h0a) hfe with
      ⟨hfo, hfd, _⟩
    dsimp only
    refine ⟨sf, _, rfl, hfd, ?_⟩
    intro x hx
    rw [hfo x hx, h0x x hx]
  · rw [if_neg hlink]
    by_cases harc : el.type &&& sc_type_arc_mask ≠ 0
    · rw [if_pos harc]
      rcases hu : _sc_element_free_unlink_connector (updEl s a (fun el2 =>
          { el2 with access_levels :=
              el2.access_levels ||| SC_ACCESS_LVL_REQUEST_DELETION })) a
          { el with access_levels :=
            el.access_levels ||| SC_ACCESS_LVL_REQUEST_DELETION }
        with ⟨s6, evs⟩
      have hml : ∀ x, (getLiveEl s6 x).map ScElement.access_levels =
          (getLiveEl (updEl s a (fun el2 =>
            { el2 with access_levels :=
              el2.access_levels ||| SC_ACCESS_LVL_REQUEST_DELETION })) x).map
            ScElement.access_levels := by
        intro x
        have h2 := unlink_connector_map_access (updEl s a (fun el2 =>
          { el2 with access_levels :=
            el2.access_levels ||| SC_ACCESS_LVL_REQUEST_DELETION })) a
          { el with access_levels :=
            el.access_levels ||| SC_ACCESS_LVL_REQUEST_DELETION } x
        rw [hu] at h2
        exact h2
      dsimp only
      have hacc6 := hml a
      rw [h0a] at hacc6
      cases hel6 : getLiveEl s6 a with
      | none =>
        rw [hel6] at hacc6
        exact absurd hacc6 (by simp)
      | some el6 =>
        have hok6 := getLiveEl_some_isOk hel6
        rcases hfe : sc_storage_free_element s6 a with ⟨sf, rf⟩
        rcases free_element_spec s6 a sf rf hok6 hfe with ⟨hfo, hfd, _⟩
        dsimp only
        refine ⟨sf, _, rfl, hfd, ?_⟩
        intro x hx
        rw [hfo x hx]
        exact (hml x).trans
          (congrArg (Option.map ScElement.access_levels) (h0x x hx))
    · rw [if_neg harc]
      rcases hfe : sc_storage_free_element (updEl s a (fun el2 =>
          { el2 with access_levels :=
              el2.access_levels ||| SC_ACCESS_LVL_REQUEST_DELETION })) a
        with ⟨sf, rf⟩
      rcases free_element_spec _ a sf rf (getLiveEl_some_isOk h0a) hfe with
        ⟨hfo, hfd, _⟩
      dsimp only
      refine ⟨sf, _, rfl, hfd, ?_⟩
      intro x hx
      rw [hfo x hx, h0x x hx]

/-- A live element not yet marked for deletion: exactly the elements the
removal phase actually frees. -/
def liveUnmarked (s : ScStorage) (x : ScAddr) : Prop :=
  ∃ el, getLiveEl s x = some el ∧
    el.access_levels &&& SC_ACCESS_LVL_REQUEST_DELETION ≠
      SC_ACCESS_LVL_REQUEST_DELETION

/-- A dead address never resolves with OK. -/
theorem not_ok_of_dead (s : ScStorage) (a : ScAddr)
    (h : getLiveEl s a = none) :
    (sc_storage_get_element_by_addr s a).1 ≠ ScResult.ok := by
  intro hok
  rcases isOk_getLiveEl s a hok with ⟨el, hel⟩
  rw [h] at hel
  exact Option.noConfusion hel

/-- Equal access levels through resolution transfer liveUnmarked. -/
theorem liveUnmarked_of_map_access {s1 s2 : ScStorage} {x : ScAddr}
    (h : (getLiveEl s1 x).map ScElement.access_levels =
      (getLiveEl s2 x).map ScElement.access_levels) :
    liveUnmarked s1 x ↔ liveUnmarked s2 x := by
  unfold liveUnmarked
  cases h1 : getLiveEl s1 x <;> cases h2 : getLiveEl s2 x <;>
    rw [h1, h2] at h <;> simp_all

/-- Equal access levels through resolution transfer deadness. -/
theorem dead_iff_of_map_access {s1 s2 : ScStorage} {x : ScAddr}
    (h : (getLiveEl s1 x).map ScElement.access_levels =
      (getLiveEl s2 x).map ScElement.access_levels) :
    getLiveEl s1 x = none ↔ getLiveEl s2 x = none := by
  cases h1 : getLiveEl s1 x <;> cases h2 : getLiveEl s2 x <;>
    rw [h1, h2] at h <;> simp_all

/-- The removal phase frees exactly the queued elements that are live and
unmarked at its start, each at most once, and leaves the access levels of
every surviving element as they were. -/
theorem remove_loop_spec (queue : List ScAddr) : ∀ s : ScStorage,
    ∃ s2 evs freed, _sc_element_free_remove_loop s queue = (s2, evs, freed) ∧
      (∀ x, getLiveEl s2 x = none ↔ (getLiveEl s x = none ∨ x ∈ freed)) ∧
      (∀ x, x ∈ freed ↔ (x ∈ queue ∧ liveUnmarked s x)) ∧
      freed.Nodup ∧
      (∀ x, x ∉ freed → (getLiveEl s2 x).map ScElement.access_levels =
        (getLiveEl s x).map ScElement.access_levels) := by
  induction queue with
  | nil =>
    intro s
    refine ⟨s, [], [], rfl, ?_, ?_, List.nodup_nil, fun x _ => rfl⟩
    · intro x
      simp
    · intro x
      simp
  | cons a rest ih =>
    intro s
    by_cases hlu : liveUnmarked s a
    · rcases hlu with ⟨el, hlive, hnmel⟩
      obtain ⟨s1, evs1, heq1, hdead1, hmap1⟩ := remove_one_spec s a el hlive hnmel
      obtain ⟨s2, evs2, freed2, heq2, hdead2, hfreed2, hnd2, hmap2⟩ := ih s1
      have ha_notin2 : a ∉ freed2 := by
        intro hmem
        rcases (hfreed2 a).1 hmem with ⟨_, el2, hel2, _⟩
        rw [hdead1] at hel2
        exact Option.noConfusion hel2
      have hloop : _sc_element_free_remove_loop s (a :: rest) =
          (s2, evs1 ++ evs2, a :: freed2) := by
        unfold _sc_element_free_remove_loop
        rw [heq1]
        dsimp only
        rw [heq2]
        rfl
      refine ⟨s2, evs1 ++ evs2, a :: freed2, hloop, ?_, ?_, ?_, ?_⟩
      · intro x
        by_cases hx : x = a
        · subst hx
          constructor
          · intro _
            exact Or.inr (List.mem_cons_self x freed2)
          · intro _
            exact (hdead2 x).2 (Or.inl hdead1)
        · rw [hdead2 x, dead_iff_of_map_access (hmap1 x hx)]
          constructor
          · rintro (h | h)
            · exact Or.inl h
            · exact Or.inr (List.mem_cons_of_mem a h)
          · rintro (h | h)
            · exact Or.inl h
            · rcases List.mem_cons.1 h with h2 | h2
              · exact absurd h2 hx
              · exact Or.inr h2
      · intro x
        by_cases hx : x = a
        · subst hx
          constructor
          · intro _
            exact ⟨List.mem_cons_self x rest, el, hlive, hnmel⟩
          · intro _
            exact List.mem_cons_self x freed2
        · constructor
          · intro hmem
            rcases List.mem_cons.1 hmem with h2 | h2
            · exact absurd h2 hx
            · rcases (hfreed2 x).1 h2 with ⟨hr, hlux⟩
              exact ⟨List.mem_cons_of_mem a hr,
                (liveUnmarked_of_map_access (hmap1 x hx)).1 hlux⟩
          · rintro ⟨hmem, hlux⟩
            rcases List.mem_cons.1 hmem with h2 | h2
            · exact absurd h2 hx
            · exact List.mem_cons_of_mem a ((hfreed2 x).2
                ⟨h2, (liveUnmarked_of_map_access (hmap1 x hx)).2 hlux⟩)
      · exact List.nodup_cons.2 ⟨ha_notin2, hnd2⟩
      · intro x hxf
        have hxa : x ≠ a := fun h => hxf (h ▸ List.mem_cons_self a freed2)
        have hxf2 : x ∉ freed2 := fun h => hxf (List.mem_cons_of_mem a h)
        exact (hmap2 x hxf2).trans (hmap1 x hxa)
    · have hskip : (sc_storage_get_element_by_addr s a).1 ≠ ScResult.ok ∨
          (slotAt s a).access_levels &&& SC_ACCESS_LVL_REQUEST_DELETION =
            SC_ACCESS_LVL_REQUEST_DELETION := by
        cases hel : getLiveEl s a with
        | none => exact Or.inl (not_ok_of_dead s a hel)
        | some el =>
          by_cases hm : el.access_levels &&& SC_ACCESS_LVL_REQUEST_DELETION =
              SC_ACCESS_LVL_REQUEST_DELETION
          · rw [slotAt_of_live hel]
            exact Or.inr hm
          · exact absurd ⟨el, hel, hm⟩ hlu
      have heq1 := remove_one_skip s a hskip
      obtain ⟨s2, evs2, freed2, heq2, hdead2, hfreed2, hnd2, hmap2⟩ := ih s
      have hloop : _sc_element_free_remove_loop s (a :: rest) =
          (s2, evs2, freed2) := by
        unfold _sc_element_free_remove_loop
        rw [heq1]
        dsimp only
        rw [heq2]
        rfl
      refine ⟨s2, evs2, freed2, hloop, hdead2, ?_, hnd2, hmap2⟩
      intro x
      rw [hfreed2 x]
      constructor
      · rintro ⟨hr, hlux⟩
        exact ⟨List.mem_cons_of_mem a hr, hlux⟩
      · rintro ⟨hmem, hlux⟩
        rcases List.mem_cons.1 hmem with h2 | h2
        · exact absurd (h2 ▸ hlux) hlu
        · exact ⟨h2, hlux⟩

/-- The cursor advance of a collection chain walk: the next_out_arc or
next_in_arc field of the slot behind the cursor. -/
def chainNext (s : ScStorage) (use_out : Bool) (cur : ScAddr) : ScAddr :=
  if use_out then (slotAt s cur).arc.next_out_arc
  else (slotAt s cur).arc.next_in_arc

/-- The address sequence a chain walk visits from a head, independent of the
visited cache (the walk always advances by the same slot field). -/
def chainSeq (s : ScStorage) (use_out : Bool) : Nat → ScAddr → List ScAddr
  | 0, _ => []
  | fuel + 1, cur =>
    if cur = SC_ADDR_EMPTY then []
    else cur :: chainSeq s use_out fuel (chainNext s use_out cur)

/-- Whether the chain from a head reaches the empty address within the given
number of steps. -/
def chainEnds (s : ScStorage) (use_out : Bool) : Nat → ScAddr → Bool
  | 0, cur => decide (cur = SC_ADDR_EMPTY)
  | fuel + 1, cur =>
    decide (cur = SC_ADDR_EMPTY) ||
      chainEnds s use_out fuel (chainNext s use_out cur)

/-- The connectors the collection phase reads off one element: its out-chain
followed by its in-chain. -/
def incidentChains (s : ScStorage) (fuelC : Nat) (el : ScElement) :
    List ScAddr :=
  chainSeq s true fuelC el.first_out_arc ++
    chainSeq s false fuelC el.first_in_arc

/-- The members of a list not yet in the cache, in order, each taken once. -/
def dedupNew (cache : List ScAddr) : List ScAddr → List ScAddr
  | [] => []
  | y :: ys =>
    if y ∈ cache then dedupNew cache ys
    else y :: dedupNew (cache ++ [y]) ys

/-- Membership in dedupNew. -/
theorem mem_dedupNew (l : List ScAddr) : ∀ cache y,
    y ∈ dedupNew cache l ↔ (y ∈ l ∧ y ∉ cache) := by
  induction l with
  | nil =>
    intro cache y
    simp [dedupNew]
  | cons z zs ih =>
    intro cache y
    unfold dedupNew
    by_cases hz : z ∈ cache
    · rw [if_pos hz, ih cache y]
      constructor
      · rintro ⟨h1, h2⟩
        exact ⟨List.mem_cons_of_mem z h1, h2⟩
      · rintro ⟨h1, h2⟩
        rcases List.mem_cons.1 h1 with h3 | h3
        · exact absurd (h3 ▸ hz) h2
        · exact ⟨h3, h2⟩
    · rw [if_neg hz]
      constructor
      · intro h
        rcases List.mem_cons.1 h with h3 | h3
        · exact ⟨h3 ▸ List.mem_cons_self z zs, h3 ▸ hz⟩
        · rcases (ih (cache ++ [z]) y).1 h3 with ⟨h4, h5⟩
          simp only [List.mem_append, List.mem_singleton] at h5
          exact ⟨List.mem_cons_of_mem z h4, fun hc => h5 (Or.inl hc)⟩
      · rintro ⟨h1, h2⟩
        by_cases hy : y = z
        · exact hy ▸ List.mem_cons_self y _
        · rcases List.mem_cons.1 h1 with h3 | h3
          · exact absurd h3 hy
          · refine List.mem_cons_of_mem z ((ih (cache ++ [z]) y).2 ⟨h3, ?_⟩)
            simp only [List.mem_append, List.mem_singleton]
            rintro (hc | hc)
            · exact h2 hc
            · exact hy hc

/-- dedupNew keeps a nodup cache nodup once appended. -/
theorem nodup_append_dedupNew (l : List ScAddr) : ∀ cache : List ScAddr,
    cache.Nodup → (cache ++ dedupNew cache l).Nodup := by
  induction l with
  | nil =>
    intro cache h
    simpa [dedupNew]
  | cons z zs ih =>
    intro cache h
    unfold dedupNew
    by_cases hz : z ∈ cache
    · rw [if_pos hz]
      exact ih cache h
    · rw [if_neg hz]
      have h2 : (cache ++ [z]).Nodup := by
        simp [List.nodup_append, h, hz]
      have h3 := ih (cache ++ [z]) h2
      rwa [List.append_assoc, List.singleton_append] at h3

/-- Chain sequence members are nonempty addresses. -/
theorem mem_chainSeq_ne_empty (s : ScStorage) (use_out : Bool) :
    ∀ fuel cur y, y ∈ chainSeq s use_out fuel cur → y ≠ SC_ADDR_EMPTY := by
  intro fuel
  induction fuel with
  | zero =>
    intro cur y hy
    simp [chainSeq] at hy
  | succ n ih =>
    intro cur y hy
    unfold chainSeq at hy
    split at hy
    · simp at hy
    · rename_i hcur
      rcases List.mem_cons.1 hy with h | h
      · exact h ▸ hcur
      · exact ih _ y h

/-- The collection chain walk appends, to all three accumulators, exactly
the not yet cached members of the visit sequence, provided the sequence
members are live and the chain terminates within the fuel. -/
theorem collect_chain_eq (s : ScStorage) (use_out : Bool) :
    ∀ fuel cur cache remq itq,
      (∀ y ∈ chainSeq s use_out fuel cur, (getLiveEl s y).isSome) →
      chainEnds s use_out fuel cur = true →
      _sc_element_free_collect_chain s use_out fuel cur (cache, remq, itq) =
        (cache ++ dedupNew cache (chainSeq s use_out fuel cur),
         remq ++ dedupNew cache (chainSeq s use_out fuel cur),
         itq ++ dedupNew cache (chainSeq s use_out fuel cur)) := by
  intro fuel
  induction fuel with
  | zero =>
    intro cur cache remq itq _ hend
    simp [chainSeq, dedupNew, _sc_element_free_collect_chain]
  | succ n ih =>
    intro cur cache remq itq hlive hend
    by_cases hcur : cur = SC_ADDR_EMPTY
    · simp only [_sc_element_free_collect_chain, chainSeq]
      rw [if_pos hcur, if_pos hcur]
      simp [dedupNew]
    · have hseq : chainSeq s use_out (n + 1) cur =
          cur :: chainSeq s use_out n (chainNext s use_out cur) := by
        simp only [chainSeq]
        rw [if_neg hcur]
      have hend2 : chainEnds s use_out n (chainNext s use_out cur) = true := by
        simp only [chainEnds, Bool.or_eq_true] at hend
        rcases hend with h | h
        · exact absurd (of_decide_eq_true h) hcur
        · exact h
      have hlive2 : ∀ y ∈ chainSeq s use_out n (chainNext s use_out cur),
          (getLiveEl s y).isSome := by
        intro y hy
        exact hlive y (by rw [hseq]; exact List.mem_cons_of_mem cur hy)
      have hlivecur : (getLiveEl s cur).isSome :=
        hlive cur (by rw [hseq]; exact List.mem_cons_self cur _)
      rcases Option.isSome_iff_exists.1 hlivecur with ⟨elc, helc⟩
      simp only [_sc_element_free_collect_chain]
      rw [if_neg hcur]
      by_cases hc : cur ∈ cache
      · rw [if_pos hc]
        rw [show (if use_out then (slotAt s cur).arc.next_out_arc
            else (slotAt s cur).arc.next_in_arc) = chainNext s use_out cur
          from rfl]
        rw [ih (chainNext s use_out cur) cache remq itq hlive2 hend2, hseq]
        simp only [dedupNew]
        rw [if_pos hc]
      · rw [if_neg hc, helc]
        dsimp only
        have hnext : (if use_out then elc.arc.next_out_arc
            else elc.arc.next_in_arc) = chainNext s use_out cur := by
          unfold chainNext
          rw [slotAt_of_live helc]
        rw [hnext, ih (chainNext s use_out cur) (cache ++ [cur])
          (remq ++ [cur]) (itq ++ [cur]) hlive2 hend2, hseq]
        simp only [dedupNew]
        rw [if_neg hc]
        simp [List.append_assoc]

/-- The closure the erase cascade collects: the root, and transitively every
connector reachable through the incidence chains of a reached live
element. -/
inductive ErasureReach (s : ScStorage) (fuelC : Nat) (root : ScAddr) :
    ScAddr → Prop where
  | root : ErasureReach s fuelC root root
  | step (a y : ScAddr) (el : ScElement) : ErasureReach s fuelC root a →
      getLiveEl s a = some el → y ∈ incidentChains s fuelC el →
      ErasureReach s fuelC root y

/-- The BFS of the collection phase returns the root followed by a cache
that is exactly closed under incidence chains: every member is live and
reached, and the chains of every reached live member stay inside it.  The
fuel bound only needs to dominate the queue length plus the number of live
elements outside the cache. -/
theorem collect_loop_spec (s : ScStorage) (fuelC : Nat) (root : ScAddr)
    (support : List ScAddr)
    (hsupp : ∀ y : ScAddr, (getLiveEl s y).isSome → y ∈ support)
    (hchains : ∀ a el, getLiveEl s a = some el →
      chainEnds s true fuelC el.first_out_arc = true ∧
      chainEnds s false fuelC el.first_in_arc = true ∧
      (∀ y ∈ incidentChains s fuelC el, (getLiveEl s y).isSome)) :
    ∀ fuel cache itq,
      cache.Nodup →
      (∀ y ∈ cache, (getLiveEl s y).isSome) →
      (∀ y ∈ cache, ErasureReach s fuelC root y) →
      (∀ y ∈ itq, y ∈ root :: cache) →
      (∀ b, b ∈ root :: cache → b ∉ itq → ∀ el, getLiveEl s b = some el →
        ∀ y ∈ incidentChains s fuelC el, y ∈ cache) →
      itq.length + support.length ≤ fuel + cache.length →
      ∃ cacheF,
        _sc_element_free_collect_loop s fuelC fuel
            (cache, root :: cache, itq) = root :: cacheF ∧
        cacheF.Nodup ∧
        (∀ y ∈ cacheF, (getLiveEl s y).isSome) ∧
        (∀ y ∈ cacheF, ErasureReach s fuelC root y) ∧
        (∀ b, b ∈ root :: cacheF → ∀ el, getLiveEl s b = some el →
          ∀ y ∈ incidentChains s fuelC el, y ∈ cacheF) := by
  intro fuel
  induction fuel with
  | zero =>
    intro cache itq hnd hlivec hreach hitq hproc hbound
    have hsub : cache ⊆ support := fun y hy => hsupp y (hlivec y hy)
    have hlen : cache.length ≤ support.length := (hnd.subperm hsub).length_le
    have hitq0 : itq = [] := by
      cases itq with
      | nil => rfl
      | cons a t =>
        exfalso
        simp only [List.length_cons] at hbound
        omega
    subst hitq0
    refine ⟨cache, ?_, hnd, hlivec, hreach, ?_⟩
    · simp [_sc_element_free_collect_loop]
    · intro b hb el hel y hy
      exact hproc b hb (by simp) el hel y hy
  | succ n ih =>
    intro cache itq hnd hlivec hreach hitq hproc hbound
    cases itq with
    | nil =>
      refine ⟨cache, ?_, hnd, hlivec, hreach, ?_⟩
      · simp [_sc_element_free_collect_loop]
      · intro b hb el hel y hy
        exact hproc b hb (by simp) el hel y hy
    | cons cur rest =>
      cases helcur : getLiveEl s cur with
      | none =>
        have hstep : _sc_element_free_collect_loop s fuelC (n + 1)
            (cache, root :: cache, cur :: rest) =
            _sc_element_free_collect_loop s fuelC n
              (cache, root :: cache, rest) := by
          simp only [_sc_element_free_collect_loop]
          rw [helcur]
        obtain ⟨cacheF, h1, h2, h3, h4, h5⟩ := ih cache rest hnd hlivec hreach
          (fun y hy => hitq y (List.mem_cons_of_mem cur hy))
          (fun b hb hbn el hel => by
            refine hproc b hb ?_ el hel
            intro hmem
            rcases List.mem_cons.1 hmem with h | h
            · rw [h, helcur] at hel
              exact Option.noConfusion hel
            · exact hbn h)
          (by simp only [List.length_cons] at hbound; omega)
        exact ⟨cacheF, by rw [hstep]; exact h1, h2, h3, h4, h5⟩
      | some el =>
        have hreachcur : ErasureReach s fuelC root cur := by
          rcases List.mem_cons.1 (hitq cur (List.mem_cons_self cur rest))
            with h | h
          · exact h ▸ ErasureReach.root
          · exact hreach cur h
        obtain ⟨hend1, hend2, hlivechain⟩ := hchains cur el helcur
        have hlive1 : ∀ y ∈ chainSeq s true fuelC el.first_out_arc,
            (getLiveEl s y).isSome :=
          fun y hy => hlivechain y (List.mem_append_left _ hy)
        have hlive2 : ∀ y ∈ chainSeq s false fuelC el.first_in_arc,
            (getLiveEl s y).isSome :=
          fun y hy => hlivechain y (List.mem_append_right _ hy)
        have hst1 := collect_chain_eq s true fuelC el.first_out_arc cache
          (root :: cache) rest hlive1 hend1
        have hst2 := collect_chain_eq s false fuelC el.first_in_arc
          (cache ++ dedupNew cache (chainSeq s true fuelC el.first_out_arc))
          ((root :: cache) ++
            dedupNew cache (chainSeq s true fuelC el.first_out_arc))
          (rest ++ dedupNew cache (chainSeq s true fuelC el.first_out_arc))
          hlive2 hend2
        set d1 := dedupNew cache (chainSeq s true fuelC el.first_out_arc)
          with hd1
        set d2 := dedupNew (cache ++ d1)
          (chainSeq s false fuelC el.first_in_arc) with hd2
        have hstep : _sc_element_free_collect_loop s fuelC (n + 1)
            (cache, root :: cache, cur :: rest) =
            _sc_element_free_collect_loop s fuelC n
              ((cache ++ d1) ++ d2, ((root :: cache) ++ d1) ++ d2,
                (rest ++ d1) ++ d2) := by
          simp only [_sc_element_free_collect_loop]
          rw [helcur]
          dsimp only
          rw [hst1, hst2]
        have hmd1 : ∀ y, y ∈ d1 →
            y ∈ chainSeq s true fuelC el.first_out_arc ∧ y ∉ cache :=
          fun y hy => (mem_dedupNew _ cache y).1 hy
        have hmd2 : ∀ y, y ∈ d2 →
            y ∈ chainSeq s false fuelC el.first_in_arc ∧ y ∉ cache ++ d1 :=
          fun y hy => (mem_dedupNew _ (cache ++ d1) y).1 hy
        have hnd2 : ((cache ++ d1) ++ d2).Nodup := by
          have ha := nodup_append_dedupNew
            (chainSeq s true fuelC el.first_out_arc) cache hnd
          exact nodup_append_dedupNew
            (chainSeq s false fuelC el.first_in_arc) (cache ++ d1) ha
        have hlivec2 : ∀ y ∈ (cache ++ d1) ++ d2, (getLiveEl s y).isSome := by
          intro y hy
          rcases List.mem_append.1 hy with hy2 | hy2
          · rcases List.mem_append.1 hy2 with hy3 | hy3
            · exact hlivec y hy3
            · exact hlive1 y (hmd1 y hy3).1
          · exact hlive2 y (hmd2 y hy2).1
        have hreach2 : ∀ y ∈ (cache ++ d1) ++ d2,
            ErasureReach s fuelC root y := by
          intro y hy
          rcases List.mem_append.1 hy with hy2 | hy2
          · rcases List.mem_append.1 hy2 with hy3 | hy3
            · exact hreach y hy3
            · exact ErasureReach.step cur y el hreachcur helcur
                (List.mem_append_left _ (hmd1 y hy3).1)
          · exact ErasureReach.step cur y el hreachcur helcur
              (List.mem_append_right _ (hmd2 y hy2).1)
        have hitq2 : ∀ y ∈ (rest ++ d1) ++ d2,
            y ∈ root :: ((cache ++ d1) ++ d2) := by
          intro y hy
          rcases List.mem_append.1 hy with hy2 | hy2
          · rcases List.mem_append.1 hy2 with hy3 | hy3
            · rcases List.mem_cons.1 (hitq y (List.mem_cons_of_mem cur hy3))
                with h | h
              · exact h ▸ List.mem_cons_self y _
              · exact List.mem_cons_of_mem root
                  (List.mem_append_left _ (List.mem_append_left _ h))
            · exact List.mem_cons_of_mem root
                (List.mem_append_left _ (List.mem_append_right _ hy3))
          · exact List.mem_cons_of_mem root (List.mem_append_right _ hy2)
        have hproc2 : ∀ b, b ∈ root :: ((cache ++ d1) ++ d2) →
            b ∉ (rest ++ d1) ++ d2 → ∀ el2, getLiveEl s b = some el2 →
            ∀ y ∈ incidentChains s fuelC el2, y ∈ (cache ++ d1) ++ d2 := by
          intro b hb hbn el2 hel2 y hy
          by_cases hbc : b = cur
          · subst hbc
            rw [helcur] at hel2
            cases hel2
            rcases List.mem_append.1 hy with hy2 | hy2
            · by_cases hyc : y ∈ cache
              · exact List.mem_append_left _ (List.mem_append_left _ hyc)
              · exact List.mem_append_left _ (List.mem_append_right _
                  ((mem_dedupNew _ cache y).2 ⟨hy2, hyc⟩))
            · by_cases hyc : y ∈ cache ++ d1
              · exact List.mem_append_left _ hyc
              · exact List.mem_append_right _
                  ((mem_dedupNew _ (cache ++ d1) y).2 ⟨hy2, hyc⟩)
          · have hbold : b ∈ root :: cache := by
              rcases List.mem_cons.1 hb with h | h
              · exact h ▸ List.mem_cons_self b _
              · rcases List.mem_append.1 h with h2 | h2
                · rcases List.mem_append.1 h2 with h3 | h3
                  · exact List.mem_cons_of_mem root h3
                  · exact absurd (List.mem_append_left _
                      (List.mem_append_right _ h3)) hbn
                · exact absurd (List.mem_append_right _ h2) hbn
            have hbnold : b ∉ cur :: rest := by
              intro hmem
              rcases List.mem_cons.1 hmem with h | h
              · exact hbc h
              · exact hbn (List.mem_append_left _ (List.mem_append_left _ h))
            exact List.mem_append_left _ (List.mem_append_left _
              (hproc b hbold hbnold el2 hel2 y hy))
        have hbound2 : ((rest ++ d1) ++ d2).length + support.length ≤
            n + ((cache ++ d1) ++ d2).length := by
          simp only [List.length_append, List.length_cons] at hbound ⊢
          omega
        obtain ⟨cacheF, h1, h2, h3, h4, h5⟩ := ih ((cache ++ d1) ++ d2)
          ((rest ++ d1) ++ d2) hnd2 hlivec2 hreach2 hitq2 hproc2 hbound2
        have hremq : ((root :: cache) ++ d1) ++ d2 =
            root :: ((cache ++ d1) ++ d2) := by
          simp
        refine ⟨cacheF, ?_, h2, h3, h4, h5⟩
        rw [hstep, hremq]
        exact h1

/-- Claim C2: for an erase on a live root, in a storage whose incidence
chains terminate, consist of live connectors, and whose live elements are
none of them pre-marked for deletion, the set of elements whose EXIST bit
transitions off is exactly the root together with the transitive closure of
the connectors in the incidence chains of collected elements, and no element
is freed twice (the removal phase skips every address that no longer
resolves or is already marked REQUEST_DELETION). -/
theorem C2_erase_cascade_is_closure (s : ScStorage) (root : ScAddr)
    (fuelC : Nat) (support : List ScAddr) (el0 : ScElement)
    (hroot : getLiveEl s root = some el0)
    (hsupp : ∀ y : ScAddr, (getLiveEl s y).isSome → y ∈ support)
    (hchains : ∀ a el, getLiveEl s a = some el →
      chainEnds s true fuelC el.first_out_arc = true ∧
      chainEnds s false fuelC el.first_in_arc = true ∧
      (∀ y ∈ incidentChains s fuelC el, (getLiveEl s y).isSome))
    (hnomark : ∀ a el, getLiveEl s a = some el →
      el.access_levels &&& SC_ACCESS_LVL_REQUEST_DELETION ≠
        SC_ACCESS_LVL_REQUEST_DELETION) :
    ∃ s2 evs freed,
      sc_storage_element_free s root (support.length + 1) fuelC =
        (s2, ScResult.ok, evs, freed) ∧
      (∀ x, getLiveEl s2 x = none ↔
        (getLiveEl s x = none ∨ ErasureReach s fuelC root x)) ∧
      freed.Nodup := by
  have hok := getLiveEl_some_isOk hroot
  obtain ⟨cacheF, hloop, hndF, hliveF, hreachF, hclosedF⟩ :=
    collect_loop_spec s fuelC root support hsupp hchains
      (support.length + 1) [] [root] List.nodup_nil
      (fun y hy => absurd hy (List.not_mem_nil y))
      (fun y hy => absurd hy (List.not_mem_nil y))
      (fun y hy => hy)
      (fun b hb hbn el hel y hy => by
        rcases List.mem_cons.1 hb with h | h
        · exact absurd (List.mem_cons.2 (Or.inl h)) hbn
        · exact absurd h (List.not_mem_nil b))
      (by simp; omega)
  obtain ⟨s2, evs, freed, hrem, hdead, hfreed, hnd, hmap⟩ :=
    remove_loop_spec (root :: cacheF) s
  have hmemReach : ∀ x, x ∈ root :: cacheF ↔ ErasureReach s fuelC root x := by
    intro x
    constructor
    · intro hx
      rcases List.mem_cons.1 hx with h | h
      · exact h ▸ ErasureReach.root
      · exact hreachF x h
    · intro hx
      induction hx with
      | root => exact List.mem_cons_self root cacheF
      | step a y el2 ha hel hy iha =>
        exact List.mem_cons_of_mem root (hclosedF a iha el2 hel y hy)
  have hliveMem : ∀ x, x ∈ root :: cacheF → liveUnmarked s x := by
    intro x hx
    rcases List.mem_cons.1 hx with h | h
    · subst h
      exact ⟨el0, hroot, hnomark x el0 hroot⟩
    · rcases Option.isSome_iff_exists.1 (hliveF x h) with ⟨elx, helx⟩
      exact ⟨elx, helx, hnomark x elx helx⟩
  have hfreedReach : ∀ x, x ∈ freed ↔ ErasureReach s fuelC root x := by
    intro x
    rw [hfreed x]
    constructor
    · rintro ⟨hm, _⟩
      exact (hmemReach x).1 hm
    · intro hr
      exact ⟨(hmemReach x).2 hr, hliveMem x ((hmemReach x).2 hr)⟩
  have heqfree : sc_storage_element_free s root (support.length + 1) fuelC =
      (s2, ScResult.ok, evs, freed) := by
    unfold sc_storage_element_free
    rw [if_neg (fun h => h hok)]
    dsimp only
    rw [hloop, hrem]
  refine ⟨s2, evs, freed, heqfree, ?_, hnd⟩
  intro x
  rw [hdead x, hfreedReach x]

/-- The live addresses of stor_iter are exactly the three slots. -/
theorem stor_iter_live_cases (y : ScAddr)
    (hy : (getLiveEl stor_iter y).isSome) :
    y = (⟨1, 1⟩ : ScAddr) ∨ y = (⟨1, 2⟩ : ScAddr) ∨ y = (⟨1, 3⟩ : ScAddr) := by
  rcases Option.isSome_iff_exists.1 hy with ⟨el, hel⟩
  rcases getLiveEl_eq_some_elim hel with ⟨hg, seg, hseg, helq, hex⟩
  rcases sc_addr_guard_rejects_elim hg with ⟨h1, h2, h3, h4⟩
  have hmax : stor_iter.max_segments_count = 1 := rfl
  have hseg1 : y.seg = 1 := by omega
  rw [hseg1] at hseg
  rw [show stor_iter.segments (1 - 1) = some stor_iter_seg from rfl] at hseg
  have hsegeq : seg = stor_iter_seg := (Option.some.inj hseg).symm
  subst hsegeq
  by_cases ho1 : y.offset = 1
  · left
    cases y with
    | mk s o =>
      dsimp only at hseg1 ho1
      rw [hseg1, ho1]
  · by_cases ho2 : y.offset = 2
    · right
      left
      cases y with
      | mk s o =>
        dsimp only at hseg1 ho2
        rw [hseg1, ho2]
    · by_cases ho3 : y.offset = 3
      · right
        right
        cases y with
        | mk s o =>
          dsimp only at hseg1 ho3
          rw [hseg1, ho3]
      · exfalso
        unfold stor_iter_seg at helq
        dsimp only at helq
        rw [if_neg ho1, if_neg ho2, if_neg ho3] at helq
        rw [← helq] at hex
        exact absurd hex (by decide)

/-- Every live address of stor_iter is in its three-slot support list. -/
theorem stor_iter_support (y : ScAddr) (hy : (getLiveEl stor_iter y).isSome) :
    y ∈ ([⟨1, 1⟩, ⟨1, 2⟩, ⟨1, 3⟩] : List ScAddr) := by
  rcases stor_iter_live_cases y hy with h | h | h <;> subst h <;> decide

/-- The incidence chains of every live element of stor_iter terminate within
three steps and consist of live connectors. -/
theorem stor_iter_chains : ∀ a el, getLiveEl stor_iter a = some el →
    chainEnds stor_iter true 3 el.first_out_arc = true ∧
    chainEnds stor_iter false 3 el.first_in_arc = true ∧
    (∀ y ∈ incidentChains stor_iter 3 el, (getLiveEl stor_iter y).isSome) := by
  intro a el hel
  have hy : (getLiveEl stor_iter a).isSome := by rw [hel]; rfl
  rcases stor_iter_live_cases a hy with h | h | h <;> subst h
  · obtain ⟨e1, he1, he2⟩ : ∃ e1, getLiveEl stor_iter ⟨1, 1⟩ = some e1 ∧
        (chainEnds stor_iter true 3 e1.first_out_arc = true ∧
         chainEnds stor_iter false 3 e1.first_in_arc = true ∧
         ∀ y ∈ incidentChains stor_iter 3 e1, (getLiveEl stor_iter y).isSome) :=
      ⟨_, rfl, by decide⟩
    rw [hel] at he1
    cases Option.some.inj he1
    exact he2
  · obtain ⟨e1, he1, he2⟩ : ∃ e1, getLiveEl stor_iter ⟨1, 2⟩ = some e1 ∧
        (chainEnds stor_iter true 3 e1.first_out_arc = true ∧
         chainEnds stor_iter false 3 e1.first_in_arc = true ∧
         ∀ y ∈ incidentChains stor_iter 3 e1, (getLiveEl stor_iter y).isSome) :=
      ⟨_, rfl, by decide⟩
    rw [hel] at he1
    cases Option.some.inj he1
    exact he2
  · obtain ⟨e1, he1, he2⟩ : ∃ e1, getLiveEl stor_iter ⟨1, 3⟩ = some e1 ∧
        (chainEnds stor_iter true 3 e1.first_out_arc = true ∧
         chainEnds stor_iter false 3 e1.first_in_arc = true ∧
         ∀ y ∈ incidentChains stor_iter 3 e1, (getLiveEl stor_iter y).isSome) :=
      ⟨_, rfl, by decide⟩
    rw [hel] at he1
    cases Option.some.inj he1
    exact he2

/-- No live element of stor_iter carries the REQUEST_DELETION mark. -/
theorem stor_iter_nomark : ∀ a el, getLiveEl stor_iter a = some el →
    el.access_levels &&& SC_ACCESS_LVL_REQUEST_DELETION ≠
      SC_ACCESS_LVL_REQUEST_DELETION := by
  intro a el hel
  have hy : (getLiveEl stor_iter a).isSome := by rw [hel]; rfl
  rcases stor_iter_live_cases a hy with h | h | h <;> subst h
  · obtain ⟨e1, he1, he2⟩ : ∃ e1, getLiveEl stor_iter ⟨1, 1⟩ = some e1 ∧
        e1.access_levels &&& SC_ACCESS_LVL_REQUEST_DELETION ≠
          SC_ACCESS_LVL_REQUEST_DELETION :=
      ⟨_, rfl, by decide⟩
    rw [hel] at he1
    cases Option.some.inj he1
    exact he2
  · obtain ⟨e1, he1, he2⟩ : ∃ e1, getLiveEl stor_iter ⟨1, 2⟩ = some e1 ∧
        e1.access_levels &&& SC_ACCESS_LVL_REQUEST_DELETION ≠
          SC_ACCESS_LVL_REQUEST_DELETION :=
      ⟨_, rfl, by decide⟩
    rw [hel] at he1
    cases Option.some.inj he1
    exact he2
  · obtain ⟨e1, he1, he2⟩ : ∃ e1, getLiveEl stor_iter ⟨1, 3⟩ = some e1 ∧
        e1.access_levels &&& SC_ACCESS_LVL_REQUEST_DELETION ≠
          SC_ACCESS_LVL_REQUEST_DELETION :=
      ⟨_, rfl, by decide⟩
    rw [hel] at he1
    cases Option.some.inj he1
    exact he2

/-- Witness for C2 on stor_iter: erasing the node at offset 1 turns the
EXIST bit off exactly on the closure of the root, and frees nothing
twice. -/
theorem C2_witness :
    ∃ s2 evs freed,
      sc_storage_element_free stor_iter ⟨1, 1⟩ 4 3 =
        (s2, ScResult.ok, evs, freed) ∧
      (∀ x, getLiveEl s2 x = none ↔
        (getLiveEl stor_iter x = none ∨ ErasureReach stor_iter 3 ⟨1, 1⟩ x)) ∧
      freed.Nodup :=
  C2_erase_cascade_is_closure stor_iter ⟨1, 1⟩ 3
    [⟨1, 1⟩, ⟨1, 2⟩, ⟨1, 3⟩] _ rfl stor_iter_support stor_iter_chains
    stor_iter_nomark

/-- Decrement undoes increment on 32-bit counters below the modulus. -/
theorem dec32_inc32 (n : Nat) (h : n < U32_MOD) : dec32 (inc32 n) = n := by
  unfold dec32 inc32 U32_MOD at *
  omega

/-- A type with all EDGE_COMMON bits set is a connector for the arc mask. -/
theorem arc_mask_of_edge (t : Nat)
    (h : t &&& sc_type_edge_common = sc_type_edge_common) :
    t &&& sc_type_arc_mask ≠ 0 := by
  intro hc
  have h4 := congrArg (fun n => Nat.testBit n 2) h
  have hc4 := congrArg (fun n => Nat.testBit n 2) hc
  simp only [Nat.testBit_and] at h4 hc4
  rw [show Nat.testBit sc_type_edge_common 2 = true from rfl] at h4
  rw [show Nat.testBit sc_type_arc_mask 2 = true from rfl] at hc4
  rw [show Nat.testBit (0 : Nat) 2 = false from rfl] at hc4
  simp at h4 hc4
  rw [h4] at hc4
  exact Bool.noConfusion hc4

/-- A type with all EDGE_COMMON bits set has nonzero overlap with them. -/
theorem edge_bit_ne_zero (t : Nat)
    (h : t &&& sc_type_edge_common = sc_type_edge_common) :
    t &&& sc_type_edge_common ≠ 0 := by
  rw [h]
  decide

/-- A collection chain walk from the empty address changes nothing. -/
theorem collect_chain_empty (s : ScStorage) (use_out : Bool) :
    ∀ fuel st, _sc_element_free_collect_chain s use_out fuel SC_ADDR_EMPTY st =
      st := by
  intro fuel st
  cases fuel with
  | zero =>
    rcases st with ⟨c, r, i⟩
    rfl
  | succ n =>
    rcases st with ⟨c, r, i⟩
    simp [_sc_element_free_collect_chain]

/-- The collection phase on a live root with no incident connectors collects
just the root. -/
theorem collect_loop_single (s : ScStorage) (fuelC : Nat) (root : ScAddr)
    (el : ScElement) (h : getLiveEl s root = some el)
    (hfo : el.first_out_arc = SC_ADDR_EMPTY)
    (hfi : el.first_in_arc = SC_ADDR_EMPTY) :
    _sc_element_free_collect_loop s fuelC 2 ([], [root], [root]) = [root] := by
  simp only [_sc_element_free_collect_loop]
  rw [h]
  dsimp only
  rw [hfo, hfi, collect_chain_empty, collect_chain_empty]

/-- Threading a fresh connector between distinct live endpoints whose list
heads are empty: the connector receives empty successor pointers, the begin
element gets the connector as out-head with its output counter bumped, the
end element symmetrically, and nothing else changes. -/
theorem make_incident_spec_ne (s : ScStorage) (arc bAddr eAddr : ScAddr)
    (elA el_b el_e : ScElement)
    (hA : getLiveEl s arc = some elA)
    (hb : getLiveEl s bAddr = some el_b)
    (he : getLiveEl s eAddr = some el_e)
    (hab : bAddr ≠ arc) (hae : eAddr ≠ arc) (hne : bAddr ≠ eAddr)
    (hfo : el_b.first_out_arc = SC_ADDR_EMPTY)
    (hfi : el_e.first_in_arc = SC_ADDR_EMPTY) :
    getLiveEl (_sc_storage_make_elements_incident_to_arc s arc bAddr eAddr)
        arc =
      some { elA with arc := { elA.arc with
        next_out_arc := SC_ADDR_EMPTY, next_in_arc := SC_ADDR_EMPTY } } ∧
    getLiveEl (_sc_storage_make_elements_incident_to_arc s arc bAddr eAddr)
        bAddr =
      some { el_b with
        first_out_arc := arc
        output_arcs_count := inc32 el_b.output_arcs_count } ∧
    getLiveEl (_sc_storage_make_elements_incident_to_arc s arc bAddr eAddr)
        eAddr =
      some { el_e with
        first_in_arc := arc
        input_arcs_count := inc32 el_e.input_arcs_count } ∧
    (∀ x, x ≠ arc → x ≠ bAddr → x ≠ eAddr →
      getLiveEl (_sc_storage_make_elements_incident_to_arc s arc bAddr eAddr)
        x = getLiveEl s x) := by
  have hsA := (sc_addr_guard_rejects_elim (getLiveEl_eq_some_elim hA).1).1
  have hsb := (sc_addr_guard_rejects_elim (getLiveEl_eq_some_elim hb).1).1
  have hse := (sc_addr_guard_rejects_elim (getLiveEl_eq_some_elim he).1).1
  have hexA := (getLiveEl_eq_some_elim hA).2.choose_spec.2.2
  have hexb := (getLiveEl_eq_some_elim hb).2.choose_spec.2.2
  have hexe := (getLiveEl_eq_some_elim he).2.choose_spec.2.2
  unfold _sc_storage_make_elements_incident_to_arc
  dsimp only
  rw [slotAt_of_live hb, slotAt_of_live he, hfo, hfi]
  rw [show (decide (SC_ADDR_EMPTY ≠ SC_ADDR_EMPTY) &&
    slotReached s SC_ADDR_EMPTY) = false from rfl]
  simp only [Bool.false_eq_true, if_false]
  set t1 := updEl s arc (fun el =>
    { el with arc := { el.arc with
        next_out_arc := SC_ADDR_EMPTY, next_in_arc := SC_ADDR_EMPTY } })
    with ht1
  have h1A : getLiveEl t1 arc = some { elA with arc := { elA.arc with
      next_out_arc := SC_ADDR_EMPTY, next_in_arc := SC_ADDR_EMPTY } } :=
    getLiveEl_updEl_self_exist s arc _ elA hA hexA
  have h1b : getLiveEl t1 bAddr = some el_b := by
    rw [ht1, getLiveEl_updEl_ne s arc _ hsA bAddr (Or.inl hab)]
    exact hb
  have h1e : getLiveEl t1 eAddr = some el_e := by
    rw [ht1, getLiveEl_updEl_ne s arc _ hsA eAddr (Or.inl hae)]
    exact he
  set t4 := updEl t1 bAddr (fun el => { el with first_out_arc := arc })
    with ht4
  have h4A : getLiveEl t4 arc = some { elA with arc := { elA.arc with
      next_out_arc := SC_ADDR_EMPTY, next_in_arc := SC_ADDR_EMPTY } } := by
    rw [ht4, getLiveEl_updEl_ne t1 bAddr _ hsb arc (Or.inl (Ne.symm hab))]
    exact h1A
  have h4b : getLiveEl t4 bAddr = some { el_b with first_out_arc := arc } :=
    getLiveEl_updEl_self_exist t1 bAddr _ el_b h1b hexb
  have h4e : getLiveEl t4 eAddr = some el_e := by
    rw [ht4, getLiveEl_updEl_ne t1 bAddr _ hsb eAddr (Or.inl (Ne.symm hne))]
    exact h1e
  set t5 := updEl t4 eAddr (fun el => { el with first_in_arc := arc })
    with ht5
  have h5A : getLiveEl t5 arc = some { elA with arc := { elA.arc with
      next_out_arc := SC_ADDR_EMPTY, next_in_arc := SC_ADDR_EMPTY } } := by
    rw [ht5, getLiveEl_updEl_ne t4 eAddr _ hse arc (Or.inl (Ne.symm hae))]
    exact h4A
  have h5b : getLiveEl t5 bAddr = some { el_b with first_out_arc := arc } := by
    rw [ht5, getLiveEl_updEl_ne t4 eAddr _ hse bAddr (Or.inl hne)]
    exact h4b
  have h5e : getLiveEl t5 eAddr = some { el_e with first_in_arc := arc } :=
    getLiveEl_updEl_self_exist t4 eAddr _ el_e h4e hexe
  set t6 := updEl t5 bAddr (fun el =>
    { el with output_arcs_count := inc32 el.output_arcs_count }) with ht6
  have h6A : getLiveEl t6 arc = some { elA with arc := { elA.arc with
      next_out_arc := SC_ADDR_EMPTY, next_in_arc := SC_ADDR_EMPTY } } := by
    rw [ht6, getLiveEl_updEl_ne t5 bAddr _ hsb arc (Or.inl (Ne.symm hab))]
    exact h5A
  have h6b : getLiveEl t6 bAddr = some { el_b with
      first_out_arc := arc
      output_arcs_count := inc32 el_b.output_arcs_count } :=
    getLiveEl_updEl_self_exist t5 bAddr _ _ h5b hexb
  have h6e : getLiveEl t6 eAddr = some { el_e with first_in_arc := arc } := by
    rw [ht6, getLiveEl_updEl_ne t5 bAddr _ hsb eAddr (Or.inl (Ne.symm hne))]
    exact h5e
  refine ⟨?_, ?_, ?_, ?_⟩
  · rw [getLiveEl_updEl_ne t6 eAddr _ hse arc (Or.inl (Ne.symm hae))]
    exact h6A
  · rw [getLiveEl_updEl_ne t6 eAddr _ hse bAddr (Or.inl hne)]
    exact h6b
  · exact getLiveEl_updEl_self_exist t6 eAddr _ _ h6e hexe
  · intro x hxA hxb hxe
    rw [getLiveEl_updEl_ne t6 eAddr _ hse x (Or.inl hxe), ht6,
      getLiveEl_updEl_ne t5 bAddr _ hsb x (Or.inl hxb), ht5,
      getLiveEl_updEl_ne t4 eAddr _ hse x (Or.inl hxe), ht4,
      getLiveEl_updEl_ne t1 bAddr _ hsb x (Or.inl hxb), ht1,
      getLiveEl_updEl_ne s arc _ hsA x (Or.inl hxA)]

/-- Threading a fresh self-loop connector on one live endpoint with empty
list heads: the endpoint becomes both list heads with both counters bumped
once, and nothing else changes. -/
theorem make_incident_spec_loop (s : ScStorage) (arc bAddr : ScAddr)
    (elA el_b : ScElement)
    (hA : getLiveEl s arc = some elA)
    (hb : getLiveEl s bAddr = some el_b)
    (hab : bAddr ≠ arc)
    (hfo : el_b.first_out_arc = SC_ADDR_EMPTY)
    (hfi : el_b.first_in_arc = SC_ADDR_EMPTY) :
    getLiveEl (_sc_storage_make_elements_incident_to_arc s arc bAddr bAddr)
        arc =
      some { elA with arc := { elA.arc with
        next_out_arc := SC_ADDR_EMPTY, next_in_arc := SC_ADDR_EMPTY } } ∧
    getLiveEl (_sc_storage_make_elements_incident_to_arc s arc bAddr bAddr)
        bAddr =
      some { el_b with
        first_out_arc := arc
        first_in_arc := arc
        output_arcs_count := inc32 el_b.output_arcs_count
        input_arcs_count := inc32 el_b.input_arcs_count } ∧
    (∀ x, x ≠ arc → x ≠ bAddr →
      getLiveEl (_sc_storage_make_elements_incident_to_arc s arc bAddr bAddr)
        x = getLiveEl s x) := by
  have hsA := (sc_addr_guard_rejects_elim (getLiveEl_eq_some_elim hA).1).1
  have hsb := (sc_addr_guard_rejects_elim (getLiveEl_eq_some_elim hb).1).1
  have hexA := (getLiveEl_eq_some_elim hA).2.choose_spec.2.2
  have hexb := (getLiveEl_eq_some_elim hb).2.choose_spec.2.2
  unfold _sc_storage_make_elements_incident_to_arc
  dsimp only
  rw [slotAt_of_live hb, hfo, hfi]
  rw [show (decide (SC_ADDR_EMPTY ≠ SC_ADDR_EMPTY) &&
    slotReached s SC_ADDR_EMPTY) = false from rfl]
  simp only [Bool.false_eq_true, if_false]
  set t1 := updEl s arc (fun el =>
    { el with arc := { el.arc with
        next_out_arc := SC_ADDR_EMPTY, next_in_arc := SC_ADDR_EMPTY } })
    with ht1
  have h1A : getLiveEl t1 arc = some { elA with arc := { elA.arc with
      next_out_arc := SC_ADDR_EMPTY, next_in_arc := SC_ADDR_EMPTY } } :=
    getLiveEl_updEl_self_exist s arc _ elA hA hexA
  have h1b : getLiveEl t1 bAddr = some el_b := by
    rw [ht1, getLiveEl_updEl_ne s arc _ hsA bAddr (Or.inl hab)]
    exact hb
  set t4 := updEl t1 bAddr (fun el => { el with first_out_arc := arc })
    with ht4
  have h4A : getLiveEl t4 arc = some { elA with arc := { elA.arc with
      next_out_arc := SC_ADDR_EMPTY, next_in_arc := SC_ADDR_EMPTY } } := by
    rw [ht4, getLiveEl_updEl_ne t1 bAddr _ hsb arc (Or.inl (Ne.symm hab))]
    exact h1A
  have h4b : getLiveEl t4 bAddr = some { el_b with first_out_arc := arc } :=
    getLiveEl_updEl_self_exist t1 bAddr _ el_b h1b hexb
  set t5 := updEl t4 bAddr (fun el => { el with first_in_arc := arc })
    with ht5
  have h5A : getLiveEl t5 arc = some { elA with arc := { elA.arc with
      next_out_arc := SC_ADDR_EMPTY, next_in_arc := SC_ADDR_EMPTY } } := by
    rw [ht5, getLiveEl_updEl_ne t4 bAddr _ hsb arc (Or.inl (Ne.symm hab))]
    exact h4A
  have h5b : getLiveEl t5 bAddr = some { el_b with
      first_out_arc := arc
      first_in_arc := arc } :=
    getLiveEl_updEl_self_exist t4 bAddr _ _ h4b hexb
  set t6 := updEl t5 bAddr (fun el =>
    { el with output_arcs_count := inc32 el.output_arcs_count }) with ht6
  have h6A : getLiveEl t6 arc = some { elA with arc := { elA.arc with
      next_out_arc := SC_ADDR_EMPTY, next_in_arc := SC_ADDR_EMPTY } } := by
    rw [ht6, getLiveEl_updEl_ne t5 bAddr _ hsb arc (Or.inl (Ne.symm hab))]
    exact h5A
  have h6b : getLiveEl t6 bAddr = some { el_b with
      first_out_arc := arc
      first_in_arc := arc
      output_arcs_count := inc32 el_b.output_arcs_count } :=
    getLiveEl_updEl_self_exist t5 bAddr _ _ h5b hexb
  refine ⟨?_, ?_, ?_⟩
  · rw [getLiveEl_updEl_ne t6 bAddr _ hsb arc (Or.inl (Ne.symm hab))]
    exact h6A
  · exact getLiveEl_updEl_self_exist t6 bAddr _ _ h6b hexb
  · intro x hxA hxb
    rw [getLiveEl_updEl_ne t6 bAddr _ hsb x (Or.inl hxb), ht6,
      getLiveEl_updEl_ne t5 bAddr _ hsb x (Or.inl hxb), ht5,
      getLiveEl_updEl_ne t4 bAddr _ hsb x (Or.inl hxb), ht4,
      getLiveEl_updEl_ne t1 bAddr _ hsb x (Or.inl hxb), ht1,
      getLiveEl_updEl_ne s arc _ hsA x (Or.inl hxA)]

/-- Unlinking an undirected edge between distinct endpoints when the edge
has no list neighbours: both endpoints lose both heads and both counters,
and nothing else changes. -/
theorem unlink_connector_single_edge (s0 : ScStorage) (arc b e : ScAddr)
    (t acc : Nat) (el_b2 el_e2 : ScElement)
    (hne : b ≠ e) (_hba : b ≠ arc) (_hea : e ≠ arc)
    (hedge : t &&& sc_type_edge_common = sc_type_edge_common)
    (hb0 : getLiveEl s0 b = some el_b2)
    (he0 : getLiveEl s0 e = some el_e2)
    (hfob : el_b2.first_out_arc = arc) (hfib : el_b2.first_in_arc = arc)
    (hfoe : el_e2.first_out_arc = arc) (hfie : el_e2.first_in_arc = arc) :
    getLiveEl (_sc_element_free_unlink_connector s0 arc
        { type := t, access_levels := acc,
          arc := { beginAddr := b, endAddr := e } }).1 b =
      some { el_b2 with
        first_out_arc := SC_ADDR_EMPTY
        first_in_arc := SC_ADDR_EMPTY
        output_arcs_count := dec32 el_b2.output_arcs_count
        input_arcs_count := dec32 el_b2.input_arcs_count } ∧
    getLiveEl (_sc_element_free_unlink_connector s0 arc
        { type := t, access_levels := acc,
          arc := { beginAddr := b, endAddr := e } }).1 e =
      some { el_e2 with
        first_out_arc := SC_ADDR_EMPTY
        first_in_arc := SC_ADDR_EMPTY
        output_arcs_count := dec32 el_e2.output_arcs_count
        input_arcs_count := dec32 el_e2.input_arcs_count } ∧
    (∀ x, x ≠ b → x ≠ e →
      getLiveEl (_sc_element_free_unlink_connector s0 arc
        { type := t, access_levels := acc,
          arc := { beginAddr := b, endAddr := e } }).1 x =
      getLiveEl s0 x) := by
  have hsb := (sc_addr_guard_rejects_elim (getLiveEl_eq_some_elim hb0).1).1
  have hse := (sc_addr_guard_rejects_elim (getLiveEl_eq_some_elim he0).1).1
  have hexb := (getLiveEl_eq_some_elim hb0).2.choose_spec.2.2
  have hexe := (getLiveEl_eq_some_elim he0).2.choose_spec.2.2
  have hcond : (t &&& sc_type_edge_common ≠ 0) ∧ b ≠ e :=
    ⟨edge_bit_ne_zero t hedge, hne⟩
  have hnn : ¬(SC_ADDR_EMPTY ≠ SC_ADDR_EMPTY) := fun h => h rfl
  unfold _sc_element_free_unlink_connector
  dsimp only
  simp only [if_neg hnn]
  rw [if_pos (getLiveEl_some_isOk hb0)]
  set gb := fun b_el : ScElement =>
    let b1 := if arc = b_el.first_out_arc then
        { b_el with first_out_arc := SC_ADDR_EMPTY } else b_el
    let b2 := { b1 with output_arcs_count := dec32 b1.output_arcs_count }
    if (t &&& sc_type_edge_common ≠ 0) ∧ b ≠ e then
      let b3 := if arc = b2.first_in_arc then
          { b2 with first_in_arc := SC_ADDR_EMPTY } else b2
      { b3 with input_arcs_count := dec32 b3.input_arcs_count }
    else b2 with hgb
  have hgbv : gb el_b2 = { el_b2 with
      first_out_arc := SC_ADDR_EMPTY
      first_in_arc := SC_ADDR_EMPTY
      output_arcs_count := dec32 el_b2.output_arcs_count
      input_arcs_count := dec32 el_b2.input_arcs_count } := by
    rw [hgb]
    dsimp only
    rw [hfob, if_pos rfl, if_pos hcond]
    dsimp only
    rw [hfib, if_pos rfl]
  set t3 := updEl s0 b gb with ht3
  have h3b : getLiveEl t3 b = some { el_b2 with
      first_out_arc := SC_ADDR_EMPTY
      first_in_arc := SC_ADDR_EMPTY
      output_arcs_count := dec32 el_b2.output_arcs_count
      input_arcs_count := dec32 el_b2.input_arcs_count } := by
    have h := getLiveEl_updEl_self_exist s0 b gb el_b2 hb0
      (by rw [hgbv]; exact hexb)
    rw [hgbv] at h
    exact h
  have h3e : getLiveEl t3 e = some el_e2 := by
    rw [ht3, getLiveEl_updEl_ne s0 b _ hsb e (Or.inl (Ne.symm hne))]
    exact he0
  have h3x : ∀ x, x ≠ b → getLiveEl t3 x = getLiveEl s0 x := by
    intro x hx
    rw [ht3, getLiveEl_updEl_ne s0 b _ hsb x (Or.inl hx)]
  rw [if_pos (getLiveEl_some_isOk h3e)]
  set ge := fun e_el : ScElement =>
    let e1 := if arc = e_el.first_in_arc then
        { e_el with first_in_arc := SC_ADDR_EMPTY } else e_el
    let e2 := { e1 with input_arcs_count := dec32 e1.input_arcs_count }
    if (t &&& sc_type_edge_common ≠ 0) ∧ b ≠ e then
      let e3 := if arc = e2.first_out_arc then
          { e2 with first_out_arc := SC_ADDR_EMPTY } else e2
      { e3 with output_arcs_count := dec32 e3.output_arcs_count }
    else e2 with hge
  have hgev : ge el_e2 = { el_e2 with
      first_out_arc := SC_ADDR_EMPTY
      first_in_arc := SC_ADDR_EMPTY
      output_arcs_count := dec32 el_e2.output_arcs_count
      input_arcs_count := dec32 el_e2.input_arcs_count } := by
    rw [hge]
    dsimp only
    rw [hfie, if_pos rfl, if_pos hcond]
    dsimp only
    rw [hfoe, if_pos rfl]
  refine ⟨?_, ?_, ?_⟩
  · rw [getLiveEl_updEl_ne t3 e _ hse b (Or.inl hne)]
    exact h3b
  · have h := getLiveEl_updEl_self_exist t3 e ge el_e2 h3e
      (by rw [hgev]; exact hexe)
    rw [hgev] at h
    exact h
  · intro x hxb hxe
    rw [getLiveEl_updEl_ne t3 e _ hse x (Or.inl hxe)]
    exact h3x x hxb

/-- Erasing an undirected edge with no list neighbours: the call frees
exactly the edge, both endpoints lose both heads and both counters, and
every other address resolves as before. -/
theorem element_free_single_edge (S : ScStorage) (arc b e : ScAddr) (t : Nat)
    (el_b2 el_e2 : ScElement)
    (hne : b ≠ e) (hba : b ≠ arc) (hea : e ≠ arc)
    (hedge : t &&& sc_type_edge_common = sc_type_edge_common)
    (hnotlink : t &&& sc_type_link = 0)
    (hA : getLiveEl S arc = some
      { type := t
        access_levels := SC_ACCESS_LVL_ELEMENT_EXIST
        arc := { beginAddr := b, endAddr := e } })
    (hb : getLiveEl S b = some el_b2)
    (he : getLiveEl S e = some el_e2)
    (hfob : el_b2.first_out_arc = arc) (hfib : el_b2.first_in_arc = arc)
    (hfoe : el_e2.first_out_arc = arc) (hfie : el_e2.first_in_arc = arc) :
    ∃ s2 evs,
      sc_storage_element_free S arc 2 1 = (s2, ScResult.ok, evs, [arc]) ∧
      getLiveEl s2 arc = none ∧
      getLiveEl s2 b = some { el_b2 with
        first_out_arc := SC_ADDR_EMPTY
        first_in_arc := SC_ADDR_EMPTY
        output_arcs_count := dec32 el_b2.output_arcs_count
        input_arcs_count := dec32 el_b2.input_arcs_count } ∧
      getLiveEl s2 e = some { el_e2 with
        first_out_arc := SC_ADDR_EMPTY
        first_in_arc := SC_ADDR_EMPTY
        output_arcs_count := dec32 el_e2.output_arcs_count
        input_arcs_count := dec32 el_e2.input_arcs_count } ∧
      (∀ x, x ≠ arc → x ≠ b → x ≠ e → getLiveEl s2 x = getLiveEl S x) := by
  have hok := getLiveEl_some_isOk hA
  have hsA := (sc_addr_guard_rejects_elim (getLiveEl_eq_some_elim hA).1).1
  have hcond : ¬((sc_storage_get_element_by_addr S arc).1 ≠ ScResult.ok ∨
      (slotAt S arc).access_levels &&& SC_ACCESS_LVL_REQUEST_DELETION =
        SC_ACCESS_LVL_REQUEST_DELETION) := by
    rw [slotAt_of_live hA]
    exact fun h => h.elim (fun h2 => h2 hok) (fun h2 => absurd h2
      (show ¬(SC_ACCESS_LVL_ELEMENT_EXIST &&& SC_ACCESS_LVL_REQUEST_DELETION =
        SC_ACCESS_LVL_REQUEST_DELETION) from by decide))
  unfold sc_storage_element_free
  rw [if_neg (fun h => h hok)]
  dsimp only
  rw [collect_loop_single S 1 arc _ hA rfl rfl]
  unfold _sc_element_free_remove_loop
  unfold _sc_element_free_remove_one
  rw [if_neg hcond]
  dsimp only
  have h0A : getLiveEl (updEl S arc (fun el2 =>
      { el2 with access_levels :=
          el2.access_levels ||| SC_ACCESS_LVL_REQUEST_DELETION })) arc =
      some
        { type := t
          access_levels :=
            SC_ACCESS_LVL_ELEMENT_EXIST ||| SC_ACCESS_LVL_REQUEST_DELETION
          arc := { beginAddr := b, endAddr := e } } :=
    getLiveEl_updEl_self_exist S arc _ _ hA
      (show (SC_ACCESS_LVL_ELEMENT_EXIST ||| SC_ACCESS_LVL_REQUEST_DELETION) &&&
          SC_ACCESS_LVL_ELEMENT_EXIST = SC_ACCESS_LVL_ELEMENT_EXIST from
        by decide)
  have h0slot := slotAt_of_live h0A
  rw [h0slot]
  dsimp only
  rw [if_neg (fun h => h hnotlink), if_pos (arc_mask_of_edge t hedge)]
  have h0b : getLiveEl (updEl S arc (fun el2 =>
      { el2 with access_levels :=
          el2.access_levels ||| SC_ACCESS_LVL_REQUEST_DELETION })) b =
      some el_b2 := by
    rw [getLiveEl_updEl_ne S arc _ hsA b (Or.inl hba)]
    exact hb
  have h0e : getLiveEl (updEl S arc (fun el2 =>
      { el2 with access_levels :=
          el2.access_levels ||| SC_ACCESS_LVL_REQUEST_DELETION })) e =
      some el_e2 := by
    rw [getLiveEl_updEl_ne S arc _ hsA e (Or.inl hea)]
    exact he
  obtain ⟨hub, hue, hux⟩ := unlink_connector_single_edge
    (updEl S arc (fun el2 =>
      { el2 with access_levels :=
          el2.access_levels ||| SC_ACCESS_LVL_REQUEST_DELETION }))
    arc b e t
    (SC_ACCESS_LVL_ELEMENT_EXIST ||| SC_ACCESS_LVL_REQUEST_DELETION)
    el_b2 el_e2 hne hba hea hedge h0b h0e hfob hfib hfoe hfie
  rcases hu : _sc_element_free_unlink_connector
      (updEl S arc (fun el2 =>
        { el2 with access_levels :=
            el2.access_levels ||| SC_ACCESS_LVL_REQUEST_DELETION }))
      arc
      { type := t
        access_levels :=
          SC_ACCESS_LVL_ELEMENT_EXIST ||| SC_ACCESS_LVL_REQUEST_DELETION
        arc := { beginAddr := b, endAddr := e } }
    with ⟨s6, evs6⟩
  rw [hu] at hub hue hux
  dsimp only at hub hue hux
  have h6A : getLiveEl s6 arc =
      some
        { type := t
          access_levels :=
            SC_ACCESS_LVL_ELEMENT_EXIST ||| SC_ACCESS_LVL_REQUEST_DELETION
          arc := { beginAddr := b, endAddr := e } } := by
    rw [hux arc (Ne.symm hba) (Ne.symm hea)]
    exact h0A
  rcases hfe : sc_storage_free_element s6 arc with ⟨sf, rf⟩
  rcases free_element_spec s6 arc sf rf (getLiveEl_some_isOk h6A) hfe with
    ⟨hffo, hffd, _⟩
  refine ⟨sf, _, rfl, hffd, ?_, ?_, ?_⟩
  · rw [hffo b hba]
    exact hub
  · rw [hffo e hea]
    exact hue
  · intro x hxA hxb hxe
    rw [hffo x hxA, hux x hxb hxe,
      getLiveEl_updEl_ne S arc _ hsA x (Or.inl hxA)]

/-- The storage side of the linking tail for an undirected edge between
distinct endpoints: two symmetric threadings. -/
theorem arc_new_link_fst_edge (s2 : ScStorage) (t : Nat) (b e arc : ScAddr)
    (hcond : (t &&& sc_type_edge_common = sc_type_edge_common) ∧ b ≠ e) :
    (_sc_storage_arc_new_link s2 t b e arc).1 =
      _sc_storage_make_elements_incident_to_arc
        (_sc_storage_make_elements_incident_to_arc s2 arc b e) arc e b := by
  unfold _sc_storage_arc_new_link
  dsimp only
  rw [if_pos hcond]

/-- The storage side of the linking tail for a self-loop: one threading. -/
theorem arc_new_link_fst_loop (s2 : ScStorage) (t : Nat) (b arc : ScAddr) :
    (_sc_storage_arc_new_link s2 t b b arc).1 =
      _sc_storage_make_elements_incident_to_arc s2 arc b b := by
  unfold _sc_storage_arc_new_link
  dsimp only
  rw [if_neg (fun h => h.2 rfl)]

/-- The number of creation events of the linking tail. -/
theorem arc_new_link_events_length (s2 : ScStorage) (t : Nat)
    (b e arc : ScAddr) :
    (_sc_storage_arc_new_link s2 t b e arc).2.2.length =
      if (t &&& sc_type_edge_common = sc_type_edge_common) ∧ b ≠ e then 4
      else 2 := by
  unfold _sc_storage_arc_new_link
  dsimp only
  split <;> simp

/-- Undoing a bump of both heads and both counters restores the element. -/
theorem unbump_eq (el : ScElement)
    (hfo : el.first_out_arc = SC_ADDR_EMPTY)
    (hfi : el.first_in_arc = SC_ADDR_EMPTY)
    (h1 : el.output_arcs_count < U32_MOD)
    (h2 : el.input_arcs_count < U32_MOD) :
    ({ el with
      first_out_arc := SC_ADDR_EMPTY
      first_in_arc := SC_ADDR_EMPTY
      output_arcs_count := dec32 (inc32 el.output_arcs_count)
      input_arcs_count := dec32 (inc32 el.input_arcs_count) } : ScElement) =
      el := by
  cases el with
  | mk ty acc ar fo fi oc ic =>
    dsimp only at hfo hfi h1 h2 ⊢
    rw [dec32_inc32 oc h1, dec32_inc32 ic h2, hfo, hfi]

/-- Claim C4: creating an undirected edge between two distinct live
endpoints (whose incidence lists are empty, so the list heads are
observable) threads it at the head of both endpoints out-lists and both
in-lists, incrementing all four counters by one; erasing it frees exactly
the edge, restores both endpoints to their prior value (heads unlinked,
counters decremented back), and touches nothing else.  For a self-loop the
symmetric linking is not performed: the single endpoint becomes both heads,
each counter is bumped once, and only the two base creation events are
emitted. -/
theorem C4_undirected_edge_double_threading (s : ScStorage) (t : Nat)
    (b e : ScAddr) (el_b el_e : ScElement) (hwf : AllocWF s)
    (hb : getLiveEl s b = some el_b) (he : getLiveEl s e = some el_e)
    (hedge : t &&& sc_type_edge_common = sc_type_edge_common)
    (hnotlink : t &&& sc_type_link = 0)
    (hfo_b : el_b.first_out_arc = SC_ADDR_EMPTY)
    (hfi_b : el_b.first_in_arc = SC_ADDR_EMPTY)
    (hfo_e : el_e.first_out_arc = SC_ADDR_EMPTY)
    (hfi_e : el_e.first_in_arc = SC_ADDR_EMPTY)
    (hc1 : el_b.output_arcs_count < U32_MOD)
    (hc2 : el_b.input_arcs_count < U32_MOD)
    (hc3 : el_e.output_arcs_count < U32_MOD)
    (hc4 : el_e.input_arcs_count < U32_MOD)
    (hret : (sc_storage_arc_new s t b e).2.1 ≠ SC_ADDR_EMPTY) :
    (b ≠ e →
      getLiveEl (sc_storage_arc_new s t b e).1 b = some
        { el_b with
          first_out_arc := (sc_storage_arc_new s t b e).2.1
          first_in_arc := (sc_storage_arc_new s t b e).2.1
          output_arcs_count := inc32 el_b.output_arcs_count
          input_arcs_count := inc32 el_b.input_arcs_count } ∧
      getLiveEl (sc_storage_arc_new s t b e).1 e = some
        { el_e with
          first_out_arc := (sc_storage_arc_new s t b e).2.1
          first_in_arc := (sc_storage_arc_new s t b e).2.1
          output_arcs_count := inc32 el_e.output_arcs_count
          input_arcs_count := inc32 el_e.input_arcs_count } ∧
      (sc_storage_arc_new s t b e).2.2.length = 4 ∧
      (∃ s2 evs,
        sc_storage_element_free (sc_storage_arc_new s t b e).1
            (sc_storage_arc_new s t b e).2.1 2 1 =
          (s2, ScResult.ok, evs, [(sc_storage_arc_new s t b e).2.1]) ∧
        getLiveEl s2 b = some el_b ∧
        getLiveEl s2 e = some el_e ∧
        getLiveEl s2 (sc_storage_arc_new s t b e).2.1 = none)) ∧
    (b = e →
      getLiveEl (sc_storage_arc_new s t b e).1 b = some
        { el_b with
          first_out_arc := (sc_storage_arc_new s t b e).2.1
          first_in_arc := (sc_storage_arc_new s t b e).2.1
          output_arcs_count := inc32 el_b.output_arcs_count
          input_arcs_count := inc32 el_b.input_arcs_count } ∧
      (sc_storage_arc_new s t b e).2.2.length = 2) := by
  by_cases hq : b = SC_ADDR_EMPTY ∨ e = SC_ADDR_EMPTY
  · rw [arc_new_eq_of_empty s t b e hq] at hret
    exact absurd rfl hret
  · rcases halloc : sc_storage_allocate_new_element s with ⟨s1, aopt⟩
    cases aopt with
    | none =>
      rw [arc_new_eq_of_alloc_fail s s1 t b e hq halloc] at hret
      exact absurd rfl hret
    | some arc =>
      obtain ⟨h1, h2, h3, h4, h5, h6, h7⟩ :=
        (allocate_new_element_spec s s1 _ hwf halloc).2 arc rfl
      have harcb : b ≠ arc := by
        intro hq2
        rw [hq2, h5] at hb
        exact Option.noConfusion hb
      have harce : e ≠ arc := by
        intro hq2
        rw [hq2, h5] at he
        exact Option.noConfusion he
      have hfb : getLiveEl (_sc_storage_arc_fill s1 t b e arc) b =
          some el_b := by
        unfold _sc_storage_arc_fill
        rw [getLiveEl_updEl_ne s1 arc _ h1 b (Or.inl harcb), h6 b harcb]
        exact hb
      have hfe2 : getLiveEl (_sc_storage_arc_fill s1 t b e arc) e =
          some el_e := by
        unfold _sc_storage_arc_fill
        rw [getLiveEl_updEl_ne s1 arc _ h1 e (Or.inl harce), h6 e harce]
        exact he
      have hfA : getLiveEl (_sc_storage_arc_fill s1 t b e arc) arc = some
          { type := t
            access_levels := SC_ACCESS_LVL_ELEMENT_EXIST
            arc := { beginAddr := b, endAddr := e } } := by
        unfold _sc_storage_arc_fill
        exact getLiveEl_updEl_self_exist s1 arc _ _ h7
          (show SC_ACCESS_LVL_ELEMENT_EXIST &&& SC_ACCESS_LVL_ELEMENT_EXIST =
            SC_ACCESS_LVL_ELEMENT_EXIST from by decide)
      have heq := arc_new_eq_of_success s s1 t b e arc hq halloc
        (getLiveEl_some_isOk hfb) (getLiveEl_some_isOk hfe2)
      have hret2 : (sc_storage_arc_new s t b e).2.1 = arc := by
        rw [heq, arc_new_link_addr]
      constructor
      · intro hne
        obtain ⟨hm1A, hm1b, hm1e, hm1x⟩ := make_incident_spec_ne
          (_sc_storage_arc_fill s1 t b e arc) arc b e _ el_b el_e
          hfA hfb hfe2 harcb harce hne hfo_b hfi_e
        obtain ⟨hm2A, hm2e, hm2b, hm2x⟩ := make_incident_spec_ne
          (_sc_storage_make_elements_incident_to_arc
            (_sc_storage_arc_fill s1 t b e arc) arc b e) arc e b _ _ _
          hm1A hm1e hm1b harce harcb (Ne.symm hne) hfo_e hfi_b
        rw [hret2, heq, arc_new_link_fst_edge _ _ _ _ _ ⟨hedge, hne⟩]
        obtain ⟨s2e, evs2, hefeq, hdarc, herb, here2, _⟩ :=
          element_free_single_edge
            (_sc_storage_make_elements_incident_to_arc
              (_sc_storage_make_elements_incident_to_arc
                (_sc_storage_arc_fill s1 t b e arc) arc b e) arc e b)
            arc b e t _ _ hne harcb harce hedge hnotlink
            hm2A hm2b hm2e rfl rfl rfl rfl
        refine ⟨hm2b, hm2e, ?_, s2e, evs2, hefeq, ?_, ?_, hdarc⟩
        · rw [arc_new_link_events_length, if_pos ⟨hedge, hne⟩]
        · rw [← unbump_eq el_b hfo_b hfi_b hc1 hc2]
          exact herb
        · rw [← unbump_eq el_e hfo_e hfi_e hc3 hc4]
          exact here2
      · intro heqbe
        subst heqbe
        have hel : el_b = el_e := Option.some.inj (hb.symm.trans he)
        subst hel
        obtain ⟨hmlA, hmlb, hmlx⟩ := make_incident_spec_loop
          (_sc_storage_arc_fill s1 t b b arc) arc b _ el_b
          hfA hfb harcb hfo_b hfi_b
        rw [hret2, heq, arc_new_link_fst_loop]
        refine ⟨hmlb, ?_⟩
        rw [arc_new_link_events_length, if_neg (fun h => h.2 rfl)]

/-- Witness for C4 on the two-node storage: creating an undirected edge
between the two nodes emits four events, and erasing it frees exactly the
edge and restores both nodes. -/
theorem C4_witness :
    (sc_storage_arc_new stor_two_nodes sc_type_edge_common
      ⟨1, 1⟩ ⟨1, 2⟩).2.2.length = 4 ∧
    (∃ s2 evs,
      sc_storage_element_free
          (sc_storage_arc_new stor_two_nodes sc_type_edge_common
            ⟨1, 1⟩ ⟨1, 2⟩).1
          (sc_storage_arc_new stor_two_nodes sc_type_edge_common
            ⟨1, 1⟩ ⟨1, 2⟩).2.1 2 1 =
        (s2, ScResult.ok, evs,
          [(sc_storage_arc_new stor_two_nodes sc_type_edge_common
            ⟨1, 1⟩ ⟨1, 2⟩).2.1]) ∧
      getLiveEl s2 ⟨1, 1⟩ = some
        { type := sc_type_node
          access_levels := SC_ACCESS_LVL_ELEMENT_EXIST } ∧
      getLiveEl s2 ⟨1, 2⟩ = some
        { type := sc_type_node
          access_levels := SC_ACCESS_LVL_ELEMENT_EXIST } ∧
      getLiveEl s2 (sc_storage_arc_new stor_two_nodes sc_type_edge_common
        ⟨1, 1⟩ ⟨1, 2⟩).2.1 = none) :=
  let h := (C4_undirected_edge_double_threading stor_two_nodes
    sc_type_edge_common ⟨1, 1⟩ ⟨1, 2⟩
    { type := sc_type_node, access_levels := SC_ACCESS_LVL_ELEMENT_EXIST }
    { type := sc_type_node, access_levels := SC_ACCESS_LVL_ELEMENT_EXIST }
    AllocWF_stor_two_nodes (by decide) (by decide) (by decide) (by decide)
    (by decide) (by decide) (by decide) (by decide) (by decide) (by decide)
    (by decide) (by decide) (by decide)).1 (by decide)
  ⟨h.2.2.1, h.2.2.2⟩

end ScMachine
